import Mathlib

/-!
Verification of the algorithm-visualizer repository.

The sorting visualizer stores an array of bars `{ value, state }`.  All
decisions taken by the four sorting recorders depend only on the `value`
field, and the replay semantics named by the specification (the `swap` and
`overwrite` cases of `animateSort`) touch only the `value` field as well
(`state` is presentation colouring).  Bars are therefore embedded as their
numeric `value`.
-/

namespace AlgViz

/-- One animation event pushed by the sorting recorders of
`SortingVisualizer` (`bubbleSort`, `mergeSort`, `quickSort`,
`insertionSort`).  `compare`/`reset` carry the two highlighted indices;
`sorted`, `pivot` and `resetPivot` carry one index; `swap` carries the two
exchanged slots and `overwrite` an index together with the written value. -/
inductive SEvent : Type
  | compare (i j : Nat)
  | swap (i j : Nat)
  | reset (i j : Nat)
  | sorted (i : Nat)
  | pivot (i : Nat)
  | resetPivot (i : Nat)
  | overwrite (i : Nat) (v : Nat)
  deriving DecidableEq, Repr

/-- The `swap` case of the `animateSort` apply function:
`temp = a[i]; a[i] = a[j]; a[j] = temp`. -/
def listSwap (l : List Nat) (i j : Nat) : List Nat :=
  (l.set i (l.getD j 0)).set j (l.getD i 0)

/-- The apply function of `animateSort`, restricted to the `value` field of
the bars: `swap` exchanges the two indexed slots, `overwrite` writes the
given value at the index and every other event leaves the values alone. -/
def applyEvent (l : List Nat) : SEvent → List Nat
  | .swap i j => listSwap l i j
  | .overwrite i v => l.set i v
  | _ => l

/-- Replaying an event sequence in order onto a copy of the input. -/
def replay (l : List Nat) (es : List SEvent) : List Nat :=
  es.foldl applyEvent l

/-- Inner loop of `bubbleSort`: `for (j = 0; j < n - i - 1; j++)`, emitting
`compare`, conditionally swapping (and emitting `swap`), then emitting
`reset`.  `cnt` is the number of iterations left, `j` the current index.
Returns the final working copy together with the emitted events. -/
def bubbleInner (a : List Nat) (j : Nat) : Nat → List Nat × List SEvent
  | 0 => (a, [])
  | cnt + 1 =>
    if a.getD j 0 > a.getD (j + 1) 0 then
      let r := bubbleInner (listSwap a j (j + 1)) (j + 1) cnt
      (r.1, SEvent.compare j (j + 1) :: SEvent.swap j (j + 1) ::
        SEvent.reset j (j + 1) :: r.2)
    else
      let r := bubbleInner a (j + 1) cnt
      (r.1, SEvent.compare j (j + 1) :: SEvent.reset j (j + 1) :: r.2)

/-- Outer loop of `bubbleSort`: `for (i = 0; i < n; i++)`, one inner pass of
`n - i - 1` steps followed by the `sorted` mark at `n - i - 1`.  `cnt` is
the number of outer iterations left. -/
def bubbleOuter (a : List Nat) (n i : Nat) : Nat → List Nat × List SEvent
  | 0 => (a, [])
  | cnt + 1 =>
    let r := bubbleInner a 0 (n - i - 1)
    let r2 := bubbleOuter r.1 n (i + 1) cnt
    (r2.1, r.2 ++ SEvent.sorted (n - i - 1) :: r2.2)

/-- The `bubbleSort` recorder: the final working copy and the animation
list recorded on a copy of the input array. -/
def bubbleSort (a : List Nat) : List Nat × List SEvent :=
  bubbleOuter a a.length 0 a.length

/-- `Sorted0 m a`: the first `m` entries of `a` are pairwise nondecreasing. -/
def Sorted0 (m : Nat) (a : List Nat) : Prop :=
  ∀ p q, p ≤ q → q < m → a.getD p 0 ≤ a.getD q 0

theorem length_listSwap (l : List Nat) (i j : Nat) :
    (listSwap l i j).length = l.length := by
  simp [listSwap]

theorem getD_set_self (l : List Nat) {i : Nat} (v : Nat) (h : i < l.length) :
    (l.set i v).getD i 0 = v := by
  rw [List.getD_eq_getElem?_getD, List.getElem?_set_self h]
  rfl

theorem getD_set_ne (l : List Nat) {i j : Nat} (v : Nat) (h : i ≠ j) :
    (l.set i v).getD j 0 = l.getD j 0 := by
  rw [List.getD_eq_getElem?_getD, List.getElem?_set_ne h,
    ← List.getD_eq_getElem?_getD]

theorem set_getD_self (l : List Nat) (i : Nat) :
    l.set i (l.getD i 0) = l := by
  apply List.ext_getElem?
  intro n
  by_cases hn : i = n
  · subst hn
    by_cases hi : i < l.length
    · rw [List.getElem?_set_self hi, List.getD_eq_getElem _ _ hi,
        List.getElem?_eq_getElem hi]
    · rw [List.set_eq_of_length_le (Nat.le_of_not_lt hi)]
  · rw [List.getElem?_set_ne hn]

theorem listSwap_self (l : List Nat) (i : Nat) : listSwap l i i = l := by
  rw [listSwap, List.set_set, set_getD_self]

theorem listSwap_comm (l : List Nat) (i j : Nat) :
    listSwap l i j = listSwap l j i := by
  by_cases h : i = j
  · subst h; rfl
  · rw [listSwap, listSwap, List.set_comm _ _ _ h]

theorem getD_listSwap_left (l : List Nat) {i j : Nat}
    (hi : i < l.length) :
    (listSwap l i j).getD i 0 = l.getD j 0 := by
  by_cases h : j = i
  · subst h
    rw [listSwap_self]
  · rw [listSwap, getD_set_ne _ _ h, getD_set_self _ _ hi]

theorem getD_listSwap_right (l : List Nat) {i j : Nat}
    (hj : j < l.length) :
    (listSwap l i j).getD j 0 = l.getD i 0 := by
  rw [listSwap, getD_set_self]
  simpa using hj

theorem getD_listSwap_other (l : List Nat) {i j t : Nat}
    (hti : t ≠ i) (htj : t ≠ j) :
    (listSwap l i j).getD t 0 = l.getD t 0 := by
  rw [listSwap, getD_set_ne _ _ (fun h => htj h.symm),
    getD_set_ne _ _ (fun h => hti h.symm)]

theorem cons_set_perm (x : Nat) (xs : List Nat) {j : Nat} (h : j < xs.length) :
    (xs.getD j 0 :: xs.set j x).Perm (x :: xs) := by
  induction xs generalizing j with
  | nil => simp at h
  | cons y ys ih =>
    cases j with
    | zero =>
      simpa using List.Perm.swap x y ys
    | succ j =>
      have hj : j < ys.length := by simpa using h
      have h1 : (ys.getD j 0 :: (y :: ys.set j x)).Perm
          (y :: ys.getD j 0 :: ys.set j x) := List.Perm.swap y (ys.getD j 0) _
      have h2 : (y :: ys.getD j 0 :: ys.set j x).Perm (y :: x :: ys) :=
        List.Perm.cons _ (ih hj)
      have h3 : (y :: x :: ys).Perm (x :: y :: ys) := List.Perm.swap x y ys
      exact (h1.trans h2).trans h3

theorem listSwap_perm_le (l : List Nat) {i j : Nat} (hij : i ≤ j)
    (hj : j < l.length) : (listSwap l i j).Perm l := by
  induction l generalizing i j with
  | nil => simp at hj
  | cons x xs ih =>
    cases i with
    | zero =>
      cases j with
      | zero => rw [listSwap_self]
      | succ j =>
        have hj' : j < xs.length := by simpa using hj
        have hx : listSwap (x :: xs) 0 (j + 1) = xs.getD j 0 :: xs.set j x := by
          simp [listSwap, List.getD_cons_succ]
        rw [hx]
        exact cons_set_perm x xs hj'
    | succ i =>
      cases j with
      | zero => exact absurd hij (by omega)
      | succ j =>
        have hx : listSwap (x :: xs) (i + 1) (j + 1) = x :: listSwap xs i j := by
          simp [listSwap, List.getD_cons_succ]
        rw [hx]
        exact List.Perm.cons _ (ih (by omega) (by simpa using hj))

theorem listSwap_perm (l : List Nat) {i j : Nat}
    (hi : i < l.length) (hj : j < l.length) : (listSwap l i j).Perm l := by
  rcases Nat.le_total i j with h | h
  · exact listSwap_perm_le l h hj
  · rw [listSwap_comm]
    exact listSwap_perm_le l h hi

/-- Full specification of one bubble pass over the index window
`[j, j+cnt]`: length and multiset are preserved, entries outside the window
are untouched, the final entry of the window dominates both the original
and the final window entries, and every final window entry is one of the
original window entries. -/
theorem bubbleInner_spec (cnt : Nat) : ∀ (a : List Nat) (j : Nat),
    j + cnt < a.length →
    (bubbleInner a j cnt).1.length = a.length ∧
    (bubbleInner a j cnt).1.Perm a ∧
    (∀ t, t < j ∨ j + cnt < t →
      (bubbleInner a j cnt).1.getD t 0 = a.getD t 0) ∧
    (∀ t, j ≤ t → t ≤ j + cnt →
      a.getD t 0 ≤ (bubbleInner a j cnt).1.getD (j + cnt) 0) ∧
    (∀ t, j ≤ t → t ≤ j + cnt →
      (bubbleInner a j cnt).1.getD t 0 ≤
        (bubbleInner a j cnt).1.getD (j + cnt) 0) ∧
    (∀ t, j ≤ t → t ≤ j + cnt →
      ∃ s, j ≤ s ∧ s ≤ j + cnt ∧
        (bubbleInner a j cnt).1.getD t 0 = a.getD s 0) := by
  induction cnt with
  | zero =>
    intro a j hlen
    refine ⟨rfl, List.Perm.refl a, fun t _ => rfl, ?_, ?_, ?_⟩
    · intro t h1 h2
      have ht : t = j + 0 := by omega
      subst ht; exact le_refl _
    · intro t h1 h2
      have ht : t = j + 0 := by omega
      subst ht; exact le_refl _
    · intro t h1 h2
      exact ⟨t, h1, h2, rfl⟩
  | succ cnt ih =>
    intro a j hlen
    by_cases hgt : a.getD j 0 > a.getD (j + 1) 0
    · -- swap branch
      have hdef : bubbleInner a j (cnt + 1) =
          (let r := bubbleInner (listSwap a j (j + 1)) (j + 1) cnt
           (r.1, SEvent.compare j (j + 1) :: SEvent.swap j (j + 1) ::
             SEvent.reset j (j + 1) :: r.2)) := by
        rw [bubbleInner, if_pos hgt]
      set a1 := listSwap a j (j + 1) with ha1
      have hj1 : j + 1 < a.length := by omega
      have hjlt : j < a.length := by omega
      have hlen1 : a1.length = a.length := length_listSwap a j (j + 1)
      have hlen' : (j + 1) + cnt < a1.length := by omega
      obtain ⟨ihlen, ihperm, ihframe, ihorig, ihdom, ihmem⟩ := ih a1 (j + 1) hlen'
      have hfst : (bubbleInner a j (cnt + 1)).1 =
          (bubbleInner a1 (j + 1) cnt).1 := by rw [hdef]
      have hLeq : (j + 1) + cnt = j + (cnt + 1) := by omega
      have ha1j : a1.getD j 0 = a.getD (j + 1) 0 := getD_listSwap_left a hjlt
      have ha1j1 : a1.getD (j + 1) 0 = a.getD j 0 := getD_listSwap_right a hj1
      refine ⟨?_, ?_, ?_, ?_, ?_, ?_⟩
      · rw [hfst, ihlen]; exact hlen1
      · rw [hfst]
        exact ihperm.trans (listSwap_perm a hjlt hj1)
      · intro t ht
        rw [hfst]
        have h1 : (bubbleInner a1 (j + 1) cnt).1.getD t 0 = a1.getD t 0 := by
          apply ihframe; omega
        have h2 : a1.getD t 0 = a.getD t 0 := by
          apply getD_listSwap_other <;> omega
        rw [h1, h2]
      · intro t ht1 ht2
        rw [hfst, ← hLeq]
        rcases Nat.lt_or_ge t (j + 1) with h | h
        · -- t = j
          have ht : t = j := by omega
          subst ht
          have : a.getD t 0 ≤ a1.getD (t + 1) 0 := by
            rw [ha1j1]
          exact le_trans this (ihorig (t + 1) (le_refl _) (by omega))
        · rcases Nat.eq_or_lt_of_le h with h' | h'
          · -- t = j + 1
            have : a.getD t 0 ≤ a1.getD (j + 1) 0 := by
              rw [ha1j1, ← h']; omega
            exact le_trans this (ihorig (j + 1) (le_refl _) (by omega))
          · have : a.getD t 0 = a1.getD t 0 := by
              symm; apply getD_listSwap_other <;> omega
            rw [this]
            exact ihorig t h (by omega)
      · intro t ht1 ht2
        rw [hfst, ← hLeq]
        rcases Nat.lt_or_ge t (j + 1) with h | h
        · -- t = j
          have ht : t = j := by omega
          subst ht
          have hb : (bubbleInner a1 (t + 1) cnt).1.getD t 0 = a1.getD t 0 := by
            apply ihframe; omega
          rw [hb, ha1j]
          have : a1.getD (t + 1) 0 = a.getD t 0 := ha1j1
          have h2 : a.getD (t + 1) 0 ≤ a1.getD (t + 1) 0 := by rw [this]; omega
          exact le_trans h2 (ihorig (t + 1) (le_refl _) (by omega))
        · exact ihdom t h (by omega)
      · intro t ht1 ht2
        rw [hfst]
        rcases Nat.lt_or_ge t (j + 1) with h | h
        · -- t = j
          have ht : t = j := by omega
          subst ht
          have hb : (bubbleInner a1 (t + 1) cnt).1.getD t 0 = a1.getD t 0 := by
            apply ihframe; omega
          exact ⟨t + 1, by omega, by omega, by rw [hb, ha1j]⟩
        · obtain ⟨s, hs1, hs2, hs3⟩ := ihmem t h (by omega)
          rcases Nat.eq_or_lt_of_le hs1 with h' | h'
          · refine ⟨j, by omega, by omega, ?_⟩
            rw [hs3, ← h', ha1j1]
          · refine ⟨s, by omega, by omega, ?_⟩
            rw [hs3]
            apply getD_listSwap_other <;> omega
    · -- no-swap branch
      have hdef : bubbleInner a j (cnt + 1) =
          (let r := bubbleInner a (j + 1) cnt
           (r.1, SEvent.compare j (j + 1) :: SEvent.reset j (j + 1) :: r.2)) := by
        rw [bubbleInner, if_neg hgt]
      have hle : a.getD j 0 ≤ a.getD (j + 1) 0 := Nat.le_of_not_lt hgt
      have hlen' : (j + 1) + cnt < a.length := by omega
      obtain ⟨ihlen, ihperm, ihframe, ihorig, ihdom, ihmem⟩ := ih a (j + 1) hlen'
      have hfst : (bubbleInner a j (cnt + 1)).1 =
          (bubbleInner a (j + 1) cnt).1 := by rw [hdef]
      have hLeq : (j + 1) + cnt = j + (cnt + 1) := by omega
      refine ⟨?_, ?_, ?_, ?_, ?_, ?_⟩
      · rw [hfst]; exact ihlen
      · rw [hfst]; exact ihperm
      · intro t ht
        rw [hfst]
        apply ihframe; omega
      · intro t ht1 ht2
        rw [hfst, ← hLeq]
        rcases Nat.lt_or_ge t (j + 1) with h | h
        · have ht : t = j := by omega
          subst ht
          exact le_trans hle (ihorig (t + 1) (le_refl _) (by omega))
        · exact ihorig t h (by omega)
      · intro t ht1 ht2
        rw [hfst, ← hLeq]
        rcases Nat.lt_or_ge t (j + 1) with h | h
        · have ht : t = j := by omega
          subst ht
          have hb : (bubbleInner a (t + 1) cnt).1.getD t 0 = a.getD t 0 := by
            apply ihframe; omega
          rw [hb]
          exact le_trans hle (ihorig (t + 1) (le_refl _) (by omega))
        · exact ihdom t h (by omega)
      · intro t ht1 ht2
        rw [hfst]
        rcases Nat.lt_or_ge t (j + 1) with h | h
        · have ht : t = j := by omega
          subst ht
          have hb : (bubbleInner a (t + 1) cnt).1.getD t 0 = a.getD t 0 := by
            apply ihframe; omega
          exact ⟨t, le_refl _, by omega, hb⟩
        · obtain ⟨s, hs1, hs2, hs3⟩ := ihmem t h (by omega)
          exact ⟨s, by omega, by omega, hs3⟩

theorem replay_append (a : List Nat) (es es2 : List SEvent) :
    replay a (es ++ es2) = replay (replay a es) es2 :=
  List.foldl_append _ _ _ _

/-- The events recorded by one bubble pass replay to the pass's own final
working copy: every mutation of the working copy is a `swap` that is also
emitted, and the other events do not change values. -/
theorem replay_bubbleInner (cnt : Nat) : ∀ (a : List Nat) (j : Nat),
    replay a (bubbleInner a j cnt).2 = (bubbleInner a j cnt).1 := by
  induction cnt with
  | zero => intro a j; rfl
  | succ cnt ih =>
    intro a j
    by_cases hgt : a.getD j 0 > a.getD (j + 1) 0
    · rw [show bubbleInner a j (cnt + 1) =
          (let r := bubbleInner (listSwap a j (j + 1)) (j + 1) cnt
           (r.1, SEvent.compare j (j + 1) :: SEvent.swap j (j + 1) ::
             SEvent.reset j (j + 1) :: r.2)) from by rw [bubbleInner, if_pos hgt]]
      exact ih (listSwap a j (j + 1)) (j + 1)
    · rw [show bubbleInner a j (cnt + 1) =
          (let r := bubbleInner a (j + 1) cnt
           (r.1, SEvent.compare j (j + 1) :: SEvent.reset j (j + 1) :: r.2))
          from by rw [bubbleInner, if_neg hgt]]
      exact ih a (j + 1)

/-- The whole `bubbleSort` event list replays to the recorder's final
working copy. -/
theorem replay_bubbleOuter (cnt : Nat) : ∀ (a : List Nat) (n i : Nat),
    replay a (bubbleOuter a n i cnt).2 = (bubbleOuter a n i cnt).1 := by
  induction cnt with
  | zero => intro a n i; rfl
  | succ cnt ih =>
    intro a n i
    show replay a ((bubbleInner a 0 (n - i - 1)).2 ++
        SEvent.sorted (n - i - 1) :: (bubbleOuter (bubbleInner a 0 (n - i - 1)).1
          n (i + 1) cnt).2) = _
    rw [replay_append, replay_bubbleInner]
    exact ih (bubbleInner a 0 (n - i - 1)).1 n (i + 1)

/-- Invariant-carrying correctness of the outer bubble loop: if the suffix
of length `i` is already sorted and dominates the prefix, the remaining
`cnt = n - i` passes sort the whole list, preserving the multiset. -/
theorem bubbleOuter_spec (cnt : Nat) : ∀ (a : List Nat) (n i : Nat),
    n = a.length → i + cnt = n →
    (∀ p q, n - i ≤ p → p ≤ q → q < a.length → a.getD p 0 ≤ a.getD q 0) →
    (∀ p q, p < n - i → n - i ≤ q → q < a.length →
      a.getD p 0 ≤ a.getD q 0) →
    (bubbleOuter a n i cnt).1.Perm a ∧
    (bubbleOuter a n i cnt).1.length = a.length ∧
    (∀ p q, p ≤ q → q < a.length →
      (bubbleOuter a n i cnt).1.getD p 0 ≤ (bubbleOuter a n i cnt).1.getD q 0) := by
  induction cnt with
  | zero =>
    intro a n i hn hi hsuff _
    refine ⟨List.Perm.refl a, rfl, ?_⟩
    intro p q hpq hq
    have h0 : n - i = 0 := by omega
    exact hsuff p q (by omega) hpq hq
  | succ cnt ih =>
    intro a n i hn hi hsuff hdom
    have hilt : i < n := by omega
    have hn1 : 1 ≤ n := by omega
    set m := n - i with hm
    have hm1 : 1 ≤ m := by omega
    have hinner : 0 + (n - i - 1) < a.length := by omega
    obtain ⟨blen, bperm, bframe, borig, bdom, bmem⟩ :=
      bubbleInner_spec (n - i - 1) a 0 hinner
    set b := (bubbleInner a 0 (n - i - 1)).1 with hb
    have hstep : bubbleOuter a n i (cnt + 1) =
        (let r2 := bubbleOuter b n (i + 1) cnt
         (r2.1, (bubbleInner a 0 (n - i - 1)).2 ++
           SEvent.sorted (n - i - 1) :: r2.2)) := rfl
    have hL : 0 + (n - i - 1) = m - 1 := by omega
    rw [hL] at bframe borig bdom bmem
    -- suffix condition for the next iteration, at boundary m - 1
    have cond1 : ∀ p q, n - (i + 1) ≤ p → p ≤ q → q < b.length →
        b.getD p 0 ≤ b.getD q 0 := by
      intro p q hp hpq hq
      have hq' : q < a.length := by omega
      have hni1 : n - (i + 1) = m - 1 := by omega
      rw [hni1] at hp
      rcases Nat.eq_or_lt_of_le hp with hpe | hpl
      · rcases Nat.eq_or_lt_of_le hpq with hqe | hql
        · rw [hqe]
        · -- p = m - 1 < q, so q ≥ m and b q = a q
          have hbq : b.getD q 0 = a.getD q 0 := bframe q (by omega)
          obtain ⟨s, hs0, hs1, hs3⟩ := bmem p (by omega) (by omega)
          rw [hbq, hs3]
          exact hdom s q (by omega) (by omega) hq'
      · -- m ≤ p
        have hbp : b.getD p 0 = a.getD p 0 := bframe p (by omega)
        have hbq : b.getD q 0 = a.getD q 0 := bframe q (by omega)
        rw [hbp, hbq]
        exact hsuff p q (by omega) hpq hq'
    have cond2 : ∀ p q, p < n - (i + 1) → n - (i + 1) ≤ q → q < b.length →
        b.getD p 0 ≤ b.getD q 0 := by
      intro p q hp hq hql
      have hni1 : n - (i + 1) = m - 1 := by omega
      rw [hni1] at hp hq
      rcases Nat.eq_or_lt_of_le hq with hqe | hql2
      · rw [← hqe]
        exact bdom p (by omega) (by omega)
      · have hbq : b.getD q 0 = a.getD q 0 := bframe q (by omega)
        obtain ⟨s, hs0, hs1, hs3⟩ := bmem p (by omega) (by omega)
        rw [hbq, hs3]
        exact hdom s q (by omega) (by omega) (by omega)
    have hblen : n = b.length := by omega
    obtain ⟨operm, olen, osort⟩ := ih b n (i + 1) hblen (by omega) cond1 cond2
    refine ⟨?_, ?_, ?_⟩
    · exact operm.trans bperm
    · rw [hstep]
      show (bubbleOuter b n (i + 1) cnt).1.length = a.length
      omega
    · intro p q hpq hq
      rw [hstep]
      exact osort p q hpq (by omega)

/-- `Sorted0` over the whole length gives `List.Sorted`. -/
theorem sorted_of_getD (l : List Nat)
    (h : ∀ p q, p ≤ q → q < l.length → l.getD p 0 ≤ l.getD q 0) :
    l.Sorted (· ≤ ·) := by
  rw [List.Sorted, List.pairwise_iff_get]
  intro i j hij
  have := h i.1 j.1 (Nat.le_of_lt hij) j.2
  rwa [List.getD_eq_getElem _ _ i.2, List.getD_eq_getElem _ _ j.2] at this

/-- Replaying the `bubbleSort` events onto the input yields a sorted
permutation of the input. -/
theorem bubbleSort_replay_spec (a : List Nat) :
    (replay a (bubbleSort a).2).Sorted (· ≤ ·) ∧ (replay a (bubbleSort a).2).Perm a := by
  have hrep : replay a (bubbleSort a).2 = (bubbleSort a).1 :=
    replay_bubbleOuter a.length a a.length 0
  obtain ⟨hperm, hlen, hsort⟩ := bubbleOuter_spec a.length a a.length 0 rfl
    (by omega) (fun p q hp hpq hq => by omega) (fun p q hp hq hql => by omega)
  have hbs : (bubbleSort a).1 = (bubbleOuter a a.length 0 a.length).1 := rfl
  rw [hrep, hbs]
  have hlen2 : (bubbleOuter a a.length 0 a.length).1.length = a.length := hlen
  exact ⟨sorted_of_getD _ (fun p q hpq hq => hsort p q hpq (by omega)), hperm⟩

example : bubbleSort [5, 3, 8, 1] =
    ([1, 3, 5, 8],
     [SEvent.compare 0 1, SEvent.swap 0 1, SEvent.reset 0 1,
      SEvent.compare 1 2, SEvent.reset 1 2,
      SEvent.compare 2 3, SEvent.swap 2 3, SEvent.reset 2 3,
      SEvent.sorted 3,
      SEvent.compare 0 1, SEvent.reset 0 1,
      SEvent.compare 1 2, SEvent.swap 1 2, SEvent.reset 1 2,
      SEvent.sorted 2,
      SEvent.compare 0 1, SEvent.swap 0 1, SEvent.reset 0 1,
      SEvent.sorted 1, SEvent.sorted 0]) := by decide

example : replay [5, 3, 8, 1] (bubbleSort [5, 3, 8, 1]).2 = [1, 3, 5, 8] := by decide

/-- Inner `while (j >= 0 && arrayCopy[j].value > key)` loop of
`insertionSort`.  It shifts `arrayCopy[j]` into slot `j+1` while emitting a
`swap` event, decrements `j`, and emits `compare(i, j)` when `j` is still
nonnegative.  Returns the working copy at loop exit, the final insert
position `j + 1`, and the emitted events.  The JS loop index reaches `-1`
exactly in the `j = 0` recursion base. -/
def insInner (a : List Nat) (key i : Nat) : Nat → List Nat × Nat × List SEvent
  | 0 =>
    if a.getD 0 0 > key then (a.set 1 (a.getD 0 0), 0, [SEvent.swap 0 1])
    else (a, 1, [])
  | j' + 1 =>
    if a.getD (j' + 1) 0 > key then
      let r := insInner (a.set (j' + 2) (a.getD (j' + 1) 0)) key i j'
      (r.1, r.2.1, SEvent.swap (j' + 1) (j' + 2) :: SEvent.compare i j' :: r.2.2)
    else (a, j' + 2, [])

/-- Outer `for (i = 1; i < n; i++)` loop of `insertionSort`: read the key
at `i`, emit `compare(i, i-1)`, run the shifting loop, write the key at the
insert position and emit `reset(i, max(0, j))` and `sorted(j+1)`.  `cnt`
iterations remain. -/
def insOuter (a : List Nat) : Nat → Nat → List Nat × List SEvent
  | _, 0 => (a, [])
  | i, cnt + 1 =>
    let key := a.getD i 0
    let r := insInner a key i (i - 1)
    let a2 := r.1.set r.2.1 key
    let r2 := insOuter a2 (i + 1) cnt
    (r2.1, SEvent.compare i (i - 1) ::
      (r.2.2 ++ SEvent.reset i (r.2.1 - 1) :: SEvent.sorted r.2.1 :: r2.2))

/-- The `insertionSort` recorder: final working copy and recorded events.
The `sorted(0)` mark is pushed before the loop even for an empty array. -/
def insertionSort (a : List Nat) : List Nat × List SEvent :=
  let r := insOuter a 1 (a.length - 1)
  (r.1, SEvent.sorted 0 :: r.2)

example : insertionSort [5, 3, 8, 1] =
    ([1, 3, 5, 8],
     [SEvent.sorted 0,
      SEvent.compare 1 0, SEvent.swap 0 1, SEvent.reset 1 0, SEvent.sorted 0,
      SEvent.compare 2 1, SEvent.reset 2 1, SEvent.sorted 2,
      SEvent.compare 3 2, SEvent.swap 2 3, SEvent.compare 3 1,
      SEvent.swap 1 2, SEvent.compare 3 0, SEvent.swap 0 1,
      SEvent.reset 3 0, SEvent.sorted 0]) := by decide

example : replay [5, 3, 8, 1] (insertionSort [5, 3, 8, 1]).2 = [1, 3, 5, 8] := by
  decide

example : insertionSort ([] : List Nat) = ([], [SEvent.sorted 0]) := by decide

/-- Events that can never change the replayed values of a list of length
`n`: in-bounds swaps and the purely visual events. -/
def ValueSafe (n : Nat) : SEvent → Prop
  | .swap u v => u < n ∧ v < n
  | .overwrite _ _ => False
  | _ => True

theorem length_applyEvent_of_valueSafe {c : List Nat} {e : SEvent}
    (h : ValueSafe c.length e) : (applyEvent c e).length = c.length := by
  cases e <;> simp [applyEvent, ValueSafe, listSwap] at h ⊢

theorem replay_perm_of_valueSafe (es : List SEvent) : ∀ (c : List Nat),
    (∀ e ∈ es, ValueSafe c.length e) → (replay c es).Perm c := by
  induction es with
  | nil => intro c _; exact List.Perm.refl c
  | cons e es ih =>
    intro c h
    have he : ValueSafe c.length e := h e (List.mem_cons_self e es)
    have hlen : (applyEvent c e).length = c.length :=
      length_applyEvent_of_valueSafe he
    have hperm : (applyEvent c e).Perm c := by
      cases e with
      | swap u v =>
        simp [ValueSafe] at he
        exact listSwap_perm c he.1 he.2
      | overwrite u v => simp [ValueSafe] at he
      | compare u v => exact List.Perm.refl c
      | reset u v => exact List.Perm.refl c
      | sorted u => exact List.Perm.refl c
      | pivot u => exact List.Perm.refl c
      | resetPivot u => exact List.Perm.refl c
    have : (replay (applyEvent c e) es).Perm (applyEvent c e) := by
      apply ih
      intro e2 he2
      rw [hlen]
      exact h e2 (List.mem_cons_of_mem e he2)
    exact this.trans hperm

/-- Full characterization of the insertion-sort shifting loop: the working
copy at exit agrees with the input below the insert position `p` and beyond
`j+1`, carries the one-slot right-shift on `(p, j+1]`, the loop exited
because slot `p-1` is `≤ key` (or `p = 0`), every shifted slot held a value
`> key`, and — the replay correspondence — replaying the emitted swap events
onto `a.set (j+1) key` lands exactly on the final inserted array. -/
theorem insInner_spec (j : Nat) : ∀ (a : List Nat) (key i : Nat),
    j + 1 < a.length →
    (insInner a key i j).1.length = a.length ∧
    (insInner a key i j).2.1 ≤ j + 1 ∧
    (∀ t, t ≤ (insInner a key i j).2.1 ∨ j + 1 < t →
      (insInner a key i j).1.getD t 0 = a.getD t 0) ∧
    (∀ t, (insInner a key i j).2.1 + 1 ≤ t → t ≤ j + 1 →
      (insInner a key i j).1.getD t 0 = a.getD (t - 1) 0) ∧
    ((insInner a key i j).2.1 = 0 ∨
      a.getD ((insInner a key i j).2.1 - 1) 0 ≤ key) ∧
    (∀ t, (insInner a key i j).2.1 ≤ t → t ≤ j → a.getD t 0 > key) ∧
    (replay (a.set (j + 1) key) (insInner a key i j).2.2 =
      (insInner a key i j).1.set (insInner a key i j).2.1 key) ∧
    (∀ e ∈ (insInner a key i j).2.2, ValueSafe a.length e) := by
  induction j with
  | zero =>
    intro a key i hlen
    by_cases hgt : a.getD 0 0 > key
    · have hdef : insInner a key i 0 =
          (a.set 1 (a.getD 0 0), 0, [SEvent.swap 0 1]) := by
        rw [insInner, if_pos hgt]
      rw [hdef]
      dsimp only
      refine ⟨by simp, Nat.zero_le _, ?_, ?_, Or.inl rfl, ?_, ?_, ?_⟩
      · intro t ht
        apply getD_set_ne
        omega
      · intro t ht1 ht2
        have ht : t = 1 := by omega
        subst ht
        exact getD_set_self a _ hlen
      · intro t ht1 ht2
        have ht : t = 0 := by omega
        subst ht
        exact hgt
      · show listSwap (a.set 1 key) 0 1 = (a.set 1 (a.getD 0 0)).set 0 key
        have h1 : (a.set 1 key).getD 1 0 = key := getD_set_self a _ hlen
        have h0 : (a.set 1 key).getD 0 0 = a.getD 0 0 :=
          getD_set_ne a _ (by omega)
        rw [listSwap, h1, h0, List.set_comm _ _ _ (by omega), List.set_set]
      · intro e he
        simp at he
        subst he
        constructor <;> omega
    · have hdef : insInner a key i 0 = (a, 1, []) := by
        rw [insInner, if_neg hgt]
      rw [hdef]
      dsimp only
      refine ⟨rfl, le_refl _, fun t _ => rfl, ?_, Or.inr ?_, ?_, rfl, ?_⟩
      · intro t ht1 ht2
        omega
      · simpa using Nat.le_of_not_lt hgt
      · intro t ht1 ht2
        omega
      · intro e he
        simp at he
  | succ j' ih =>
    intro a key i hlen
    by_cases hgt : a.getD (j' + 1) 0 > key
    · set a' := a.set (j' + 2) (a.getD (j' + 1) 0) with ha'
      have hdef : insInner a key i (j' + 1) =
          ((insInner a' key i j').1, (insInner a' key i j').2.1,
            SEvent.swap (j' + 1) (j' + 2) :: SEvent.compare i j' ::
              (insInner a' key i j').2.2) := by
        rw [insInner, if_pos hgt]
      have hlen'a : a'.length = a.length := by simp [ha']
      have hlen' : j' + 1 < a'.length := by omega
      obtain ⟨i1, i2, i3, i4, i5, i6, i7, i8⟩ := ih a' key i hlen'
      set r := insInner a' key i j' with hr
      set p := r.2.1 with hp
      rw [hdef]
      dsimp only
      have hane : ∀ t, t ≠ j' + 2 → a'.getD t 0 = a.getD t 0 := by
        intro t ht
        exact getD_set_ne a _ (fun h => ht h.symm)
      refine ⟨by omega, by omega, ?_, ?_, ?_, ?_, ?_, ?_⟩
      · intro t ht
        have h1 : r.1.getD t 0 = a'.getD t 0 := i3 t (by omega)
        rw [h1, hane t (by omega)]
      · intro t ht1 ht2
        rcases Nat.lt_or_ge t (j' + 2) with h | h
        · have h1 : r.1.getD t 0 = a'.getD (t - 1) 0 := i4 t ht1 (by omega)
          rw [h1, hane (t - 1) (by omega)]
        · have ht : t = j' + 2 := by omega
          subst ht
          have h1 : r.1.getD (j' + 2) 0 = a'.getD (j' + 2) 0 := i3 _ (by omega)
          have h2 : a'.getD (j' + 2) 0 = a.getD (j' + 1) 0 :=
            getD_set_self a _ (by omega)
          rw [h1, h2]
          norm_num
      · rcases i5 with h | h
        · exact Or.inl h
        · right
          rcases Nat.eq_zero_or_pos p with hp0 | hp0
          · rw [hp0] at h ⊢
            rwa [hane 0 (by omega)] at h
          · rwa [hane (p - 1) (by omega)] at h
      · intro t ht1 ht2
        rcases Nat.lt_or_ge t (j' + 1) with h | h
        · have := i6 t ht1 (by omega)
          rwa [hane t (by omega)] at this
        · have ht : t = j' + 1 := by omega
          subst ht
          exact hgt
      · show replay (a.set (j' + 2) key)
          (SEvent.swap (j' + 1) (j' + 2) :: SEvent.compare i j' :: r.2.2) =
            r.1.set p key
        have hstep : replay (a.set (j' + 2) key)
            (SEvent.swap (j' + 1) (j' + 2) :: SEvent.compare i j' :: r.2.2) =
            replay (listSwap (a.set (j' + 2) key) (j' + 1) (j' + 2)) r.2.2 := rfl
        have hswap : listSwap (a.set (j' + 2) key) (j' + 1) (j' + 2) =
            a'.set (j' + 1) key := by
          have h2 : (a.set (j' + 2) key).getD (j' + 2) 0 = key :=
            getD_set_self a _ (by omega)
          have h1 : (a.set (j' + 2) key).getD (j' + 1) 0 = a.getD (j' + 1) 0 :=
            getD_set_ne a _ (by omega)
          rw [listSwap, h1, h2, List.set_comm _ _ _ (by omega), List.set_set]
        rw [hstep, hswap, i7]
      · intro e he
        rcases List.mem_cons.mp he with he1 | he2
        · subst he1
          constructor <;> omega
        · rcases List.mem_cons.mp he2 with he3 | he4
          · subst he3
            trivial
          · have := i8 e he4
            rwa [hlen'a] at this
    · have hdef : insInner a key i (j' + 1) = (a, j' + 2, []) := by
        rw [insInner, if_neg hgt]
      rw [hdef]
      dsimp only
      refine ⟨rfl, le_refl _, fun t _ => rfl, ?_, Or.inr ?_, ?_, rfl, ?_⟩
      · intro t ht1 ht2
        omega
      · simpa using Nat.le_of_not_lt hgt
      · intro t ht1 ht2
        omega
      · intro e he
        simp at he

/-- Invariant-carrying correctness of the outer insertion loop: with the
prefix of length `i` sorted, the remaining `cnt = n - i` iterations produce
a sorted permutation of the working copy, and the emitted events replay to
the final working copy. -/
theorem insOuter_spec (cnt : Nat) : ∀ (a : List Nat) (i : Nat),
    i + cnt = a.length → 1 ≤ i → Sorted0 i a →
    (insOuter a i cnt).1.Perm a ∧
    (insOuter a i cnt).1.length = a.length ∧
    Sorted0 a.length (insOuter a i cnt).1 ∧
    replay a (insOuter a i cnt).2 = (insOuter a i cnt).1 := by
  induction cnt with
  | zero =>
    intro a i hcnt hi hsorted
    have hieq : i = a.length := by omega
    subst hieq
    exact ⟨List.Perm.refl a, rfl, hsorted, rfl⟩
  | succ cnt ih =>
    intro a i hcnt hi hsorted
    have hilt : i < a.length := by omega
    have hlen : (i - 1) + 1 < a.length := by omega
    obtain ⟨s1, s2, s3, s4, s5, s6, s7, s8⟩ :=
      insInner_spec (i - 1) a (a.getD i 0) i hlen
    have hi1 : i - 1 + 1 = i := by omega
    rw [hi1] at s2 s3 s4 s7
    rw [set_getD_self] at s7
    have hdef : insOuter a i (cnt + 1) =
        ((insOuter ((insInner a (a.getD i 0) i (i - 1)).1.set
            (insInner a (a.getD i 0) i (i - 1)).2.1 (a.getD i 0)) (i + 1) cnt).1,
          SEvent.compare i (i - 1) ::
            ((insInner a (a.getD i 0) i (i - 1)).2.2 ++
              SEvent.reset i ((insInner a (a.getD i 0) i (i - 1)).2.1 - 1) ::
              SEvent.sorted (insInner a (a.getD i 0) i (i - 1)).2.1 ::
              (insOuter ((insInner a (a.getD i 0) i (i - 1)).1.set
                (insInner a (a.getD i 0) i (i - 1)).2.1 (a.getD i 0))
                (i + 1) cnt).2)) := rfl
    rw [hdef]
    set b := (insInner a (a.getD i 0) i (i - 1)).1 with hb
    set p := (insInner a (a.getD i 0) i (i - 1)).2.1 with hpdef
    set es := (insInner a (a.getD i 0) i (i - 1)).2.2 with hes
    set a2 := b.set p (a.getD i 0) with ha2
    have hplen : p < a.length := by omega
    have hblen : b.length = a.length := s1
    have ha2len : a2.length = a.length := by
      rw [ha2]; simp [hblen]
    -- value characterization of the inserted array a2
    have hlow : ∀ t, t < p → a2.getD t 0 = a.getD t 0 := by
      intro t ht
      rw [ha2, getD_set_ne _ _ (by omega)]
      exact s3 t (by omega)
    have hmid : a2.getD p 0 = a.getD i 0 := by
      rw [ha2]
      exact getD_set_self b _ (by omega)
    have hshift : ∀ t, p < t → t ≤ i → a2.getD t 0 = a.getD (t - 1) 0 := by
      intro t ht1 ht2
      rw [ha2, getD_set_ne _ _ (by omega)]
      exact s4 t (by omega) ht2
    have hhigh : ∀ t, i < t → a2.getD t 0 = a.getD t 0 := by
      intro t ht
      rw [ha2, getD_set_ne _ _ (by omega)]
      exact s3 t (by omega)
    -- a value below the insert position is at most the key
    have hlowkey : ∀ t, t < p → a.getD t 0 ≤ a.getD i 0 := by
      intro t ht
      rcases s5 with h0 | hle
      · omega
      · exact le_trans (hsorted t (p - 1) (by omega) (by omega)) hle
    -- sortedness of the prefix of length i + 1 after the insertion
    have hsorted2 : Sorted0 (i + 1) a2 := by
      intro p' q' hpq hq
      rcases Nat.lt_trichotomy q' p with hq1 | hq2 | hq3
      · rw [hlow p' (by omega), hlow q' hq1]
        exact hsorted p' q' hpq (by omega)
      · subst hq2
        rcases Nat.eq_or_lt_of_le hpq with he | hl
        · rw [he]
        · rw [hlow p' hl, hmid]
          exact hlowkey p' hl
      · have hq'i : q' ≤ i := by omega
        have hqv : a2.getD q' 0 = a.getD (q' - 1) 0 := hshift q' hq3 hq'i
        have hkey : a.getD i 0 ≤ a.getD (q' - 1) 0 :=
          le_of_lt (s6 (q' - 1) (by omega) (by omega))
        rcases Nat.lt_trichotomy p' p with hp1 | hp2 | hp3
        · rw [hlow p' hp1, hqv]
          exact le_trans (hlowkey p' hp1) hkey
        · subst hp2
          rw [hmid, hqv]
          exact hkey
        · rw [hshift p' hp3 (by omega), hqv]
          exact hsorted (p' - 1) (q' - 1) (by omega) (by omega)
    -- replay of this iteration's events lands on a2
    have hreplay2 : replay a es = a2 := s7
    have hperm2 : a2.Perm a := by
      rw [← hreplay2]
      exact replay_perm_of_valueSafe es a s8
    obtain ⟨o1, o2, o3, o4⟩ := ih a2 (i + 1) (by omega) (by omega) hsorted2
    refine ⟨o1.trans hperm2, ?_, ?_, ?_⟩
    · dsimp only
      omega
    · intro p' q' hpq hq
      exact o3 p' q' hpq (by omega)
    · show replay a (SEvent.compare i (i - 1) ::
        (es ++ SEvent.reset i (p - 1) :: SEvent.sorted p ::
          (insOuter a2 (i + 1) cnt).2)) = (insOuter a2 (i + 1) cnt).1
      have h1 : replay a (SEvent.compare i (i - 1) ::
          (es ++ SEvent.reset i (p - 1) :: SEvent.sorted p ::
            (insOuter a2 (i + 1) cnt).2)) =
          replay a (es ++ SEvent.reset i (p - 1) :: SEvent.sorted p ::
            (insOuter a2 (i + 1) cnt).2) := rfl
      rw [h1, replay_append, hreplay2]
      show replay a2 (insOuter a2 (i + 1) cnt).2 = _
      exact o4

/-- Replaying the `insertionSort` events onto the input yields a sorted
permutation of the input. -/
theorem insertionSort_replay_spec (a : List Nat) :
    (replay a (insertionSort a).2).Sorted (· ≤ ·) ∧
    (replay a (insertionSort a).2).Perm a := by
  cases a with
  | nil => exact ⟨List.sorted_nil, List.Perm.refl _⟩
  | cons x xs =>
    have hs1 : Sorted0 1 (x :: xs) := by
      intro p q hpq hq
      have : p = 0 ∧ q = 0 := by omega
      rw [this.1, this.2]
    obtain ⟨o1, o2, o3, o4⟩ := insOuter_spec (x :: xs).length.pred (x :: xs) 1
      (by simp [Nat.add_comm]) (le_refl 1) hs1
    have hev : (insertionSort (x :: xs)).2 =
        SEvent.sorted 0 :: (insOuter (x :: xs) 1 ((x :: xs).length - 1)).2 := rfl
    have hpred : (x :: xs).length - 1 = (x :: xs).length.pred := rfl
    have hrep : replay (x :: xs) (insertionSort (x :: xs)).2 =
        (insOuter (x :: xs) 1 (x :: xs).length.pred).1 := by
      rw [hev, hpred]
      show replay (x :: xs) (insOuter (x :: xs) 1 (x :: xs).length.pred).2 = _
      exact o4
    rw [hrep]
    constructor
    · apply sorted_of_getD
      intro p q hpq hq
      exact o3 p q hpq (by omega)
    · exact o1

/-- Writing a list of values at consecutive slots starting at `k` — the
cumulative effect of the `arr[k++] = …` writes of `merge`. -/
def writeSeq (arr : List Nat) (k : Nat) : List Nat → List Nat
  | [] => arr
  | v :: vs => writeSeq (arr.set k v) (k + 1) vs

/-- Main `while (i < left.length && j < right.length)` loop of `merge`.
Control is by the remaining slices `ls = left.slice(i)` and
`rs = right.slice(j)`; `i`, `j`, `k` are the source loop counters used for
the event indices and writes.  Returns the mutated `arr`, the two remaining
slices, the final `k` and the emitted events.  `fuel` bounds the iteration
count (callers pass the exact total length, which the loop never exceeds).
The JS reset index `start + i - 1` can be `-1`; `Nat` truncation clamps it
to `0`, which only affects a visual `reset` event, never a value. -/
def mergeWhile : Nat → List Nat → List Nat → List Nat → Nat → Nat → Nat →
    Nat → Nat → List Nat × List Nat × List Nat × Nat × List SEvent
  | 0, ls, rs, arr, _, _, k, _, _ => (arr, ls, rs, k, [])
  | _ + 1, [], rs, arr, _, _, k, _, _ => (arr, [], rs, k, [])
  | _ + 1, x :: ls', [], arr, _, _, k, _, _ => (arr, x :: ls', [], k, [])
  | fuel + 1, x :: ls', y :: rs', arr, i, j, k, s, m =>
    if x ≤ y then
      let r := mergeWhile fuel ls' (y :: rs') (arr.set k x) (i + 1) j (k + 1) s m
      (r.1, r.2.1, r.2.2.1, r.2.2.2.1,
        SEvent.compare (s + i) (m + 1 + j) :: SEvent.overwrite k x ::
          SEvent.reset (s + i + 1 - 1) (m + 1 + j - 1) :: r.2.2.2.2)
    else
      let r := mergeWhile fuel (x :: ls') rs' (arr.set k y) i (j + 1) (k + 1) s m
      (r.1, r.2.1, r.2.2.1, r.2.2.2.1,
        SEvent.compare (s + i) (m + 1 + j) :: SEvent.overwrite k y ::
          SEvent.reset (s + i - 1) (m + 1 + j + 1 - 1) :: r.2.2.2.2)

/-- One of the two drain loops of `merge` (`while (i < left.length)` /
`while (j < right.length)`), expressed on the remaining slice. -/
def mergeDrain : List Nat → List Nat → Nat → List Nat × List SEvent
  | [], arr, _ => (arr, [])
  | v :: vs, arr, k =>
    let r := mergeDrain vs (arr.set k v) (k + 1)
    (r.1, SEvent.overwrite k v :: r.2)

/-- The `merge(arr, start, mid, end, animations)` helper: snapshot the two
slices, run the main loop, then drain the leftovers. -/
def mergeStep (arr : List Nat) (s m e : Nat) : List Nat × List SEvent :=
  let left := (arr.drop s).take (m + 1 - s)
  let right := (arr.drop (m + 1)).take (e - m)
  let w := mergeWhile (left.length + right.length) left right arr 0 0 s s m
  let dl := mergeDrain w.2.1 w.1 w.2.2.2.1
  let dr := mergeDrain w.2.2.1 dl.1 (w.2.2.2.1 + w.2.1.length)
  (dr.1, w.2.2.2.2 ++ dl.2 ++ dr.2)

/-- `mergeSortHelper(arr, start, end)`: recursion on the two halves then
one merge.  `fuel` bounds the recursion depth; every call strictly shrinks
the interval, so any `fuel > end - start` is never exhausted. -/
def mergeSortHelper : Nat → List Nat → Nat → Nat → List Nat × List SEvent
  | 0, arr, _, _ => (arr, [])
  | fuel + 1, arr, s, e =>
    if s ≥ e then (arr, [])
    else
      let mid := (s + e) / 2
      let r1 := mergeSortHelper fuel arr s mid
      let r2 := mergeSortHelper fuel r1.1 (mid + 1) e
      let r3 := mergeStep r2.1 s mid e
      (r3.1, r1.2 ++ r2.2 ++ r3.2)

/-- The `mergeSort` recorder: run the helper on the whole range, then mark
every index as sorted. -/
def mergeSort (a : List Nat) : List Nat × List SEvent :=
  let r := mergeSortHelper a.length a 0 (a.length - 1)
  (r.1, r.2 ++ (List.range a.length).map SEvent.sorted)

example : mergeSort [5, 3, 8, 1] =
    ([1, 3, 5, 8],
     [SEvent.compare 0 1, SEvent.overwrite 0 3, SEvent.reset 0 1,
      SEvent.overwrite 1 5,
      SEvent.compare 2 3, SEvent.overwrite 2 1, SEvent.reset 1 3,
      SEvent.overwrite 3 8,
      SEvent.compare 0 2, SEvent.overwrite 0 1, SEvent.reset 0 2,
      SEvent.compare 0 3, SEvent.overwrite 1 3, SEvent.reset 0 2,
      SEvent.compare 1 3, SEvent.overwrite 2 5, SEvent.reset 1 2,
      SEvent.overwrite 3 8,
      SEvent.sorted 0, SEvent.sorted 1, SEvent.sorted 2, SEvent.sorted 3]) := by
  decide

example : replay [5, 3, 8, 1] (mergeSort [5, 3, 8, 1]).2 = [1, 3, 5, 8] := by
  decide

example : mergeSort ([] : List Nat) = ([], []) := by decide

theorem length_writeSeq (vs : List Nat) : ∀ (arr : List Nat) (k : Nat),
    (writeSeq arr k vs).length = arr.length := by
  induction vs with
  | nil => intro arr k; rfl
  | cons v vs ih =>
    intro arr k
    show (writeSeq (arr.set k v) (k + 1) vs).length = arr.length
    rw [ih]
    simp

theorem getD_writeSeq_lt (vs : List Nat) : ∀ (arr : List Nat) (k t : Nat),
    t < k → (writeSeq arr k vs).getD t 0 = arr.getD t 0 := by
  induction vs with
  | nil => intro arr k t _; rfl
  | cons v vs ih =>
    intro arr k t ht
    show (writeSeq (arr.set k v) (k + 1) vs).getD t 0 = arr.getD t 0
    rw [ih _ _ _ (by omega), getD_set_ne _ _ (by omega)]

theorem getD_writeSeq_ge (vs : List Nat) : ∀ (arr : List Nat) (k t : Nat),
    k + vs.length ≤ t → (writeSeq arr k vs).getD t 0 = arr.getD t 0 := by
  induction vs with
  | nil => intro arr k t _; rfl
  | cons v vs ih =>
    intro arr k t ht
    simp only [List.length_cons] at ht
    show (writeSeq (arr.set k v) (k + 1) vs).getD t 0 = arr.getD t 0
    rw [ih _ _ _ (by omega), getD_set_ne _ _ (by omega)]

theorem getD_writeSeq_mem (vs : List Nat) : ∀ (arr : List Nat) (k t : Nat),
    t < vs.length → k + vs.length ≤ arr.length →
    (writeSeq arr k vs).getD (k + t) 0 = vs.getD t 0 := by
  induction vs with
  | nil => intro arr k t ht _; simp at ht
  | cons v vs ih =>
    intro arr k t ht hb
    simp only [List.length_cons] at ht hb
    cases t with
    | zero =>
      show (writeSeq (arr.set k v) (k + 1) vs).getD (k + 0) 0 = v
      rw [getD_writeSeq_lt vs _ _ _ (by omega)]
      exact getD_set_self arr v (by omega)
    | succ t =>
      show (writeSeq (arr.set k v) (k + 1) vs).getD (k + (t + 1)) 0 =
        (v :: vs).getD (t + 1) 0
      have hk : k + (t + 1) = (k + 1) + t := by omega
      rw [hk, List.getD_cons_succ]
      exact ih _ _ _ (by omega) (by simp; omega)

theorem writeSeq_append (vs ws : List Nat) : ∀ (arr : List Nat) (k : Nat),
    writeSeq arr k (vs ++ ws) = writeSeq (writeSeq arr k vs) (k + vs.length) ws := by
  induction vs with
  | nil => intro arr k; rfl
  | cons v vs ih =>
    intro arr k
    show writeSeq (arr.set k v) (k + 1) (vs ++ ws) = _
    rw [ih]
    have hk : k + 1 + vs.length = k + (vs.length + 1) := by omega
    rw [hk]
    rfl

theorem writeSeq_eq (vs : List Nat) : ∀ (arr : List Nat) (k : Nat),
    k + vs.length ≤ arr.length →
    writeSeq arr k vs = arr.take k ++ vs ++ arr.drop (k + vs.length) := by
  induction vs with
  | nil =>
    intro arr k hk
    show arr = arr.take k ++ [] ++ arr.drop (k + 0)
    simp
  | cons v vs ih =>
    intro arr k hk
    simp only [List.length_cons] at hk
    have hklen : k < arr.length := by omega
    show writeSeq (arr.set k v) (k + 1) vs = _
    rw [ih _ _ (by simp; omega)]
    have hset : arr.set k v = arr.take k ++ v :: arr.drop (k + 1) := by
      rw [List.set_eq_take_append_cons_drop, if_pos hklen]
    rw [hset]
    have htake : (arr.take k ++ v :: arr.drop (k + 1)).take (k + 1) =
        arr.take k ++ [v] := by
      rw [List.take_append_eq_append_take]
      have h1 : (arr.take k).length = k := by simp; omega
      rw [List.take_of_length_le (by omega)]
      congr 1
      · rw [h1]
        have : k + 1 - k = 1 := by omega
        rw [this]
        rfl
    have hdrop : (arr.take k ++ v :: arr.drop (k + 1)).drop (k + 1 + vs.length) =
        arr.drop (k + (vs.length + 1)) := by
      rw [List.drop_append_eq_append_drop]
      have h1 : (arr.take k).length = k := by simp; omega
      rw [List.drop_of_length_le (by omega), h1]
      have h2 : k + 1 + vs.length - k = vs.length + 1 := by omega
      rw [h2]
      show List.drop vs.length (arr.drop (k + 1)) = _
      rw [List.drop_drop]
      congr 1
      omega
    rw [htake, hdrop]
    simp

/-- The main merge loop writes some prefix `tk` of the merged sequence at
consecutive slots from `k`, leaves one of the two slices exhausted, and its
events replay (onto any array) to exactly those writes.  `tk` glued to the
two leftovers is the full two-way merge of the slices, taking left on
`left[i] <= right[j]` as the source does. -/
theorem mergeWhile_spec (fuel : Nat) : ∀ (ls rs arr : List Nat) (i j k s m : Nat),
    ls.length + rs.length ≤ fuel →
    ∃ tk : List Nat,
      (mergeWhile fuel ls rs arr i j k s m).1 = writeSeq arr k tk ∧
      (mergeWhile fuel ls rs arr i j k s m).2.2.2.1 = k + tk.length ∧
      tk ++ (mergeWhile fuel ls rs arr i j k s m).2.1 ++
          (mergeWhile fuel ls rs arr i j k s m).2.2.1 =
        ls.merge rs (fun a b => decide (a ≤ b)) ∧
      ((mergeWhile fuel ls rs arr i j k s m).2.1 = [] ∨
        (mergeWhile fuel ls rs arr i j k s m).2.2.1 = []) ∧
      (∀ c : List Nat, replay c (mergeWhile fuel ls rs arr i j k s m).2.2.2.2 =
        writeSeq c k tk) := by
  induction fuel with
  | zero =>
    intro ls rs arr i j k s m hfuel
    have hls : ls = [] := by
      cases ls
      · rfl
      · simp at hfuel
    have hrs : rs = [] := by
      cases rs
      · rfl
      · rw [hls] at hfuel; simp at hfuel
    subst hls; subst hrs
    exact ⟨[], rfl, by simp [mergeWhile], by simp [mergeWhile, List.nil_merge],
      Or.inl rfl, fun c => rfl⟩
  | succ fuel ih =>
    intro ls rs arr i j k s m hfuel
    match ls, rs with
    | [], rs =>
      exact ⟨[], rfl, by simp [mergeWhile], by simp [mergeWhile, List.nil_merge],
        Or.inl rfl, fun c => rfl⟩
    | x :: ls', [] =>
      refine ⟨[], rfl, by simp [mergeWhile], ?_, Or.inr rfl, fun c => rfl⟩
      show [] ++ (x :: ls') ++ [] = (x :: ls').merge [] fun a b => decide (a ≤ b)
      rw [List.merge]
      all_goals simp
    | x :: ls', y :: rs' =>
      simp only [List.length_cons] at hfuel
      by_cases hxy : x ≤ y
      · have hdef : mergeWhile (fuel + 1) (x :: ls') (y :: rs') arr i j k s m =
            (let r := mergeWhile fuel ls' (y :: rs') (arr.set k x) (i + 1) j
                (k + 1) s m
             (r.1, r.2.1, r.2.2.1, r.2.2.2.1,
               SEvent.compare (s + i) (m + 1 + j) :: SEvent.overwrite k x ::
                 SEvent.reset (s + i + 1 - 1) (m + 1 + j - 1) :: r.2.2.2.2)) := by
          rw [mergeWhile, if_pos hxy]
        rw [hdef]
        dsimp only
        obtain ⟨tk, h1, h2, h3, h4, h5⟩ :=
          ih ls' (y :: rs') (arr.set k x) (i + 1) j (k + 1) s m (by simp; omega)
        refine ⟨x :: tk, ?_, ?_, ?_, h4, ?_⟩
        · rw [h1]; rfl
        · rw [h2]; simp; omega
        · show x :: (tk ++ _ ++ _) = _
          rw [h3, List.cons_merge_cons]
          have : (fun a b => decide (a ≤ b)) x y = true := by
            simp [hxy]
          rw [if_pos this]
        · intro c
          exact h5 (c.set k x)
      · have hdef : mergeWhile (fuel + 1) (x :: ls') (y :: rs') arr i j k s m =
            (let r := mergeWhile fuel (x :: ls') rs' (arr.set k y) i (j + 1)
                (k + 1) s m
             (r.1, r.2.1, r.2.2.1, r.2.2.2.1,
               SEvent.compare (s + i) (m + 1 + j) :: SEvent.overwrite k y ::
                 SEvent.reset (s + i - 1) (m + 1 + j + 1 - 1) :: r.2.2.2.2)) := by
          rw [mergeWhile, if_neg hxy]
        rw [hdef]
        dsimp only
        obtain ⟨tk, h1, h2, h3, h4, h5⟩ :=
          ih (x :: ls') rs' (arr.set k y) i (j + 1) (k + 1) s m (by simp; omega)
        refine ⟨y :: tk, ?_, ?_, ?_, h4, ?_⟩
        · rw [h1]; rfl
        · rw [h2]; simp; omega
        · show y :: (tk ++ _ ++ _) = _
          rw [h3, List.cons_merge_cons, if_neg (by simp [hxy])]
        · intro c
          exact h5 (c.set k y)

/-- Each drain loop writes its slice at consecutive slots, and its events
replay to the same writes on any array. -/
theorem mergeDrain_spec (vs : List Nat) : ∀ (arr : List Nat) (k : Nat),
    (mergeDrain vs arr k).1 = writeSeq arr k vs ∧
    (∀ c : List Nat, replay c (mergeDrain vs arr k).2 = writeSeq c k vs) := by
  induction vs with
  | nil => intro arr k; exact ⟨rfl, fun c => rfl⟩
  | cons v vs ih =>
    intro arr k
    obtain ⟨h1, h2⟩ := ih (arr.set k v) (k + 1)
    refine ⟨h1, ?_⟩
    intro c
    show replay (c.set k v) (mergeDrain vs (arr.set k v) (k + 1)).2 = _
    exact h2 (c.set k v)

/-- `merge(arr, s, m, e)` overwrites the segment `[s, e]` with the two-way
merge of its two sorted halves (as value lists), and its events replay to
the same overwrite on any array. -/
theorem mergeStep_spec (arr : List Nat) (s m e : Nat) :
    (mergeStep arr s m e).1 =
      writeSeq arr s (((arr.drop s).take (m + 1 - s)).merge
        ((arr.drop (m + 1)).take (e - m)) (fun a b => decide (a ≤ b))) ∧
    (∀ c : List Nat, replay c (mergeStep arr s m e).2 =
      writeSeq c s (((arr.drop s).take (m + 1 - s)).merge
        ((arr.drop (m + 1)).take (e - m)) (fun a b => decide (a ≤ b)))) := by
  obtain ⟨tk, h1, h2, h3, h4, h5⟩ := mergeWhile_spec
    (((arr.drop s).take (m + 1 - s)).length +
      ((arr.drop (m + 1)).take (e - m)).length)
    ((arr.drop s).take (m + 1 - s)) ((arr.drop (m + 1)).take (e - m))
    arr 0 0 s s m (le_refl _)
  obtain ⟨d1, d2⟩ := mergeDrain_spec
    (mergeWhile (((arr.drop s).take (m + 1 - s)).length +
      ((arr.drop (m + 1)).take (e - m)).length)
      ((arr.drop s).take (m + 1 - s)) ((arr.drop (m + 1)).take (e - m))
      arr 0 0 s s m).2.1
    (mergeWhile (((arr.drop s).take (m + 1 - s)).length +
      ((arr.drop (m + 1)).take (e - m)).length)
      ((arr.drop s).take (m + 1 - s)) ((arr.drop (m + 1)).take (e - m))
      arr 0 0 s s m).1
    (mergeWhile (((arr.drop s).take (m + 1 - s)).length +
      ((arr.drop (m + 1)).take (e - m)).length)
      ((arr.drop s).take (m + 1 - s)) ((arr.drop (m + 1)).take (e - m))
      arr 0 0 s s m).2.2.2.1
  set L := (arr.drop s).take (m + 1 - s) with hL
  set R := (arr.drop (m + 1)).take (e - m) with hR
  set w := mergeWhile (L.length + R.length) L R arr 0 0 s s m with hw
  obtain ⟨e1, e2⟩ := mergeDrain_spec w.2.2.1 (mergeDrain w.2.1 w.1 w.2.2.2.1).1
    (w.2.2.2.1 + w.2.1.length)
  have hstep1 : (mergeStep arr s m e).1 =
      (mergeDrain w.2.2.1 (mergeDrain w.2.1 w.1 w.2.2.2.1).1
        (w.2.2.2.1 + w.2.1.length)).1 := rfl
  have hstep2 : (mergeStep arr s m e).2 =
      w.2.2.2.2 ++ (mergeDrain w.2.1 w.1 w.2.2.2.1).2 ++
        (mergeDrain w.2.2.1 (mergeDrain w.2.1 w.1 w.2.2.2.1).1
          (w.2.2.2.1 + w.2.1.length)).2 := rfl
  have hmg : tk ++ w.2.1 ++ w.2.2.1 = L.merge R (fun a b => decide (a ≤ b)) := h3
  constructor
  · rw [hstep1, e1, d1, h1, h2]
    rw [← writeSeq_append, ← writeSeq_append]
    rw [← List.append_assoc, hmg]
  · intro c
    rw [hstep2, replay_append, replay_append, h5, d2, e2, h2]
    rw [← writeSeq_append, ← writeSeq_append]
    rw [← List.append_assoc, hmg]

theorem sorted_iff_getD (l : List Nat) :
    l.Sorted (· ≤ ·) ↔
      ∀ p q, p ≤ q → q < l.length → l.getD p 0 ≤ l.getD q 0 := by
  constructor
  · intro h p q hpq hq
    rcases Nat.eq_or_lt_of_le hpq with he | hl
    · rw [he]
    · rw [List.Sorted, List.pairwise_iff_get] at h
      have := h ⟨p, by omega⟩ ⟨q, hq⟩ hl
      rwa [List.getD_eq_getElem _ _ (by omega), List.getD_eq_getElem _ _ hq]
  · exact sorted_of_getD l

theorem length_drop_take (arr : List Nat) (s c : Nat) (h : s + c ≤ arr.length) :
    ((arr.drop s).take c).length = c := by
  simp
  omega

theorem getD_drop_take (arr : List Nat) (s c t : Nat) (ht : t < c) :
    ((arr.drop s).take c).getD t 0 = arr.getD (s + t) 0 := by
  rw [List.getD_eq_getElem?_getD, List.getD_eq_getElem?_getD,
    List.getElem?_take, if_pos ht, List.getElem?_drop]

theorem sorted_slice_of_seg (arr : List Nat) (s c : Nat)
    (hb : s + c ≤ arr.length)
    (h : ∀ p q, s ≤ p → p ≤ q → q < s + c → arr.getD p 0 ≤ arr.getD q 0) :
    ((arr.drop s).take c).Sorted (· ≤ ·) := by
  apply sorted_of_getD
  intro p q hpq hq
  rw [length_drop_take _ _ _ hb] at hq
  rw [getD_drop_take _ _ _ _ (by omega), getD_drop_take _ _ _ _ hq]
  exact h (s + p) (s + q) (by omega) (by omega) (by omega)

/-- Full specification of `mergeSortHelper` on an interval `[s, e]` inside
the array: outside the interval nothing changes, inside the values end up
sorted, the whole array is a permutation of the input, and the recorded
events replay to the final array. -/
theorem mergeSortHelper_spec (fuel : Nat) : ∀ (arr : List Nat) (s e : Nat),
    e < arr.length → e + 1 - s ≤ fuel →
    (mergeSortHelper fuel arr s e).1.length = arr.length ∧
    (∀ t, t < s ∨ e < t →
      (mergeSortHelper fuel arr s e).1.getD t 0 = arr.getD t 0) ∧
    (∀ p q, s ≤ p → p ≤ q → q ≤ e →
      (mergeSortHelper fuel arr s e).1.getD p 0 ≤
        (mergeSortHelper fuel arr s e).1.getD q 0) ∧
    (mergeSortHelper fuel arr s e).1.Perm arr ∧
    replay arr (mergeSortHelper fuel arr s e).2 =
      (mergeSortHelper fuel arr s e).1 := by
  induction fuel with
  | zero =>
    intro arr s e hlen hfuel
    refine ⟨rfl, fun t _ => rfl, ?_, List.Perm.refl arr, rfl⟩
    intro p q hp hpq hq
    have : p = q := by omega
    rw [this]
  | succ fuel ih =>
    intro arr s e hlen hfuel
    by_cases hse : s ≥ e
    · have hdef : mergeSortHelper (fuel + 1) arr s e = (arr, []) := by
        rw [mergeSortHelper, if_pos hse]
      rw [hdef]
      refine ⟨rfl, fun t _ => rfl, ?_, List.Perm.refl arr, rfl⟩
      intro p q hp hpq hq
      have : p = q := by omega
      rw [this]
    · have hslt : s < e := by omega
      have hsm : s ≤ (s + e) / 2 := by omega
      have hme : (s + e) / 2 < e := by omega
      have hdef : mergeSortHelper (fuel + 1) arr s e =
          ((mergeStep (mergeSortHelper fuel (mergeSortHelper fuel arr s
              ((s + e) / 2)).1 ((s + e) / 2 + 1) e).1 s ((s + e) / 2) e).1,
            (mergeSortHelper fuel arr s ((s + e) / 2)).2 ++
              (mergeSortHelper fuel (mergeSortHelper fuel arr s
                ((s + e) / 2)).1 ((s + e) / 2 + 1) e).2 ++
              (mergeStep (mergeSortHelper fuel (mergeSortHelper fuel arr s
                ((s + e) / 2)).1 ((s + e) / 2 + 1) e).1 s ((s + e) / 2) e).2) := by
        rw [mergeSortHelper, if_neg hse]
      rw [hdef]
      set mid := (s + e) / 2 with hmid
      obtain ⟨a1, f1, so1, p1, rp1⟩ := ih arr s mid (by omega) (by omega)
      set b1 := (mergeSortHelper fuel arr s mid).1 with hb1
      obtain ⟨a2, f2, so2, p2, rp2⟩ := ih b1 (mid + 1) e (by omega) (by omega)
      set b2 := (mergeSortHelper fuel b1 (mid + 1) e).1 with hb2
      obtain ⟨m1, m2⟩ := mergeStep_spec b2 s mid e
      set L := (b2.drop s).take (mid + 1 - s) with hL
      set R := (b2.drop (mid + 1)).take (e - mid) with hR
      set Mg := L.merge R (fun a b => decide (a ≤ b)) with hMg
      have hlen2 : b2.length = arr.length := by omega
      have hbL : s + (mid + 1 - s) ≤ b2.length := by omega
      have hbR : (mid + 1) + (e - mid) ≤ b2.length := by omega
      have hLlen : L.length = mid + 1 - s := length_drop_take _ _ _ hbL
      have hRlen : R.length = e - mid := length_drop_take _ _ _ hbR
      have hsortL : L.Sorted (· ≤ ·) := by
        apply sorted_slice_of_seg _ _ _ hbL
        intro p q hp hpq hq
        rw [f2 p (Or.inl (by omega)), f2 q (Or.inl (by omega))]
        exact so1 p q hp hpq (by omega)
      have hsortR : R.Sorted (· ≤ ·) := by
        apply sorted_slice_of_seg _ _ _ hbR
        intro p q hp hpq hq
        exact so2 p q hp hpq (by omega)
      have hsortMg : Mg.Sorted (· ≤ ·) := hsortL.merge hsortR
      have hMgperm : Mg.Perm (L ++ R) := List.perm_merge _ _ _
      have hMglen : Mg.length = (mid + 1 - s) + (e - mid) := by
        rw [hMgperm.length_eq]
        simp [hLlen, hRlen]
      have hse1 : s + Mg.length = e + 1 := by omega
      refine ⟨?_, ?_, ?_, ?_, ?_⟩
      · rw [m1, length_writeSeq]
        omega
      · intro t ht
        rw [m1]
        rcases ht with ht | ht
        · rw [getD_writeSeq_lt _ _ _ _ ht, f2 t (Or.inl (by omega)),
            f1 t (Or.inl ht)]
        · rw [getD_writeSeq_ge _ _ _ _ (by omega), f2 t (Or.inr ht),
            f1 t (Or.inr (by omega))]
      · intro p q hp hpq hq
        rw [m1]
        have hpe : s + (p - s) = p := by omega
        have hqe : s + (q - s) = q := by omega
        rw [← hpe, ← hqe,
          getD_writeSeq_mem _ _ _ _ (by omega) (by omega),
          getD_writeSeq_mem _ _ _ _ (by omega) (by omega)]
        exact (sorted_iff_getD Mg).mp hsortMg (p - s) (q - s) (by omega)
          (by omega)
      · -- permutation
        have hdecomp : b2 = b2.take s ++ (L ++ R) ++ b2.drop (e + 1) := by
          have hd1 : b2.take (mid + 1) = b2.take s ++ L := by
            have h1 : mid + 1 = s + (mid + 1 - s) := by omega
            rw [h1, List.take_add]
          have hd2 : b2.take (e + 1) = b2.take (mid + 1) ++ R := by
            have h1 : e + 1 = (mid + 1) + (e - mid) := by omega
            rw [h1, List.take_add]
          conv_lhs => rw [← List.take_append_drop (e + 1) b2]
          rw [hd2, hd1, List.append_assoc]
          simp [List.append_assoc]
        have hws : writeSeq b2 s Mg =
            b2.take s ++ Mg ++ b2.drop (e + 1) := by
          rw [writeSeq_eq _ _ _ (by omega), hse1]
        have hperm3 : (writeSeq b2 s Mg).Perm b2 := by
          rw [hws]
          conv_rhs => rw [hdecomp]
          rw [List.append_assoc, List.append_assoc]
          exact List.Perm.append_left _ (List.Perm.append_right _ hMgperm)
        rw [m1]
        exact (hperm3.trans p2).trans p1
      · rw [replay_append, replay_append, rp1, rp2, m2 b2, m1]

/-- Partition loop `for (j = low; j < high; j++)` of `quickSort`'s Lomuto
partition.  `ip1` carries `i + 1`, so the JS `i = low - 1` start is
`ip1 = low` and the emitted `swap` after `i++` exchanges `(ip1, j)`.
`cnt = high - j` iterations remain. -/
def partLoop (arr : List Nat) (pv ip1 j high : Nat) :
    Nat → List Nat × Nat × List SEvent
  | 0 => (arr, ip1, [])
  | cnt + 1 =>
    if arr.getD j 0 < pv then
      let r := partLoop (listSwap arr ip1 j) pv (ip1 + 1) (j + 1) high cnt
      (r.1, r.2.1, SEvent.compare j high :: SEvent.swap ip1 j ::
        SEvent.reset j high :: r.2.2)
    else
      let r := partLoop arr pv ip1 (j + 1) high cnt
      (r.1, r.2.1, SEvent.compare j high :: SEvent.reset j high :: r.2.2)

/-- `partition(arr, low, high, animations)`: pivot is the last element;
after the loop the pivot is swapped to the boundary `i + 1`, which is
returned together with the mutated array and the events. -/
def partition (arr : List Nat) (low high : Nat) : List Nat × Nat × List SEvent :=
  let pv := arr.getD high 0
  let r := partLoop arr pv low low high (high - low)
  let a2 := listSwap r.1 r.2.1 high
  (a2, r.2.1,
    SEvent.pivot high :: (r.2.2 ++ SEvent.swap r.2.1 high ::
      SEvent.sorted r.2.1 :: SEvent.resetPivot high :: []))

/-- `quickSortHelper(arr, low, high)`.  The JS bounds can go negative
(`high = pivot - 1` with `pivot = 0`), so they are embedded as integers;
`fuel` bounds the recursion depth (every recursive interval is strictly
shorter, so `fuel ≥` the interval length is never exhausted). -/
def quickSortHelper : Nat → List Nat → Int → Int → List Nat × List SEvent
  | 0, arr, _, _ => (arr, [])
  | fuel + 1, arr, low, high =>
    if low < high then
      let r := partition arr low.toNat high.toNat
      let r1 := quickSortHelper fuel r.1 low ((r.2.1 : Int) - 1)
      let r2 := quickSortHelper fuel r1.1 ((r.2.1 : Int) + 1) high
      (r2.1, r.2.2 ++ r1.2 ++ r2.2)
    else if low = high then (arr, [SEvent.sorted low.toNat])
    else (arr, [])

/-- The `quickSort` recorder: run the helper on the whole range, then mark
every index as sorted. -/
def quickSort (a : List Nat) : List Nat × List SEvent :=
  let r := quickSortHelper a.length a 0 ((a.length : Int) - 1)
  (r.1, r.2 ++ (List.range a.length).map SEvent.sorted)

example : quickSort [5, 3, 8, 1] =
    ([1, 3, 5, 8],
     [SEvent.pivot 3,
      SEvent.compare 0 3, SEvent.reset 0 3,
      SEvent.compare 1 3, SEvent.reset 1 3,
      SEvent.compare 2 3, SEvent.reset 2 3,
      SEvent.swap 0 3, SEvent.sorted 0, SEvent.resetPivot 3,
      SEvent.pivot 3,
      SEvent.compare 1 3, SEvent.swap 1 1, SEvent.reset 1 3,
      SEvent.compare 2 3, SEvent.reset 2 3,
      SEvent.swap 2 3, SEvent.sorted 2, SEvent.resetPivot 3,
      SEvent.sorted 1, SEvent.sorted 3,
      SEvent.sorted 0, SEvent.sorted 1, SEvent.sorted 2, SEvent.sorted 3]) := by
  decide

example : replay [5, 3, 8, 1] (quickSort [5, 3, 8, 1]).2 = [1, 3, 5, 8] := by
  decide

example : quickSort ([] : List Nat) = ([], []) := by decide

example : quickSort [7] = ([7], [SEvent.sorted 0, SEvent.sorted 0]) := by decide

/-- Lomuto partition loop invariant: values in `[low, ip1)` are below the
pivot value, values in `[ip1, j)` are not; the loop preserves them, moves
the boundary forward, touches nothing outside `[ip1, high)`, and its events
replay to its final working copy. -/
theorem partLoop_spec (cnt : Nat) : ∀ (arr : List Nat) (pv low ip1 j high : Nat),
    low ≤ ip1 → ip1 ≤ j → j + cnt = high → high < arr.length →
    (∀ t, low ≤ t → t < ip1 → arr.getD t 0 < pv) →
    (∀ t, ip1 ≤ t → t < j → ¬(arr.getD t 0 < pv)) →
    (partLoop arr pv ip1 j high cnt).1.length = arr.length ∧
    (partLoop arr pv ip1 j high cnt).1.Perm arr ∧
    (∀ t, t < ip1 ∨ high ≤ t →
      (partLoop arr pv ip1 j high cnt).1.getD t 0 = arr.getD t 0) ∧
    ip1 ≤ (partLoop arr pv ip1 j high cnt).2.1 ∧
    (partLoop arr pv ip1 j high cnt).2.1 ≤ high ∧
    (∀ t, low ≤ t → t < (partLoop arr pv ip1 j high cnt).2.1 →
      (partLoop arr pv ip1 j high cnt).1.getD t 0 < pv) ∧
    (∀ t, (partLoop arr pv ip1 j high cnt).2.1 ≤ t → t < high →
      ¬((partLoop arr pv ip1 j high cnt).1.getD t 0 < pv)) ∧
    replay arr (partLoop arr pv ip1 j high cnt).2.2 =
      (partLoop arr pv ip1 j high cnt).1 := by
  induction cnt with
  | zero =>
    intro arr pv low ip1 j high h1 h2 h3 h4 inv1 inv2
    have hj : j = high := by omega
    subst hj
    exact ⟨rfl, List.Perm.refl arr, fun t _ => rfl, le_refl _, h2, inv1,
      inv2, rfl⟩
  | succ cnt ih =>
    intro arr pv low ip1 j high h1 h2 h3 h4 inv1 inv2
    have hjlt : j < high := by omega
    have hjlen : j < arr.length := by omega
    have hiplen : ip1 < arr.length := by omega
    by_cases hlt : arr.getD j 0 < pv
    · have hdef : partLoop arr pv ip1 j high (cnt + 1) =
          (let r := partLoop (listSwap arr ip1 j) pv (ip1 + 1) (j + 1) high cnt
           (r.1, r.2.1, SEvent.compare j high :: SEvent.swap ip1 j ::
             SEvent.reset j high :: r.2.2)) := by
        rw [partLoop, if_pos hlt]
      rw [hdef]
      dsimp only
      have hleft : (listSwap arr ip1 j).getD ip1 0 = arr.getD j 0 :=
        getD_listSwap_left arr hiplen
      have hright : (listSwap arr ip1 j).getD j 0 = arr.getD ip1 0 :=
        getD_listSwap_right arr hjlen
      have inv1n : ∀ t, low ≤ t → t < ip1 + 1 →
          (listSwap arr ip1 j).getD t 0 < pv := by
        intro t ht1 ht2
        rcases Nat.lt_or_ge t ip1 with h | h
        · rw [getD_listSwap_other arr (by omega) (by omega)]
          exact inv1 t ht1 h
        · have ht : t = ip1 := by omega
          subst ht
          rw [hleft]
          exact hlt
      have inv2n : ∀ t, ip1 + 1 ≤ t → t < j + 1 →
          ¬((listSwap arr ip1 j).getD t 0 < pv) := by
        intro t ht1 ht2
        rcases Nat.lt_or_ge t j with h | h
        · rw [getD_listSwap_other arr (by omega) (by omega)]
          exact inv2 t (by omega) h
        · have ht : t = j := by omega
          subst ht
          rw [hright]
          exact inv2 ip1 (le_refl _) (by omega)
      obtain ⟨c1, c2, c3, c4, c5, c6, c7, c8⟩ := ih (listSwap arr ip1 j)
        pv low (ip1 + 1) (j + 1) high (by omega) (by omega) (by omega)
        (by rw [length_listSwap]; omega) inv1n inv2n
      refine ⟨?_, ?_, ?_, by omega, c5, c6, c7, ?_⟩
      · rw [c1, length_listSwap]
      · exact c2.trans (listSwap_perm arr hiplen hjlen)
      · intro t ht
        rw [c3 t (by omega), getD_listSwap_other arr (by omega) (by omega)]
      · exact c8
    · have hdef : partLoop arr pv ip1 j high (cnt + 1) =
          (let r := partLoop arr pv ip1 (j + 1) high cnt
           (r.1, r.2.1, SEvent.compare j high ::
             SEvent.reset j high :: r.2.2)) := by
        rw [partLoop, if_neg hlt]
      rw [hdef]
      dsimp only
      have inv2n : ∀ t, ip1 ≤ t → t < j + 1 → ¬(arr.getD t 0 < pv) := by
        intro t ht1 ht2
        rcases Nat.lt_or_ge t j with h | h
        · exact inv2 t ht1 h
        · have ht : t = j := by omega
          subst ht
          exact hlt
      obtain ⟨c1, c2, c3, c4, c5, c6, c7, c8⟩ := ih arr pv low ip1 (j + 1)
        high h1 (by omega) (by omega) h4 inv1 inv2n
      exact ⟨c1, c2, c3, c4, c5, c6, c7, c8⟩

/-- Specification of `partition`: the returned boundary `p` lies in
`[low, high]`, carries the pivot value, entries of `[low, p)` are strictly
below it, entries of `(p, high]` are not below it, everything outside
`[low, high]` is untouched, the result is a permutation, and the events
replay to the result. -/
theorem partition_spec (arr : List Nat) (low high : Nat)
    (hlh : low ≤ high) (hlen : high < arr.length) :
    (partition arr low high).1.length = arr.length ∧
    (partition arr low high).1.Perm arr ∧
    (∀ t, t < low ∨ high < t →
      (partition arr low high).1.getD t 0 = arr.getD t 0) ∧
    low ≤ (partition arr low high).2.1 ∧
    (partition arr low high).2.1 ≤ high ∧
    (partition arr low high).1.getD (partition arr low high).2.1 0 =
      arr.getD high 0 ∧
    (∀ t, low ≤ t → t < (partition arr low high).2.1 →
      (partition arr low high).1.getD t 0 < arr.getD high 0) ∧
    (∀ t, (partition arr low high).2.1 < t → t ≤ high →
      ¬((partition arr low high).1.getD t 0 < arr.getD high 0)) ∧
    replay arr (partition arr low high).2.2 = (partition arr low high).1 := by
  obtain ⟨c1, c2, c3, c4, c5, c6, c7, c8⟩ := partLoop_spec (high - low) arr
    (arr.getD high 0) low low low high (le_refl _) (le_refl _) (by omega)
    hlen (by omega) (by omega)
  have hdef : partition arr low high =
      (listSwap (partLoop arr (arr.getD high 0) low low high (high - low)).1
        (partLoop arr (arr.getD high 0) low low high (high - low)).2.1 high,
       (partLoop arr (arr.getD high 0) low low high (high - low)).2.1,
       SEvent.pivot high ::
         ((partLoop arr (arr.getD high 0) low low high (high - low)).2.2 ++
           SEvent.swap (partLoop arr (arr.getD high 0) low low high
             (high - low)).2.1 high ::
           SEvent.sorted (partLoop arr (arr.getD high 0) low low high
             (high - low)).2.1 ::
           SEvent.resetPivot high :: [])) := rfl
  rw [hdef]
  dsimp only
  set b := (partLoop arr (arr.getD high 0) low low high (high - low)).1 with hb
  set q := (partLoop arr (arr.getD high 0) low low high (high - low)).2.1 with hq
  have hqlen : q < arr.length := by omega
  have hblen : b.length = arr.length := c1
  have hbhigh : b.getD high 0 = arr.getD high 0 := c3 high (Or.inr (le_refl _))
  refine ⟨?_, ?_, ?_, c4, c5, ?_, ?_, ?_, ?_⟩
  · rw [length_listSwap]; exact c1
  · exact (listSwap_perm b (by omega) (by omega)).trans c2
  · intro t ht
    rw [getD_listSwap_other b (by omega) (by omega)]
    exact c3 t (by omega)
  · rw [getD_listSwap_left b (by omega), hbhigh]
  · intro t ht1 ht2
    rw [getD_listSwap_other b (by omega) (by omega)]
    exact c6 t ht1 ht2
  · intro t ht1 ht2
    rcases Nat.lt_or_ge t high with h | h
    · rw [getD_listSwap_other b (by omega) (by omega)]
      exact c7 t (by omega) h
    · have ht : t = high := by omega
      rw [ht, getD_listSwap_right b (by omega)]
      rcases Nat.lt_or_ge q high with h2 | h2
      · exact c7 q (le_refl _) h2
      · have hqh : q = high := by omega
        rw [hqh, hbhigh]
        omega
  · show replay arr ((partLoop arr (arr.getD high 0) low low high
        (high - low)).2.2 ++ SEvent.swap q high :: SEvent.sorted q ::
        SEvent.resetPivot high :: []) = listSwap b q high
    rw [replay_append, c8]
    rfl

/-- If `b` is a permutation of `a` that agrees with `a` outside the window
`[lo, lo+c)`, then the windows themselves are permutations of each other. -/
theorem seg_perm_of_frame (a b : List Nat) (lo c : Nat)
    (hc : lo + c ≤ a.length) (hlen : b.length = a.length) (hperm : b.Perm a)
    (hframe : ∀ t, t < lo ∨ lo + c ≤ t → b.getD t 0 = a.getD t 0) :
    ((b.drop lo).take c).Perm ((a.drop lo).take c) := by
  have hcb : lo + c ≤ b.length := by omega
  have htake : b.take lo = a.take lo := by
    apply List.ext_getElem?
    intro n
    rw [List.getElem?_take, List.getElem?_take]
    by_cases hn : n < lo
    · rw [if_pos hn, if_pos hn, List.getElem?_eq_getElem (by omega),
        List.getElem?_eq_getElem (show n < a.length by omega)]
      have := hframe n (Or.inl hn)
      rw [List.getD_eq_getElem _ _ (show n < b.length by omega),
        List.getD_eq_getElem _ _ (show n < a.length by omega)] at this
      rw [this]
    · rw [if_neg hn, if_neg hn]
  have hdrop : b.drop (lo + c) = a.drop (lo + c) := by
    apply List.ext_getElem?
    intro n
    rw [List.getElem?_drop, List.getElem?_drop]
    by_cases hn : lo + c + n < a.length
    · rw [List.getElem?_eq_getElem (by omega), List.getElem?_eq_getElem hn]
      have := hframe (lo + c + n) (Or.inr (by omega))
      rw [List.getD_eq_getElem _ _ (show lo + c + n < b.length by omega),
        List.getD_eq_getElem _ _ hn] at this
      rw [this]
    · rw [List.getElem?_eq_none (by omega), List.getElem?_eq_none (by omega)]
  have hA : a = a.take lo ++ ((a.drop lo).take c ++ a.drop (lo + c)) := by
    conv_lhs => rw [← List.take_append_drop (lo + c) a]
    rw [show lo + c = lo + c from rfl, List.take_add, List.append_assoc]
  have hB : b = b.take lo ++ ((b.drop lo).take c ++ b.drop (lo + c)) := by
    conv_lhs => rw [← List.take_append_drop (lo + c) b]
    rw [List.take_add, List.append_assoc]
  have hm : (↑b : Multiset Nat) = ↑a := Multiset.coe_eq_coe.mpr hperm
  rw [hA, hB, htake, hdrop] at hm
  rw [← Multiset.coe_add, ← Multiset.coe_add, ← Multiset.coe_add,
    ← Multiset.coe_add] at hm
  have hm2 : (↑((b.drop lo).take c) : Multiset Nat) = ↑((a.drop lo).take c) := by
    have h1 := add_left_cancel hm
    exact add_right_cancel h1
  exact Multiset.coe_eq_coe.mp hm2

/-- Pointwise bounds on a window transfer along a window permutation. -/
theorem seg_bound_transfer (a b : List Nat) (lo c : Nat) (P : Nat → Prop)
    (hc : lo + c ≤ a.length) (hlen : b.length = a.length)
    (hsp : ((b.drop lo).take c).Perm ((a.drop lo).take c))
    (hP : ∀ t, lo ≤ t → t < lo + c → P (a.getD t 0)) :
    ∀ t, lo ≤ t → t < lo + c → P (b.getD t 0) := by
  intro t ht1 ht2
  have hcb : lo + c ≤ b.length := by omega
  have h1 : ((b.drop lo).take c).getD (t - lo) 0 = b.getD t 0 := by
    rw [getD_drop_take b lo c (t - lo) (by omega)]
    congr 1
    omega
  have hlenb : ((b.drop lo).take c).length = c := length_drop_take _ _ _ hcb
  have hmem : b.getD t 0 ∈ (b.drop lo).take c := by
    rw [← h1, List.getD_eq_getElem _ _ (by omega)]
    exact List.getElem_mem _
  have hmem2 : b.getD t 0 ∈ (a.drop lo).take c := hsp.mem_iff.mp hmem
  obtain ⟨n, hn, hval⟩ := List.mem_iff_getElem.mp hmem2
  rw [length_drop_take _ _ _ hc] at hn
  have h2 : ((a.drop lo).take c).getD n 0 = a.getD (lo + n) 0 :=
    getD_drop_take a lo c n hn
  rw [← List.getD_eq_getElem _ _ (by rw [length_drop_take _ _ _ hc]; omega)]
    at hval
  rw [h2] at hval
  rw [← hval]
  exact hP (lo + n) (by omega) (by omega)

theorem replay_sorted_marks (is : List Nat) : ∀ (c : List Nat),
    replay c (is.map SEvent.sorted) = c := by
  induction is with
  | nil => intro c; rfl
  | cons i is ih => intro c; exact ih c

/-- Full specification of `quickSortHelper` on `[low, high]`: outside the
interval nothing changes, inside the values end up sorted, the array is a
permutation of the input, and the events replay to the final array. -/
theorem quickSortHelper_spec (fuel : Nat) : ∀ (arr : List Nat) (low high : Int),
    0 ≤ low → high < (arr.length : Int) → (high + 1 - low).toNat ≤ fuel →
    (quickSortHelper fuel arr low high).1.length = arr.length ∧
    (∀ t : Nat, ((t : Int) < low ∨ high < (t : Int)) →
      (quickSortHelper fuel arr low high).1.getD t 0 = arr.getD t 0) ∧
    (∀ p q : Nat, low ≤ (p : Int) → p ≤ q → (q : Int) ≤ high →
      (quickSortHelper fuel arr low high).1.getD p 0 ≤
        (quickSortHelper fuel arr low high).1.getD q 0) ∧
    (quickSortHelper fuel arr low high).1.Perm arr ∧
    replay arr (quickSortHelper fuel arr low high).2 =
      (quickSortHelper fuel arr low high).1 := by
  induction fuel with
  | zero =>
    intro arr low high h0 hlen hfuel
    refine ⟨rfl, fun t _ => rfl, ?_, List.Perm.refl arr, rfl⟩
    intro p q hp hpq hq
    have : p = q := by omega
    rw [this]
  | succ fuel ih =>
    intro arr low high h0 hlen hfuel
    by_cases hlt : low < high
    · have hdef : quickSortHelper (fuel + 1) arr low high =
          ((quickSortHelper fuel (quickSortHelper fuel
              (partition arr low.toNat high.toNat).1 low
              (((partition arr low.toNat high.toNat).2.1 : Int) - 1)).1
              (((partition arr low.toNat high.toNat).2.1 : Int) + 1) high).1,
            (partition arr low.toNat high.toNat).2.2 ++
              (quickSortHelper fuel (partition arr low.toNat high.toNat).1 low
                (((partition arr low.toNat high.toNat).2.1 : Int) - 1)).2 ++
              (quickSortHelper fuel (quickSortHelper fuel
                (partition arr low.toNat high.toNat).1 low
                (((partition arr low.toNat high.toNat).2.1 : Int) - 1)).1
                (((partition arr low.toNat high.toNat).2.1 : Int) + 1) high).2) := by
        rw [quickSortHelper, if_pos hlt]
      rw [hdef]
      have hlowN : (low.toNat : Int) = low := Int.toNat_of_nonneg h0
      have hhighN : (high.toNat : Int) = high := Int.toNat_of_nonneg (by omega)
      have hlh : low.toNat ≤ high.toNat := by omega
      have hhlen : high.toNat < arr.length := by omega
      obtain ⟨pr1, pr2, pr3, pr4, pr5, pr6, pr7, pr8, pr9⟩ :=
        partition_spec arr low.toNat high.toNat hlh hhlen
      set a2 := (partition arr low.toNat high.toNat).1 with ha2
      set p := (partition arr low.toNat high.toNat).2.1 with hp
      have hplen : p < arr.length := by omega
      have ha2len : a2.length = arr.length := pr1
      obtain ⟨q1, q2, q3, q4, q5⟩ := ih a2 low ((p : Int) - 1)
        h0 (by omega) (by omega)
      set b1 := (quickSortHelper fuel a2 low ((p : Int) - 1)).1 with hb1
      have hb1len : b1.length = arr.length := by omega
      obtain ⟨w1, w2, w3, w4, w5⟩ := ih b1 ((p : Int) + 1) high
        (by omega) (by omega) (by omega)
      set b2 := (quickSortHelper fuel b1 ((p : Int) + 1) high).1 with hb2
      have hb2len : b2.length = arr.length := by omega
      -- pivot value is preserved through both recursive sorts
      have hpivot1 : b1.getD p 0 = arr.getD high.toNat 0 := by
        rw [q2 p (Or.inr (by omega))]
        exact pr6
      have hpivot2 : b2.getD p 0 = arr.getD high.toNat 0 := by
        rw [w2 p (Or.inl (by omega))]
        exact hpivot1
      -- the left window of b1 is a permutation of the left window of a2
      have hsegL : ((b1.drop low.toNat).take (p - low.toNat)).Perm
          ((a2.drop low.toNat).take (p - low.toNat)) := by
        apply seg_perm_of_frame a2 b1 low.toNat (p - low.toNat) (by omega)
          (by omega) q4
        intro t ht
        apply q2
        omega
      have hltL : ∀ t, low.toNat ≤ t → t < p →
          b1.getD t 0 < arr.getD high.toNat 0 := by
        have := seg_bound_transfer a2 b1 low.toNat (p - low.toNat)
          (fun v => v < arr.getD high.toNat 0) (by omega) (by omega) hsegL
          (fun t ht1 ht2 => pr7 t ht1 (by omega))
        intro t ht1 ht2
        exact this t ht1 (by omega)
      -- the left window is untouched by the second recursive sort
      have hkeepL : ∀ t, t ≤ p → b2.getD t 0 = b1.getD t 0 := by
        intro t ht
        apply w2
        omega
      -- right window of b1 = right window of a2 (untouched by first sort)
      have hgeR1 : ∀ t, p < t → t ≤ high.toNat →
          ¬(b1.getD t 0 < arr.getD high.toNat 0) := by
        intro t ht1 ht2
        rw [q2 t (Or.inr (by omega))]
        exact pr8 t ht1 ht2
      have hsegR : ((b2.drop (p + 1)).take (high.toNat - p)).Perm
          ((b1.drop (p + 1)).take (high.toNat - p)) := by
        apply seg_perm_of_frame b1 b2 (p + 1) (high.toNat - p) (by omega)
          (by omega) w4
        intro t ht
        apply w2
        omega
      have hgeR : ∀ t, p < t → t ≤ high.toNat →
          ¬(b2.getD t 0 < arr.getD high.toNat 0) := by
        have := seg_bound_transfer b1 b2 (p + 1) (high.toNat - p)
          (fun v => ¬(v < arr.getD high.toNat 0)) (by omega) (by omega) hsegR
          (fun t ht1 ht2 => hgeR1 t (by omega) (by omega))
        intro t ht1 ht2
        exact this t (by omega) (by omega)
      refine ⟨?_, ?_, ?_, ?_, ?_⟩
      · omega
      · intro t ht
        rw [w2 t (by omega), q2 t (by omega), pr3 t (by omega)]
      · intro pN qN hpN hpq hqN
        rcases Nat.lt_trichotomy qN p with hq | hq | hq
        · -- both strictly left of the pivot
          rw [hkeepL pN (by omega), hkeepL qN (by omega)]
          exact q3 pN qN (by omega) hpq (by omega)
        · -- qN is the pivot slot
          rw [hq, hpivot2]
          rcases Nat.eq_or_lt_of_le hpq with he | hlt2
          · rw [he, hq] at *
            rw [hpivot2]
          · have hpn : pN < p := by omega
            rw [hkeepL pN (by omega)]
            exact le_of_lt (hltL pN (by omega) hpn)
        · -- qN strictly right of the pivot
          have hqge : ¬(b2.getD qN 0 < arr.getD high.toNat 0) :=
            hgeR qN hq (by omega)
          rcases Nat.lt_trichotomy pN p with hp2 | hp2 | hp2
          · rw [hkeepL pN (by omega)]
            have := hltL pN (by omega) hp2
            omega
          · rw [hp2, hpivot2]
            omega
          · exact w3 pN qN (by omega) hpq (by omega)
      · exact (w4.trans q4).trans pr2
      · rw [replay_append, replay_append, pr9, q5, w5]

    · by_cases heq : low = high
      · have hdef : quickSortHelper (fuel + 1) arr low high =
            (arr, [SEvent.sorted low.toNat]) := by
          rw [quickSortHelper, if_neg hlt, if_pos heq]
        rw [hdef]
        refine ⟨rfl, fun t _ => rfl, ?_, List.Perm.refl arr, rfl⟩
        intro p q hpi hpq hqi
        have : p = q := by omega
        rw [this]
      · have hdef : quickSortHelper (fuel + 1) arr low high = (arr, []) := by
          rw [quickSortHelper, if_neg hlt, if_neg heq]
        rw [hdef]
        refine ⟨rfl, fun t _ => rfl, ?_, List.Perm.refl arr, rfl⟩
        intro p q hpi hpq hqi
        have : p = q := by omega
        rw [this]

/-- Replaying the `quickSort` events onto the input yields a sorted
permutation of the input. -/
theorem quickSort_replay_spec (a : List Nat) :
    (replay a (quickSort a).2).Sorted (· ≤ ·) ∧
    (replay a (quickSort a).2).Perm a := by
  cases a with
  | nil =>
    have h : replay [] (quickSort []).2 = [] := rfl
    rw [h]
    exact ⟨List.sorted_nil, List.Perm.refl []⟩
  | cons x xs =>
    have hlen : (x :: xs).length = xs.length + 1 := rfl
    obtain ⟨a1, f1, so1, p1, rp1⟩ := quickSortHelper_spec (x :: xs).length
      (x :: xs) 0 (((x :: xs).length : Int) - 1) (by omega) (by omega)
      (by omega)
    have hev : (quickSort (x :: xs)).2 =
        (quickSortHelper (x :: xs).length (x :: xs) 0
          (((x :: xs).length : Int) - 1)).2 ++
          (List.range (x :: xs).length).map SEvent.sorted := rfl
    have hrep : replay (x :: xs) (quickSort (x :: xs)).2 =
        (quickSortHelper (x :: xs).length (x :: xs) 0
          (((x :: xs).length : Int) - 1)).1 := by
      rw [hev, replay_append, rp1, replay_sorted_marks]
    rw [hrep]
    refine ⟨sorted_of_getD _ ?_, p1⟩
    intro p q hpq hq
    exact so1 p q (by omega) hpq (by omega)

/-- Replaying the `mergeSort` events onto the input yields a sorted
permutation of the input. -/
theorem mergeSort_replay_spec (a : List Nat) :
    (replay a (mergeSort a).2).Sorted (· ≤ ·) ∧
    (replay a (mergeSort a).2).Perm a := by
  cases a with
  | nil =>
    have h : replay [] (mergeSort []).2 = [] := rfl
    rw [h]
    exact ⟨List.sorted_nil, List.Perm.refl []⟩
  | cons x xs =>
    have hlen : (x :: xs).length = xs.length + 1 := rfl
    obtain ⟨a1, f1, so1, p1, rp1⟩ := mergeSortHelper_spec (x :: xs).length
      (x :: xs) 0 ((x :: xs).length - 1) (by omega) (by omega)
    have hev : (mergeSort (x :: xs)).2 =
        (mergeSortHelper (x :: xs).length (x :: xs) 0 ((x :: xs).length - 1)).2
          ++ (List.range (x :: xs).length).map SEvent.sorted := rfl
    have hrep : replay (x :: xs) (mergeSort (x :: xs)).2 =
        (mergeSortHelper (x :: xs).length (x :: xs) 0 ((x :: xs).length - 1)).1 := by
      rw [hev, replay_append, rp1, replay_sorted_marks]
    rw [hrep]
    refine ⟨sorted_of_getD _ ?_, p1⟩
    intro p q hpq hq
    exact so1 p q (Nat.zero_le p) hpq (by omega)

/-! ### Playback engine models

`animateSort` (src part_000, lines 357-432) aborts before applying anything
when the animation list is empty (`if (!animations.length) return`) — in
that case neither `setIsSorted(true)` nor the completion toast runs.  On a
nonempty list the `animate` loop applies every event in order and, when the
cursor reaches the length, marks the sort complete and emits the toast
once. -/

/-- Result of running `animateSort` to completion on a value array: the
final array and whether the completion notification was emitted. -/
def animateSortRun (a : List Nat) (es : List SEvent) : List Nat × Bool :=
  if es = [] then (a, false) else (replay a es, true)

/-- The four algorithm ids of the `startSorting` switch. -/
inductive SortAlg : Type
  | bubble | merge | quick | insertion
  deriving DecidableEq, Repr

/-- The recorder selected by `startSorting`'s switch. -/
def recorderOf : SortAlg → List Nat → List SEvent
  | .bubble => fun a => (bubbleSort a).2
  | .merge => fun a => (mergeSort a).2
  | .quick => fun a => (quickSort a).2
  | .insertion => fun a => (insertionSort a).2

/-- State of the sorting visualizer relevant to play/pause: the current bar
values, the animation list and cursor of the running `animateSort` call,
and the `isSorting`/`isSorted` flags. -/
structure SortSession where
  arr : List Nat
  events : List SEvent
  cursor : Nat
  isSorting : Bool
  isSorted : Bool
  deriving DecidableEq, Repr

/-- `startSorting` (lines 142-161): set `isSorting`, run the selected
recorder on the current array and begin animating the fresh list from
index 0. -/
def startSorting (alg : SortAlg) (s : SortSession) : SortSession :=
  { s with isSorting := true, events := recorderOf alg s.arr, cursor := 0 }

/-- `pauseSorting` (lines 163-173): clear `isSorting` and cancel the
pending timeout/animation frame.  The local index `i` of the aborted
`animateSort` closure is not saved anywhere. -/
def pauseSorting (s : SortSession) : SortSession :=
  { s with isSorting := false }

/-- One tick of the `animate` loop: apply the event at the cursor and
advance, or mark the run complete at the end of the list. -/
def tickSession (s : SortSession) : SortSession :=
  if ¬s.isSorting then s
  else if s.cursor = s.events.length then
    { s with isSorting := false, isSorted := true }
  else
    { s with arr := applyEvent s.arr (s.events.getD s.cursor (SEvent.sorted 0)),
             cursor := s.cursor + 1 }

/-- The play/pause effect (lines 124-140): pressing play starts a (new)
sort only when not already sorting and not sorted; there is no other resume
path. -/
def pressPlay (alg : SortAlg) (s : SortSession) : SortSession :=
  if ¬s.isSorting ∧ ¬s.isSorted then startSorting alg s else s

/-! ### Timer bookkeeping of the pathfinding / graph-traversal visualizers

`animateAlgorithm` (src part_000, lines 852-880) and `animateTraversal`
(src part_001, lines 335-407) schedule all their timeouts up front in a
loop, storing each new handle into the single `animationTimeoutRef` — each
store overwrites the previous handle.  `resetGrid` / `resetGraph` call
`clearTimeout` on that one stored handle. -/

structure TimerState where
  pending : List Nat
  ref : Option Nat
  next : Nat
  deriving DecidableEq, Repr

def timerInit : TimerState := { pending := [], ref := none, next := 0 }

/-- `setTimeout(...)` assigned to `animationTimeoutRef.current`. -/
def setTimeoutRef (s : TimerState) : TimerState :=
  { pending := s.pending ++ [s.next], ref := some s.next, next := s.next + 1 }

/-- `clearTimeout(animationTimeoutRef.current)` — cancels only the single
stored handle. -/
def clearTimeoutRef (s : TimerState) : TimerState :=
  match s.ref with
  | none => s
  | some h => { pending := s.pending.erase h, ref := none, next := s.next }

def schedMany : Nat → TimerState → TimerState
  | 0, s => s
  | n + 1, s => schedMany n (setTimeoutRef s)

/-- `animateAlgorithm(visitedNodesInOrder, ...)`: the loop runs for
`i = 0 .. visitedNodesInOrder.length` inclusive, scheduling one timeout per
visited node plus the one that starts the shortest-path phase. -/
def animateAlgorithmTimers (numVisited : Nat) (s : TimerState) : TimerState :=
  schedMany (numVisited + 1) s

/-- `animateTraversal(visitOrder)`: one timeout per visit step. -/
def animateTraversalTimers (numVisits : Nat) (s : TimerState) : TimerState :=
  schedMany numVisits s

/-- `resetGrid` / `resetGraph`: clear the single stored handle. -/
def resetTimers (s : TimerState) : TimerState := clearTimeoutRef s

theorem schedMany_pending (n : Nat) : ∀ (s : TimerState),
    (schedMany n s).pending = s.pending ++ (List.range n).map (s.next + ·) ∧
    (schedMany n s).next = s.next + n ∧
    (n = 0 ∧ (schedMany n s).ref = s.ref ∨
      (schedMany n s).ref = some (s.next + n - 1)) := by
  induction n with
  | zero => intro s; exact ⟨by simp [schedMany], rfl, Or.inl ⟨rfl, rfl⟩⟩
  | succ n ih =>
    intro s
    obtain ⟨h1, h2, h3⟩ := ih (setTimeoutRef s)
    refine ⟨?_, by simp [schedMany, setTimeoutRef] at h2 ⊢; omega, ?_⟩
    · show (schedMany n (setTimeoutRef s)).pending = _
      rw [h1]
      show (s.pending ++ [s.next]) ++ _ = _
      rw [List.append_assoc]
      congr 1
      show [s.next] ++ (List.range n).map (s.next + 1 + ·) =
        (List.range (n + 1)).map (s.next + ·)
      rw [List.range_succ_eq_map]
      simp [Function.comp]
      intro a _
      omega
    · rcases h3 with ⟨hn, hr⟩ | hr
      · right
        subst hn
        show (schedMany 0 (setTimeoutRef s)).ref = some (s.next + (0 + 1) - 1)
        rw [hr]
        show some s.next = some (s.next + (0 + 1) - 1)
        congr 1
      · right
        show (schedMany n (setTimeoutRef s)).ref = some (s.next + (n + 1) - 1)
        rw [hr]
        congr 1
        show s.next + 1 + n - 1 = s.next + (n + 1) - 1
        omega

/-- After `animateAlgorithm` schedules its `v + 1` timeouts from a fresh
timer state, a reset cancels only the last one: `v` timeouts stay
pending. -/
theorem resetGrid_pending_count (v : Nat) :
    (resetTimers (animateAlgorithmTimers v timerInit)).pending.length = v := by
  obtain ⟨h1, h2, h3⟩ := schedMany_pending (v + 1) timerInit
  show (clearTimeoutRef (schedMany (v + 1) timerInit)).pending.length = v
  rcases h3 with ⟨hn, _⟩ | hr
  · omega
  · rw [clearTimeoutRef, hr]
    show ((schedMany (v + 1) timerInit).pending.erase (0 + (v + 1) - 1)).length = v
    rw [h1]
    show ((([] : List Nat) ++ (List.range (v + 1)).map (0 + ·)).erase
      (0 + (v + 1) - 1)).length = v
    simp

/-- C3 (code bug): a pathfinding run that visits two cells schedules three
timeouts up front, each overwriting the single `animationTimeoutRef`;
`resetGrid` then cancels only the last stored handle, so the two earlier
scheduled ticks are still pending after the reset — not zero as the claim
requires. -/
theorem C3_reset_leaves_pending_timeouts :
    (resetTimers (animateAlgorithmTimers 2 timerInit)).pending = [0, 1] ∧
    (resetTimers (animateAlgorithmTimers 2 timerInit)).pending ≠ [] := by
  decide

/-- C4 (counterexample): start bubble sort on `[2, 1]`, apply one event
(`compare`, so the values are unchanged but the cursor is `1`), pause, and
press play: the new session starts at cursor `0`, and the event it will
apply next differs from event index `1` of the original sequence — the run
is restarted, not resumed. -/
theorem C4_resume_restarts_counterexample :
    (pressPlay SortAlg.bubble (pauseSorting (tickSession (startSorting
      SortAlg.bubble ⟨[2, 1], [], 0, false, false⟩)))).cursor = 0 ∧
    (tickSession (startSorting SortAlg.bubble
      ⟨[2, 1], [], 0, false, false⟩)).cursor = 1 ∧
    (pressPlay SortAlg.bubble (pauseSorting (tickSession (startSorting
      SortAlg.bubble ⟨[2, 1], [], 0, false, false⟩)))).events.getD 0
        (SEvent.sorted 0) ≠
      (startSorting SortAlg.bubble
        ⟨[2, 1], [], 0, false, false⟩).events.getD 1 (SEvent.sorted 0) := by
  decide

/-- C4 (amended): pressing play on a paused, not-yet-completed session does
not resume the interrupted event sequence at the paused cursor: the only
resume path is `startSorting`, which records a fresh event sequence from
the current array and starts applying it from index 0. -/
theorem C4_resume_restarts (alg : SortAlg) (s : SortSession)
    (h1 : s.isSorting = false) (h2 : s.isSorted = false) :
    (pressPlay alg s).cursor = 0 ∧
    (pressPlay alg s).events = recorderOf alg s.arr := by
  simp [pressPlay, h1, h2, startSorting]

theorem C4_resume_restarts_witness :
    (pressPlay SortAlg.bubble
      ⟨[2, 1], (bubbleSort [2, 1]).2, 1, false, false⟩).cursor = 0 ∧
    (pressPlay SortAlg.bubble
      ⟨[2, 1], (bubbleSort [2, 1]).2, 1, false, false⟩).events =
      recorderOf SortAlg.bubble [2, 1] :=
  C4_resume_restarts SortAlg.bubble
    ⟨[2, 1], (bubbleSort [2, 1]).2, 1, false, false⟩ rfl rfl

/-- C6 (counterexample): on the empty array, `insertionSort` records the
non-empty event list `[sorted 0]`, and `animateSort` on an empty event
list returns before emitting the completion notification. -/
theorem C6_empty_counterexample :
    (insertionSort ([] : List Nat)).2 ≠ [] ∧
    (animateSortRun [] (bubbleSort ([] : List Nat)).2).2 = false := by
  decide

/-- C6 (amended): on the empty array, `bubbleSort`, `mergeSort` and
`quickSort` record no events while `insertionSort` records the single
`sorted 0` mark; `animateSort` on an empty event list returns immediately,
applying no event and emitting no completion notification, and on a
nonempty list it applies every event and emits the notification once. -/
theorem C6_empty_dataset (a : List Nat) (es : List SEvent) :
    (bubbleSort ([] : List Nat)).2 = [] ∧
    (mergeSort ([] : List Nat)).2 = [] ∧
    (quickSort ([] : List Nat)).2 = [] ∧
    (insertionSort ([] : List Nat)).2 = [SEvent.sorted 0] ∧
    animateSortRun [] ([] : List SEvent) = ([], false) ∧
    (es ≠ [] → animateSortRun a es = (replay a es, true)) := by
  refine ⟨by decide, by decide, by decide, by decide, rfl, ?_⟩
  intro h
  simp [animateSortRun, h]

theorem C6_empty_dataset_witness :
    animateSortRun [3, 1] (bubbleSort [3, 1]).2 =
      (replay [3, 1] (bubbleSort [3, 1]).2, true) :=
  (C6_empty_dataset [3, 1] (bubbleSort [3, 1]).2).2.2.2.2.2 (by decide)

/-! ### Pathfinding grid model (src part_000, PathfindingVisualizer)

Cells are the `Cell` records of the source; `finish` stands for the JS
type `"end"` (a Lean keyword).  The JS `Infinity` distance is `none`; the
A* fields `f`, `g`, `h` are numbers initialised to `0`, and the source
reads them through `x.g || Infinity`, treating `0` as unset — that read is
modelled explicitly where it occurs.  The algorithms mutate cell objects
shared between the grid and their work lists, so work lists are embedded
as position lists and every read goes through the current grid. -/

inductive CellType : Type
  | empty | wall | start | finish | visited | path | current
  deriving DecidableEq, Repr

structure Cell where
  row : Nat
  col : Nat
  type : CellType
  distance : Option Nat
  isVisited : Bool
  previousNode : Option (Nat × Nat)
  f : Nat
  g : Nat
  h : Nat
  deriving DecidableEq, Repr

abbrev Grid : Type := List (List Cell)

def defaultCell : Cell :=
  { row := 0, col := 0, type := CellType.empty, distance := none,
    isVisited := false, previousNode := none, f := 0, g := 0, h := 0 }

def cellAt (g : Grid) (r c : Nat) : Cell :=
  ((g : List (List Cell)).getD r []).getD c defaultCell

def setCell (g : Grid) (r c : Nat) (x : Cell) : Grid :=
  (g : List (List Cell)).set r (((g : List (List Cell)).getD r []).set c x)

/-- `createNode(row, col)` for a given start and end position. -/
def createNode (startP finishP : Nat × Nat) (row col : Nat) : Cell :=
  { row := row, col := col,
    type :=
      if row = startP.1 ∧ col = startP.2 then CellType.start
      else if row = finishP.1 ∧ col = finishP.2 then CellType.finish
      else CellType.empty,
    distance := none, isVisited := false, previousNode := none,
    f := 0, g := 0, h := 0 }

/-- `initializeGrid` for given dimensions (the component uses 20×50). -/
def initializeGrid (rows cols : Nat) (startP finishP : Nat × Nat) : Grid :=
  (List.range rows).map fun r =>
    (List.range cols).map fun c => createNode startP finishP r c

/-- `toggleWall(grid, row, col)`: flip the type of the addressed cell
between wall and non-wall unless it is the start or the end cell.  (The JS
version also aliases the row arrays of the input grid; the returned grid —
which is what the claim and this embedding describe — is the same either
way.) -/
def toggleWall (grid : Grid) (row col : Nat) : Grid :=
  let node := cellAt grid row col
  if node.type ≠ CellType.start ∧ node.type ≠ CellType.finish then
    setCell grid row col
      { node with
        type := if node.type = CellType.wall then CellType.empty
                else CellType.wall }
  else grid

theorem getD_set_self2 {α : Type} (l : List α) (d v : α) {i : Nat}
    (h : i < l.length) : (l.set i v).getD i d = v := by
  rw [List.getD_eq_getElem?_getD, List.getElem?_set_self h]
  rfl

theorem getD_set_ne2 {α : Type} (l : List α) (d v : α) {i j : Nat}
    (h : i ≠ j) : (l.set i v).getD j d = l.getD j d := by
  rw [List.getD_eq_getElem?_getD, List.getElem?_set_ne h,
    ← List.getD_eq_getElem?_getD]

theorem cellAt_setCell_self (g : Grid) (r c : Nat) (x : Cell)
    (hr : r < (g : List (List Cell)).length)
    (hc : c < ((g : List (List Cell)).getD r []).length) :
    cellAt (setCell g r c x) r c = x := by
  show (((g : List (List Cell)).set r _).getD r []).getD c defaultCell = x
  rw [getD_set_self2 _ _ _ hr, getD_set_self2 _ _ _ hc]

theorem cellAt_setCell_ne (g : Grid) (r c : Nat) (x : Cell) (r2 c2 : Nat)
    (h : ¬(r2 = r ∧ c2 = c)) :
    cellAt (setCell g r c x) r2 c2 = cellAt g r2 c2 := by
  by_cases hr : r2 = r
  · subst hr
    have hc : c2 ≠ c := fun hc => h ⟨rfl, hc⟩
    by_cases hrl : r2 < (g : List (List Cell)).length
    · show (((g : List (List Cell)).set r2 _).getD r2 []).getD c2 _ = _
      rw [getD_set_self2 _ _ _ hrl, getD_set_ne2 _ _ _ (fun he => hc he.symm)]
      rfl
    · show (((g : List (List Cell)).set r2 _).getD r2 []).getD c2 _ = _
      rw [List.set_eq_of_length_le (Nat.le_of_not_lt hrl)]
      rfl
  · show (((g : List (List Cell)).set r _).getD r2 []).getD c2 _ = _
    rw [getD_set_ne2 _ _ _ (fun he => hr he.symm)]
    rfl

/-- C10: For every grid and every cell position, `toggleWall` changes at
most the `type` field of the single addressed cell (empty becomes wall,
wall becomes empty), leaves every other cell of the grid unchanged, and
never changes a cell whose type is start or end. -/
theorem C10_toggleWall_frame (grid : Grid) (row col : Nat)
    (hr : row < (grid : List (List Cell)).length)
    (hc : col < ((grid : List (List Cell)).getD row []).length) :
    (∀ r c, ¬(r = row ∧ c = col) →
      cellAt (toggleWall grid row col) r c = cellAt grid r c) ∧
    (cellAt (toggleWall grid row col) row col =
      { cellAt grid row col with
        type := (cellAt (toggleWall grid row col) row col).type }) ∧
    ((cellAt grid row col).type = CellType.start →
      toggleWall grid row col = grid) ∧
    ((cellAt grid row col).type = CellType.finish →
      toggleWall grid row col = grid) ∧
    ((cellAt grid row col).type = CellType.empty →
      (cellAt (toggleWall grid row col) row col).type = CellType.wall) ∧
    ((cellAt grid row col).type = CellType.wall →
      (cellAt (toggleWall grid row col) row col).type = CellType.empty) := by
  by_cases hse : (cellAt grid row col).type ≠ CellType.start ∧
      (cellAt grid row col).type ≠ CellType.finish
  · have hdef : toggleWall grid row col =
        setCell grid row col
          { cellAt grid row col with
            type := if (cellAt grid row col).type = CellType.wall
                    then CellType.empty else CellType.wall } := by
      rw [toggleWall, if_pos hse]
    rw [hdef]
    refine ⟨?_, ?_, ?_, ?_, ?_, ?_⟩
    · intro r c hne
      exact cellAt_setCell_ne grid row col _ r c hne
    · rw [cellAt_setCell_self grid row col _ hr hc]
    · intro hst; exact absurd hst hse.1
    · intro hfi; exact absurd hfi hse.2
    · intro hty
      rw [cellAt_setCell_self grid row col _ hr hc]
      rw [hty]
      rfl
    · intro hty
      rw [cellAt_setCell_self grid row col _ hr hc]
      rw [hty]
      rfl
  · have hdef : toggleWall grid row col = grid := by
      rw [toggleWall, if_neg hse]
    rw [hdef]
    push_neg at hse
    refine ⟨fun r c _ => rfl, rfl, fun _ => rfl, fun _ => rfl, ?_, ?_⟩
    · intro hty
      by_cases hst : (cellAt grid row col).type = CellType.start
      · rw [hty] at hst; exact absurd hst (by decide)
      · have := hse hst
        rw [hty] at this
        exact absurd this (by decide)
    · intro hty
      by_cases hst : (cellAt grid row col).type = CellType.start
      · rw [hty] at hst; exact absurd hst (by decide)
      · have := hse hst
        rw [hty] at this
        exact absurd this (by decide)

theorem C10_toggleWall_frame_witness :
    (1 < (initializeGrid 2 2 (0, 0) (1, 1) : List (List Cell)).length) ∧
    (0 < ((initializeGrid 2 2 (0, 0) (1, 1) : List (List Cell)).getD 1 []).length) ∧
    cellAt (toggleWall (initializeGrid 2 2 (0, 0) (1, 1)) 1 0) 0 0 =
      cellAt (initializeGrid 2 2 (0, 0) (1, 1)) 0 0 ∧
    (cellAt (toggleWall (initializeGrid 2 2 (0, 0) (1, 1)) 1 0) 1 0).type =
      CellType.wall := by
  refine ⟨by decide, by decide, ?_, ?_⟩
  · exact (C10_toggleWall_frame (initializeGrid 2 2 (0, 0) (1, 1)) 1 0
      (by decide) (by decide)).1 0 0 (by decide)
  · exact (C10_toggleWall_frame (initializeGrid 2 2 (0, 0) (1, 1)) 1 0
      (by decide) (by decide)).2.2.2.2.1 (by decide)

/-- `getNeighbors(node, grid)`: the up/down/left/right cells inside the
bounds, with already-visited cells filtered out.  Walls are not filtered
here. -/
def getNeighborsPos (g : Grid) (r c : Nat) : List (Nat × Nat) :=
  (((if r > 0 then [(r - 1, c)] else []) ++
    (if r < g.length - 1 then [(r + 1, c)] else []) ++
    (if c > 0 then [(r, c - 1)] else []) ++
    (if c < (g.getD 0 []).length - 1 then [(r, c + 1)] else [])).filter
      fun p => ¬(cellAt g p.1 p.2).isVisited)

/-- `getAllNodes(grid)`: all cells in row-major order (as positions; the
cells of a well-formed grid carry their own indices). -/
def getAllNodesPos (g : Grid) : List (Nat × Nat) :=
  ((List.range g.length).map fun r =>
    (List.range (g.getD r []).length).map fun c => (r, c)).flatten

/-- `updateUnvisitedNeighbors(node, grid)`: every unvisited neighbour gets
distance `node.distance + 1` and `previousNode` pointing at `node`
(unconditionally — there is no minimum check in the source). -/
def updateUnvisitedNeighbors (g : Grid) (r c : Nat) : Grid :=
  (getNeighborsPos g r c).foldl
    (fun g2 p =>
      setCell g2 p.1 p.2
        { cellAt g2 p.1 p.2 with
          distance := match (cellAt g2 r c).distance with
                      | none => none
                      | some d => some (d + 1),
          previousNode := some (r, c) })
    g

/-- Comparator of `sortNodesByDistance` (`nodeA.distance - nodeB.distance`,
with `Infinity - Infinity` treated as `0` as the JS sort does): `none`
means `Infinity`. -/
def distLEb (g : Grid) (p q : Nat × Nat) : Bool :=
  match (cellAt g p.1 p.2).distance, (cellAt g q.1 q.2).distance with
  | _, none => true
  | none, some _ => false
  | some a, some b => decide (a ≤ b)

/-- `sortNodesByDistance`: the ECMAScript sort is stable; a stable sort by
a total preorder is unique, and insertion sort with `≤` realises it. -/
def sortNodesByDistance (g : Grid) (queue : List (Nat × Nat)) :
    List (Nat × Nat) :=
  List.insertionSort (fun p q => distLEb g p q = true) queue

/-- The `while (unvisitedNodes.length)` loop of `dijkstra`: sort by
distance, shift the closest node, skip walls, stop when the minimum
distance is infinite, mark visited, stop at the end node, otherwise relax
the neighbours.  `fuel` is the queue length: every iteration pops one
element, so it is never exhausted. -/
def dijkstraLoop : Nat → Grid → Nat × Nat → List (Nat × Nat) →
    List (Nat × Nat) → Grid × List (Nat × Nat)
  | 0, g, _, _, vis => (g, vis)
  | fuel + 1, g, endP, queue, vis =>
    match sortNodesByDistance g queue with
    | [] => (g, vis)
    | closest :: rest =>
      if (cellAt g closest.1 closest.2).type = CellType.wall then
        dijkstraLoop fuel g endP rest vis
      else if (cellAt g closest.1 closest.2).distance = none then (g, vis)
      else
        let g1 := setCell g closest.1 closest.2
          { cellAt g closest.1 closest.2 with isVisited := true }
        if closest = endP then (g1, vis ++ [closest])
        else
          dijkstraLoop fuel (updateUnvisitedNeighbors g1 closest.1 closest.2)
            endP rest (vis ++ [closest])

/-- `dijkstra(grid, startNode, endNode)`: set the start distance to `0`,
queue every cell, and run the loop.  Returns the mutated grid (the caller's
grid: the source mutates the shared cell objects in place) and
`visitedNodesInOrder`. -/
def dijkstra (g : Grid) (startP endP : Nat × Nat) : Grid × List (Nat × Nat) :=
  let g0 := setCell g startP.1 startP.2
    { cellAt g startP.1 startP.2 with distance := some 0 }
  let queue := getAllNodesPos g0
  dijkstraLoop queue.length g0 endP queue []

/-- `getNodesInShortestPathOrder(finishNode)`: walk the `previousNode`
pointers back from the end, building the path front-to-back.  The source
loop would not terminate on a pointer cycle; the fuel (one more than the
cell count, set by the wrapper below) covers every acyclic walk. -/
def shortestPathOrder : Nat → Grid → Nat × Nat → List (Nat × Nat)
  | 0, _, _ => []
  | fuel + 1, g, p =>
    match (cellAt g p.1 p.2).previousNode with
    | none => [p]
    | some q => shortestPathOrder fuel g q ++ [p]

def getNodesInShortestPathOrder (g : Grid) (p : Nat × Nat) :
    List (Nat × Nat) :=
  shortestPathOrder ((getAllNodesPos g).length + 1) g p

/-- The `setGrid` updates of `animateShortestPath`: every path node's cell
becomes type `path` unless it is the start or the end cell. -/
def animateShortestPathApply (g : Grid) (ps : List (Nat × Nat)) : Grid :=
  ps.foldl
    (fun g2 p =>
      setCell g2 p.1 p.2
        { cellAt g2 p.1 p.2 with
          type := if (cellAt g2 p.1 p.2).type = CellType.start ∨
                     (cellAt g2 p.1 p.2).type = CellType.finish
                  then (cellAt g2 p.1 p.2).type else CellType.path })
    g

example :
    (dijkstra (initializeGrid 1 3 (0, 0) (0, 2)) (0, 0) (0, 2)).2 =
      [(0, 0), (0, 1), (0, 2)] := by decide

example :
    getNodesInShortestPathOrder
      (dijkstra (initializeGrid 1 3 (0, 0) (0, 2)) (0, 0) (0, 2)).1 (0, 2) =
      [(0, 0), (0, 1), (0, 2)] := by decide

example :
    (dijkstra (toggleWall (initializeGrid 1 3 (0, 0) (0, 2)) 0 1)
      (0, 0) (0, 2)).2 = [(0, 0)] := by decide

example :
    getNodesInShortestPathOrder
      (dijkstra (toggleWall (initializeGrid 1 3 (0, 0) (0, 2)) 0 1)
        (0, 0) (0, 2)).1 (0, 2) = [(0, 2)] := by decide

/-- Manhattan distance heuristic of A*. -/
def heuristic (p q : Nat × Nat) : Nat :=
  ((p.1 : Int) - (q.1 : Int)).natAbs + ((p.2 : Int) - (q.2 : Int)).natAbs

/-- Comparator of `sortNodesByF` (`(a.f || 0) - (b.f || 0)`; `f` is a plain
number and `0 || 0 = 0`, so this is just the `f` field). -/
def fLEb (g : Grid) (p q : Nat × Nat) : Bool :=
  decide ((cellAt g p.1 p.2).f ≤ (cellAt g q.1 q.2).f)

def sortNodesByF (g : Grid) (openSet : List (Nat × Nat)) :
    List (Nat × Nat) :=
  List.insertionSort (fun p q => fLEb g p q = true) openSet

/-- The neighbour relaxation of the A* main loop.  `tentativeG` is
`(current.g || 0) + 1`; the comparison `tentativeG < (neighbor.g ||
Infinity)` reads a zero `g` as infinity (only never-relaxed cells carry
`g = 0`; the start node is visited first). -/
def relaxNeighbors (g : Grid) (endP current : Nat × Nat)
    (openSet : List (Nat × Nat)) : Grid × List (Nat × Nat) :=
  (getNeighborsPos g current.1 current.2).foldl
    (fun st p =>
      let cell := cellAt st.1 p.1 p.2
      if cell.isVisited = true ∨ cell.type = CellType.wall then st
      else
        let tentativeG := (cellAt st.1 current.1 current.2).g + 1
        if cell.g = 0 ∨ tentativeG < cell.g then
          let hVal := heuristic p endP
          let g2 := setCell st.1 p.1 p.2
            { cell with previousNode := some current, g := tentativeG,
                        h := hVal, f := tentativeG + hVal }
          let os2 := if st.2.any fun q => q = p then st.2 else st.2 ++ [p]
          (g2, os2)
        else st)
    (g, openSet)

/-- The `while (openSet.length > 0)` loop of `aStar`: sort by `f`, shift
the lowest, skip walls, mark visited, stop at the end node, relax the
neighbours.  Every iteration either removes an element or visits a fresh
cell while pushing at most four, so `5 * cells + 1` fuel is never
exhausted. -/
def aStarLoop : Nat → Grid → Nat × Nat → List (Nat × Nat) →
    List (Nat × Nat) → Grid × List (Nat × Nat)
  | 0, g, _, _, vis => (g, vis)
  | fuel + 1, g, endP, openSet, vis =>
    match sortNodesByF g openSet with
    | [] => (g, vis)
    | current :: rest =>
      if (cellAt g current.1 current.2).type = CellType.wall then
        aStarLoop fuel g endP rest vis
      else
        let g1 := setCell g current.1 current.2
          { cellAt g current.1 current.2 with isVisited := true }
        if current = endP then (g1, vis ++ [current])
        else
          let st := relaxNeighbors g1 endP current rest
          aStarLoop fuel st.1 endP st.2 (vis ++ [current])

/-- `aStar(grid, startNode, endNode)`: initialise the start node's `g`,
`h`, `f`, seed the open set with it and run the loop. -/
def aStar (g : Grid) (startP endP : Nat × Nat) : Grid × List (Nat × Nat) :=
  let h0 := heuristic startP endP
  let g0 := setCell g startP.1 startP.2
    { cellAt g startP.1 startP.2 with g := 0, h := h0, f := h0 }
  aStarLoop (5 * (getAllNodesPos g0).length + 1) g0 endP [startP] []

example :
    (aStar (initializeGrid 1 3 (0, 0) (0, 2)) (0, 0) (0, 2)).2 =
      [(0, 0), (0, 1), (0, 2)] := by decide

example :
    getNodesInShortestPathOrder
      (aStar (initializeGrid 1 3 (0, 0) (0, 2)) (0, 0) (0, 2)).1 (0, 2) =
      [(0, 0), (0, 1), (0, 2)] := by decide

example :
    (aStar (toggleWall (initializeGrid 1 3 (0, 0) (0, 2)) 0 1)
      (0, 0) (0, 2)).2 = [(0, 0)] := by decide

example :
    (aStar (initializeGrid 2 2 (0, 0) (1, 1)) (0, 0) (1, 1)).2.length = 4 := by
  decide

example :
    (getNodesInShortestPathOrder
      (aStar (initializeGrid 2 2 (0, 0) (1, 1)) (0, 0) (1, 1)).1
        (1, 1)).length = 3 ∧
    (getNodesInShortestPathOrder
      (dijkstra (initializeGrid 2 2 (0, 0) (1, 1)) (0, 0) (1, 1)).1
        (1, 1)).length = 3 := by decide

/-- `SkeletonEq g g2`: every cell of `g2` agrees with the corresponding
cell of `g` on the `row`, `col` and `type` fields (the search only touches
the bookkeeping fields `distance`, `isVisited`, `previousNode`, `f`, `g`,
`h`). -/
def SkeletonEq (g g2 : Grid) : Prop :=
  ∀ r c, (cellAt g2 r c).type = (cellAt g r c).type ∧
    (cellAt g2 r c).row = (cellAt g r c).row ∧
    (cellAt g2 r c).col = (cellAt g r c).col

theorem skeletonEq_refl (g : Grid) : SkeletonEq g g :=
  fun _ _ => ⟨rfl, rfl, rfl⟩

theorem skeletonEq_trans {g1 g2 g3 : Grid} (h1 : SkeletonEq g1 g2)
    (h2 : SkeletonEq g2 g3) : SkeletonEq g1 g3 := by
  intro r c
  obtain ⟨a1, a2, a3⟩ := h1 r c
  obtain ⟨b1, b2, b3⟩ := h2 r c
  exact ⟨b1.trans a1, b2.trans a2, b3.trans a3⟩

theorem set_getD_self2 {α : Type} (l : List α) (d : α) (i : Nat) :
    l.set i (l.getD i d) = l := by
  apply List.ext_getElem?
  intro n
  by_cases hn : i = n
  · subst hn
    by_cases hi : i < l.length
    · rw [List.getElem?_set_self hi, List.getD_eq_getElem _ _ hi,
        List.getElem?_eq_getElem hi]
    · rw [List.set_eq_of_length_le (Nat.le_of_not_lt hi)]
  · rw [List.getElem?_set_ne hn]

/-- A `setCell` either leaves every cell unchanged (out of bounds) or
changes exactly the addressed cell to the written value. -/
theorem cellAt_setCell_cases (g : Grid) (r c : Nat) (x : Cell) (r2 c2 : Nat) :
    cellAt (setCell g r c x) r2 c2 = cellAt g r2 c2 ∨
    (r2 = r ∧ c2 = c ∧ cellAt (setCell g r c x) r2 c2 = x) := by
  by_cases hne : r2 = r ∧ c2 = c
  · obtain ⟨h1, h2⟩ := hne
    subst h1; subst h2
    by_cases hr : r2 < (g : List (List Cell)).length
    · by_cases hc : c2 < ((g : List (List Cell)).getD r2 []).length
      · exact Or.inr ⟨rfl, rfl, cellAt_setCell_self g r2 c2 x hr hc⟩
      · left
        show (((g : List (List Cell)).set r2 _).getD r2 []).getD c2 _ = _
        rw [getD_set_self2 _ _ _ hr,
          List.set_eq_of_length_le (Nat.le_of_not_lt hc)]
        rfl
    · left
      show (((g : List (List Cell)).set r2 _).getD r2 []).getD c2 _ = _
      rw [List.set_eq_of_length_le (Nat.le_of_not_lt hr)]
      rfl
  · exact Or.inl (cellAt_setCell_ne g r c x r2 c2 hne)

/-- Writing a cell that keeps the skeleton of the cell it replaces keeps
the grid skeleton. -/
theorem skeletonEq_setCell (g : Grid) (r c : Nat) (x : Cell)
    (hx : x.type = (cellAt g r c).type ∧ x.row = (cellAt g r c).row ∧
      x.col = (cellAt g r c).col) :
    SkeletonEq g (setCell g r c x) := by
  intro r2 c2
  rcases cellAt_setCell_cases g r c x r2 c2 with h | ⟨h1, h2, h3⟩
  · rw [h]
    exact ⟨rfl, rfl, rfl⟩
  · subst h1; subst h2
    rw [h3]
    exact hx

theorem skeletonEq_foldl (f : Grid → Nat × Nat → Grid)
    (hf : ∀ g2 p, SkeletonEq g2 (f g2 p)) :
    ∀ (ps : List (Nat × Nat)) (g : Grid), SkeletonEq g (ps.foldl f g) := by
  intro ps
  induction ps with
  | nil => intro g; exact skeletonEq_refl g
  | cons p ps ih =>
    intro g
    exact skeletonEq_trans (hf g p) (ih (f g p))

theorem skeletonEq_foldl_pair {β : Type}
    (f : Grid × β → Nat × Nat → Grid × β)
    (hf : ∀ st p, SkeletonEq st.1 (f st p).1) :
    ∀ (ps : List (Nat × Nat)) (st : Grid × β),
      SkeletonEq st.1 (ps.foldl f st).1 := by
  intro ps
  induction ps with
  | nil => intro st; exact skeletonEq_refl st.1
  | cons p ps ih =>
    intro st
    exact skeletonEq_trans (hf st p) (ih (f st p))

theorem skeletonEq_update (g : Grid) (r c : Nat) :
    SkeletonEq g (updateUnvisitedNeighbors g r c) := by
  apply skeletonEq_foldl
  intro g2 p
  apply skeletonEq_setCell
  exact ⟨rfl, rfl, rfl⟩

theorem skeletonEq_relax (g : Grid) (endP current : Nat × Nat)
    (openSet : List (Nat × Nat)) :
    SkeletonEq g (relaxNeighbors g endP current openSet).1 := by
  apply skeletonEq_foldl_pair
  intro st p
  dsimp only
  split
  · exact skeletonEq_refl st.1
  · split
    · exact skeletonEq_setCell st.1 p.1 p.2 _ ⟨rfl, rfl, rfl⟩
    · exact skeletonEq_refl st.1

theorem skeletonEq_dijkstraLoop (fuel : Nat) : ∀ (g : Grid)
    (endP : Nat × Nat) (queue vis : List (Nat × Nat)),
    SkeletonEq g (dijkstraLoop fuel g endP queue vis).1 := by
  induction fuel with
  | zero => intro g endP queue vis; exact skeletonEq_refl g
  | succ fuel ih =>
    intro g endP queue vis
    rw [dijkstraLoop]
    cases hs : sortNodesByDistance g queue with
    | nil => exact skeletonEq_refl g
    | cons closest rest =>
      dsimp only
      split
      · exact ih g endP rest vis
      · split
        · exact skeletonEq_refl g
        · split
          · exact skeletonEq_setCell g closest.1 closest.2 _ ⟨rfl, rfl, rfl⟩
          · exact skeletonEq_trans
              (skeletonEq_setCell g closest.1 closest.2
                { cellAt g closest.1 closest.2 with isVisited := true }
                ⟨rfl, rfl, rfl⟩)
              (skeletonEq_trans (skeletonEq_update _ closest.1 closest.2)
                (ih _ endP rest _))

theorem skeletonEq_aStarLoop (fuel : Nat) : ∀ (g : Grid)
    (endP : Nat × Nat) (openSet vis : List (Nat × Nat)),
    SkeletonEq g (aStarLoop fuel g endP openSet vis).1 := by
  induction fuel with
  | zero => intro g endP openSet vis; exact skeletonEq_refl g
  | succ fuel ih =>
    intro g endP openSet vis
    rw [aStarLoop]
    cases hs : sortNodesByF g openSet with
    | nil => exact skeletonEq_refl g
    | cons current rest =>
      dsimp only
      split
      · exact ih g endP rest vis
      · split
        · exact skeletonEq_setCell g current.1 current.2 _ ⟨rfl, rfl, rfl⟩
        · exact skeletonEq_trans
            (skeletonEq_setCell g current.1 current.2
              { cellAt g current.1 current.2 with isVisited := true }
              ⟨rfl, rfl, rfl⟩)
            (skeletonEq_trans (skeletonEq_relax _ endP current rest)
              (ih _ endP _ _))

theorem skeletonEq_dijkstra (g : Grid) (s e : Nat × Nat) :
    SkeletonEq g (dijkstra g s e).1 := by
  show SkeletonEq g (dijkstraLoop
    (getAllNodesPos (setCell g s.1 s.2
      { cellAt g s.1 s.2 with distance := some 0 })).length
    (setCell g s.1 s.2 { cellAt g s.1 s.2 with distance := some 0 }) e
    (getAllNodesPos (setCell g s.1 s.2
      { cellAt g s.1 s.2 with distance := some 0 })) []).1
  exact skeletonEq_trans (skeletonEq_setCell g s.1 s.2
      { cellAt g s.1 s.2 with distance := some 0 } ⟨rfl, rfl, rfl⟩)
    (skeletonEq_dijkstraLoop _ _ e _ [])

theorem skeletonEq_aStar (g : Grid) (s e : Nat × Nat) :
    SkeletonEq g (aStar g s e).1 := by
  show SkeletonEq g (aStarLoop
    (5 * (getAllNodesPos (setCell g s.1 s.2
      { cellAt g s.1 s.2 with g := 0, h := heuristic s e,
                              f := heuristic s e })).length + 1)
    (setCell g s.1 s.2
      { cellAt g s.1 s.2 with g := 0, h := heuristic s e,
                              f := heuristic s e }) e [s] []).1
  exact skeletonEq_trans (skeletonEq_setCell g s.1 s.2
      { cellAt g s.1 s.2 with g := 0, h := heuristic s e,
                              f := heuristic s e } ⟨rfl, rfl, rfl⟩)
    (skeletonEq_aStarLoop _ _ e _ [])

/-- C9 (counterexample): the `dijkstra` and `aStar` recorders do not
operate on a private copy — `visualizeAlgorithm` passes the grid state
straight in, and the recorders mutate its cells in place.  On a fresh 1×2
grid the run changes the caller's grid: the start cell comes back with
`isVisited = true` and `distance = 0`. -/
theorem C9_pathfinding_mutates_counterexample :
    (dijkstra (initializeGrid 1 2 (0, 0) (0, 1)) (0, 0) (0, 1)).1 ≠
      initializeGrid 1 2 (0, 0) (0, 1) ∧
    (aStar (initializeGrid 1 2 (0, 0) (0, 1)) (0, 0) (0, 1)).1 ≠
      initializeGrid 1 2 (0, 0) (0, 1) ∧
    (cellAt (dijkstra (initializeGrid 1 2 (0, 0) (0, 1)) (0, 0) (0, 1)).1
      0 0).isVisited = true ∧
    (cellAt (initializeGrid 1 2 (0, 0) (0, 1)) 0 0).isVisited = false := by
  decide

/-- C9 (amended): the recorders are deterministic functions of the grid
and the start/end references, but `dijkstra` and `aStar` mutate the
caller's grid cells in place.  The mutation is confined to the search
bookkeeping fields: every cell's `row`, `col` and `type` (walls, start,
end) are preserved. -/
theorem C9_pathfinding_mutates_only_search_fields (g : Grid)
    (s e : Nat × Nat) :
    SkeletonEq g (dijkstra g s e).1 ∧ SkeletonEq g (aStar g s e).1 :=
  ⟨skeletonEq_dijkstra g s e, skeletonEq_aStar g s e⟩

theorem setCell_length (g : Grid) (r c : Nat) (x : Cell) :
    (setCell g r c x : List (List Cell)).length =
      (g : List (List Cell)).length := by
  simp [setCell]

theorem setCell_row_length (g : Grid) (r c : Nat) (x : Cell) (r2 : Nat) :
    ((setCell g r c x : List (List Cell)).getD r2 []).length =
      ((g : List (List Cell)).getD r2 []).length := by
  by_cases hr : r2 = r
  · subst hr
    by_cases hl : r2 < (g : List (List Cell)).length
    · show (((g : List (List Cell)).set r2 _).getD r2 []).length = _
      rw [getD_set_self2 _ _ _ hl]
      simp
    · show (((g : List (List Cell)).set r2 _).getD r2 []).length = _
      rw [List.set_eq_of_length_le (Nat.le_of_not_lt hl)]
  · show (((g : List (List Cell)).set r _).getD r2 []).length = _
    rw [getD_set_ne2 _ _ _ (fun he => hr he.symm)]

theorem setCell_cellAt_self (g : Grid) (r c : Nat) :
    setCell g r c (cellAt g r c) = g := by
  show (g : List (List Cell)).set r
    (((g : List (List Cell)).getD r []).set c
      (((g : List (List Cell)).getD r []).getD c defaultCell)) = g
  rw [set_getD_self2, set_getD_self2]

theorem mem_getAllNodesPos (g : Grid) (p : Nat × Nat) :
    p ∈ getAllNodesPos g ↔
      p.1 < (g : List (List Cell)).length ∧
      p.2 < ((g : List (List Cell)).getD p.1 []).length := by
  cases p with
  | mk r c =>
    simp only [getAllNodesPos, List.mem_flatten, List.mem_map, List.mem_range]
    constructor
    · rintro ⟨l, ⟨r2, hr2, rfl⟩, hml⟩
      simp only [List.mem_map, List.mem_range] at hml
      obtain ⟨c2, hc2, he⟩ := hml
      injection he with he1 he2
      subst he1
      subst he2
      exact ⟨hr2, hc2⟩
    · rintro ⟨h1, h2⟩
      refine ⟨(List.range ((g : List (List Cell)).getD r []).length).map
        (fun c2 => (r, c2)), ⟨r, h1, rfl⟩, ?_⟩
      simp only [List.mem_map, List.mem_range]
      exact ⟨c, h2, rfl⟩

theorem distLEb_total (g : Grid) : ∀ p q,
    distLEb g p q = true ∨ distLEb g q p = true := by
  intro p q
  unfold distLEb
  rcases (cellAt g p.1 p.2).distance with _ | a <;>
    rcases (cellAt g q.1 q.2).distance with _ | b <;> simp
  omega

theorem distLEb_trans (g : Grid) : ∀ p q r,
    distLEb g p q = true → distLEb g q r = true → distLEb g p r = true := by
  intro p q r
  unfold distLEb
  rcases (cellAt g p.1 p.2).distance with _ | a <;>
    rcases (cellAt g q.1 q.2).distance with _ | b <;>
    rcases (cellAt g r.1 r.2).distance with _ | c <;> simp
  omega

/-- The none-distance (`Infinity`) case: if a minimal element of the
distance order has infinite distance, so does anything above it. -/
theorem distLEb_none (g : Grid) (p q : Nat × Nat)
    (hp : (cellAt g p.1 p.2).distance = none)
    (h : distLEb g p q = true) : (cellAt g q.1 q.2).distance = none := by
  unfold distLEb at h
  rw [hp] at h
  rcases hq : (cellAt g q.1 q.2).distance with _ | b
  · rfl
  · rw [hq] at h
    simp at h

theorem sortNodesByDistance_perm (g : Grid) (queue : List (Nat × Nat)) :
    (sortNodesByDistance g queue).Perm queue :=
  List.perm_insertionSort _ queue

theorem sortNodesByDistance_sorted (g : Grid) (queue : List (Nat × Nat)) :
    (sortNodesByDistance g queue).Sorted (fun p q => distLEb g p q = true) := by
  letI : IsTotal (Nat × Nat) (fun p q => distLEb g p q = true) :=
    ⟨distLEb_total g⟩
  letI : IsTrans (Nat × Nat) (fun p q => distLEb g p q = true) :=
    ⟨distLEb_trans g⟩
  exact List.sorted_insertionSort _ queue

theorem getNeighborsPos_ne_center (g : Grid) (r c : Nat) :
    ∀ p ∈ getNeighborsPos g r c, p ≠ (r, c) := by
  intro p hp
  unfold getNeighborsPos at hp
  rw [List.mem_filter] at hp
  have hp1 := hp.1
  simp only [List.mem_append] at hp1
  rcases hp1 with ((h | h) | h) | h <;>
    · split at h <;> simp_all <;> omega

def updateStep (r0 c0 : Nat) (g2 : Grid) (p : Nat × Nat) : Grid :=
  setCell g2 p.1 p.2
    { cellAt g2 p.1 p.2 with
      distance := match (cellAt g2 r0 c0).distance with
                  | none => none
                  | some d => some (d + 1),
      previousNode := some (r0, c0) }

theorem updateUnvisitedNeighbors_eq_fold (g : Grid) (r c : Nat) :
    updateUnvisitedNeighbors g r c =
      (getNeighborsPos g r c).foldl (updateStep r c) g := rfl

theorem cellAt_updateStep_center (r0 c0 : Nat) (g : Grid) (p : Nat × Nat)
    (hp : p ≠ (r0, c0)) :
    cellAt (updateStep r0 c0 g p) r0 c0 = cellAt g r0 c0 := by
  apply cellAt_setCell_ne
  intro hcc
  apply hp
  cases p
  simp only [Prod.mk.injEq] at hcc ⊢
  exact ⟨hcc.1.symm, hcc.2.symm⟩

/-- One `updateUnvisitedNeighbors` write: either the cell is untouched, or
it now points back at the centre, its distance is the centre distance plus
one, and its `type` and `isVisited` fields are unchanged. -/
theorem cellAt_updateStep_cases (r0 c0 d : Nat) (g : Grid) (p : Nat × Nat)
    (hd : (cellAt g r0 c0).distance = some d) (r c : Nat) :
    cellAt (updateStep r0 c0 g p) r c = cellAt g r c ∨
      ((cellAt (updateStep r0 c0 g p) r c).previousNode = some (r0, c0) ∧
        (cellAt (updateStep r0 c0 g p) r c).distance = some (d + 1) ∧
        (cellAt (updateStep r0 c0 g p) r c).type = (cellAt g r c).type ∧
        (cellAt (updateStep r0 c0 g p) r c).isVisited =
          (cellAt g r c).isVisited) := by
  have hXeq : updateStep r0 c0 g p = setCell g p.1 p.2
      { cellAt g p.1 p.2 with
        distance := match (cellAt g r0 c0).distance with
                    | none => none
                    | some dd => some (dd + 1),
        previousNode := some (r0, c0) } := rfl
  rw [hXeq]
  rcases cellAt_setCell_cases g p.1 p.2
      { cellAt g p.1 p.2 with
        distance := match (cellAt g r0 c0).distance with
                    | none => none
                    | some dd => some (dd + 1),
        previousNode := some (r0, c0) } r c with h | ⟨hr, hc, h⟩
  · exact Or.inl h
  · right
    subst hr
    subst hc
    rw [h]
    refine ⟨rfl, ?_, rfl, rfl⟩
    show (match (cellAt g r0 c0).distance with
          | none => none
          | some dd => some (dd + 1)) = some (d + 1)
    rw [hd]

/-- Every cell after `updateUnvisitedNeighbors` (relative to a centre of
finite distance `d`) is either unchanged or has been overwritten with
`previousNode = some centre` and distance `d + 1`, with its `type` and
`isVisited` fields unchanged. -/
theorem updateFold_cellAt_cases (r0 c0 d : Nat) (ps : List (Nat × Nat))
    (g : Grid) (hne : ∀ p ∈ ps, p ≠ (r0, c0))
    (hd : (cellAt g r0 c0).distance = some d) (r c : Nat) :
    cellAt (ps.foldl (updateStep r0 c0) g) r c = cellAt g r c ∨
      ((cellAt (ps.foldl (updateStep r0 c0) g) r c).previousNode =
          some (r0, c0) ∧
        (cellAt (ps.foldl (updateStep r0 c0) g) r c).distance =
          some (d + 1) ∧
        (cellAt (ps.foldl (updateStep r0 c0) g) r c).type =
          (cellAt g r c).type ∧
        (cellAt (ps.foldl (updateStep r0 c0) g) r c).isVisited =
          (cellAt g r c).isVisited) := by
  induction ps generalizing g with
  | nil => exact Or.inl rfl
  | cons p ps ih =>
    rw [List.foldl_cons]
    have hpne : p ≠ (r0, c0) := hne p (List.mem_cons_self p ps)
    have hcenter := cellAt_updateStep_center r0 c0 g p hpne
    have hd2 : (cellAt (updateStep r0 c0 g p) r0 c0).distance = some d := by
      rw [hcenter, hd]
    have hone := cellAt_updateStep_cases r0 c0 d g p hd r c
    have hstep := ih (updateStep r0 c0 g p)
      (fun q hq => hne q (List.mem_cons_of_mem p hq)) hd2
    rcases hstep with h | ⟨h1, h2, h3, h4⟩
    · rcases hone with h5 | ⟨h5, h6, h7, h8⟩
      · exact Or.inl (h.trans h5)
      · right
        rw [h]
        exact ⟨h5, h6, h7, h8⟩
    · right
      rcases hone with h5 | ⟨h5, h6, h7, h8⟩
      · rw [h5] at h3 h4
        exact ⟨h1, h2, h3, h4⟩
      · rw [h7] at h3
        rw [h8] at h4
        exact ⟨h1, h2, h3, h4⟩

/-- `updateUnvisitedNeighbors` version of the write cases. -/
theorem update_cellAt_cases (g : Grid) (r0 c0 d : Nat)
    (hd : (cellAt g r0 c0).distance = some d) (r c : Nat) :
    cellAt (updateUnvisitedNeighbors g r0 c0) r c = cellAt g r c ∨
      ((cellAt (updateUnvisitedNeighbors g r0 c0) r c).previousNode =
          some (r0, c0) ∧
        (cellAt (updateUnvisitedNeighbors g r0 c0) r c).distance =
          some (d + 1) ∧
        (cellAt (updateUnvisitedNeighbors g r0 c0) r c).type =
          (cellAt g r c).type ∧
        (cellAt (updateUnvisitedNeighbors g r0 c0) r c).isVisited =
          (cellAt g r c).isVisited) := by
  rw [updateUnvisitedNeighbors_eq_fold]
  exact updateFold_cellAt_cases r0 c0 d (getNeighborsPos g r0 c0) g
    (getNeighborsPos_ne_center g r0 c0) hd r c


/-- C1: For every input array, each of the four sorting recorders
(`bubbleSort`, `mergeSort`, `quickSort`, `insertionSort`) produces an
animation event sequence such that replaying all swap and overwrite events
in order onto a copy of the input (applying swap as exchanging the two
indexed slots and overwrite as writing the given value at the index, as the
`animateSort` apply function does) yields an array whose values are in
non-decreasing order. -/
theorem C1_sorting_replay_sorted (a : List Nat) :
    (replay a (bubbleSort a).2).Sorted (· ≤ ·) ∧
    (replay a (mergeSort a).2).Sorted (· ≤ ·) ∧
    (replay a (quickSort a).2).Sorted (· ≤ ·) ∧
    (replay a (insertionSort a).2).Sorted (· ≤ ·) :=
  ⟨(bubbleSort_replay_spec a).1, (mergeSort_replay_spec a).1,
   (quickSort_replay_spec a).1, (insertionSort_replay_spec a).1⟩

/-- C7: For every input array and each of the four sorting recorders, the
multiset of element values after replaying the full event sequence onto a
copy of the input equals the multiset of values of the input: no value is
created or lost by the replay. -/
theorem C7_sorting_replay_multiset (a : List Nat) :
    (↑(replay a (bubbleSort a).2) : Multiset Nat) = ↑a ∧
    (↑(replay a (mergeSort a).2) : Multiset Nat) = ↑a ∧
    (↑(replay a (quickSort a).2) : Multiset Nat) = ↑a ∧
    (↑(replay a (insertionSort a).2) : Multiset Nat) = ↑a :=
  ⟨Multiset.coe_eq_coe.mpr (bubbleSort_replay_spec a).2,
   Multiset.coe_eq_coe.mpr (mergeSort_replay_spec a).2,
   Multiset.coe_eq_coe.mpr (quickSort_replay_spec a).2,
   Multiset.coe_eq_coe.mpr (insertionSort_replay_spec a).2⟩

theorem cellAt_oob (g : Grid) (r c : Nat)
    (h : ¬(r < (g : List (List Cell)).length ∧
      c < ((g : List (List Cell)).getD r []).length)) :
    cellAt g r c = defaultCell := by
  by_cases h1 : r < (g : List (List Cell)).length
  · have h2 : ((g : List (List Cell)).getD r []).length ≤ c := by
      rcases Nat.lt_or_ge c ((g : List (List Cell)).getD r []).length with
        hlt | hge
      · exact absurd ⟨h1, hlt⟩ h
      · exact hge
    show ((g : List (List Cell)).getD r []).getD c defaultCell = defaultCell
    exact List.getD_eq_default _ _ h2
  · show ((g : List (List Cell)).getD r []).getD c defaultCell = defaultCell
    rw [List.getD_eq_default _ _ (Nat.le_of_not_lt h1)]
    rfl

/-- The visit-and-relax step of the `dijkstra` loop body: mark the closest
node visited, then update its unvisited neighbours. -/
def dijkstraVisit (g : Grid) (closest : Nat × Nat) : Grid :=
  updateUnvisitedNeighbors
    (setCell g closest.1 closest.2
      { cellAt g closest.1 closest.2 with isVisited := true })
    closest.1 closest.2

theorem dijkstraVisit_inv (g : Grid) (closest : Nat × Nat) (dd : Nat)
    (hdd : (cellAt g closest.1 closest.2).distance = some dd)
    (hinv : ∀ r c, (cellAt g r c).previousNode ≠ none →
      (cellAt g r c).distance ≠ none) :
    ∀ r c, (cellAt (dijkstraVisit g closest) r c).previousNode ≠ none →
      (cellAt (dijkstraVisit g closest) r c).distance ≠ none := by
  intro r c
  unfold dijkstraVisit
  have hd1 : (cellAt (setCell g closest.1 closest.2
      { cellAt g closest.1 closest.2 with isVisited := true })
      closest.1 closest.2).distance = some dd := by
    rcases cellAt_setCell_cases g closest.1 closest.2
        { cellAt g closest.1 closest.2 with isVisited := true }
        closest.1 closest.2 with h | ⟨_, _, h⟩
    · rw [h]; exact hdd
    · rw [h]; exact hdd
  intro hp
  rcases update_cellAt_cases _ closest.1 closest.2 dd hd1 r c with
    h | ⟨h1, h2, _, _⟩
  · rw [h] at hp ⊢
    rcases cellAt_setCell_cases g closest.1 closest.2
        { cellAt g closest.1 closest.2 with isVisited := true } r c with
      h2 | ⟨_, _, h2⟩
    · rw [h2] at hp ⊢
      exact hinv r c hp
    · rw [h2] at hp ⊢
      exact hinv closest.1 closest.2 hp
  · rw [h2]
    simp

theorem dijkstraVisit_type (g : Grid) (closest : Nat × Nat) (dd : Nat)
    (hdd : (cellAt g closest.1 closest.2).distance = some dd) (r c : Nat) :
    (cellAt (dijkstraVisit g closest) r c).type = (cellAt g r c).type := by
  unfold dijkstraVisit
  have hd1 : (cellAt (setCell g closest.1 closest.2
      { cellAt g closest.1 closest.2 with isVisited := true })
      closest.1 closest.2).distance = some dd := by
    rcases cellAt_setCell_cases g closest.1 closest.2
        { cellAt g closest.1 closest.2 with isVisited := true }
        closest.1 closest.2 with h | ⟨_, _, h⟩
    · rw [h]; exact hdd
    · rw [h]; exact hdd
  have htype1 : (cellAt (setCell g closest.1 closest.2
      { cellAt g closest.1 closest.2 with isVisited := true }) r c).type =
      (cellAt g r c).type := by
    rcases cellAt_setCell_cases g closest.1 closest.2
        { cellAt g closest.1 closest.2 with isVisited := true } r c with
      h | ⟨hr, hc, h⟩
    · rw [h]
    · subst hr
      subst hc
      rw [h]
  rcases update_cellAt_cases _ closest.1 closest.2 dd hd1 r c with
    h | ⟨_, _, h3, _⟩
  · rw [h]
    exact htype1
  · rw [h3]
    exact htype1

/-- The unreachable case of the `dijkstra` while loop: if the end cell is
in the queue and is not a wall, every back-pointered cell already has a
finite distance, and the loop never appends the end cell to
`visitedNodesInOrder`, then the end cell's `previousNode` is still `none`
when the loop exits. -/
theorem dijkstraLoop_unreachable (fuel : Nat) : ∀ (g : Grid)
    (endP : Nat × Nat) (queue vis : List (Nat × Nat)),
    endP ∈ queue → queue.length ≤ fuel →
    (∀ r c, (cellAt g r c).previousNode ≠ none →
      (cellAt g r c).distance ≠ none) →
    (cellAt g endP.1 endP.2).type ≠ CellType.wall →
    endP ∉ (dijkstraLoop fuel g endP queue vis).2 →
    (cellAt (dijkstraLoop fuel g endP queue vis).1 endP.1
      endP.2).previousNode = none := by
  induction fuel with
  | zero =>
    intro g endP queue vis hmem hlen hinv hwall
    rw [List.length_eq_zero.mp (Nat.le_zero.mp hlen)] at hmem
    cases hmem
  | succ fuel ih =>
    intro g endP queue vis hmem hlen hinv hwall
    have hmem2 : endP ∈ sortNodesByDistance g queue :=
      (sortNodesByDistance_perm g queue).mem_iff.mpr hmem
    have hlen2 : (sortNodesByDistance g queue).length = queue.length :=
      (sortNodesByDistance_perm g queue).length_eq
    have hsorted := sortNodesByDistance_sorted g queue
    rw [dijkstraLoop]
    cases hs : sortNodesByDistance g queue with
    | nil =>
      rw [hs] at hmem2
      cases hmem2
    | cons closest rest =>
      rw [hs] at hmem2 hlen2 hsorted
      rw [List.length_cons] at hlen2
      dsimp only
      by_cases hw : (cellAt g closest.1 closest.2).type = CellType.wall
      · rw [if_pos hw]
        have hne : closest ≠ endP := fun he => hwall (he ▸ hw)
        have hmem3 : endP ∈ rest := by
          rcases List.mem_cons.mp hmem2 with he | hm
          · exact absurd he.symm hne
          · exact hm
        exact ih g endP rest vis hmem3 (by omega) hinv hwall
      · rw [if_neg hw]
        by_cases hdist : (cellAt g closest.1 closest.2).distance = none
        · rw [if_pos hdist]
          dsimp only
          intro hnv
          have hdE : (cellAt g endP.1 endP.2).distance = none := by
            rcases List.mem_cons.mp hmem2 with he | hm
            · rw [he]
              exact hdist
            · exact distLEb_none g closest endP hdist
                (List.rel_of_sorted_cons hsorted endP hm)
          by_contra hne
          exact (hinv endP.1 endP.2 hne) hdE
        · rw [if_neg hdist]
          by_cases hce : closest = endP
          · rw [if_pos hce]
            dsimp only
            intro hnv
            exfalso
            apply hnv
            rw [hce]
            simp
          · rw [if_neg hce]
            have hne : closest ≠ endP := hce
            have hmem3 : endP ∈ rest := by
              rcases List.mem_cons.mp hmem2 with he | hm
              · exact absurd he.symm hne
              · exact hm
            obtain ⟨dd, hdd⟩ : ∃ dd,
                (cellAt g closest.1 closest.2).distance = some dd := by
              rcases hx : (cellAt g closest.1 closest.2).distance with _ | dd
              · exact absurd hx hdist
              · exact ⟨dd, rfl⟩
            exact ih (dijkstraVisit g closest) endP rest (vis ++ [closest])
              hmem3 (by omega)
              (dijkstraVisit_inv g closest dd hdd hinv)
              (fun hw2 => hwall
                (((dijkstraVisit_type g closest dd hdd endP.1
                  endP.2).symm.trans hw2)))

/-- C5 counterexample: on a 1×3 grid with a wall in the middle the
frontier is exhausted before the end cell is reached, yet the derived
shortest-path node list is `[(0, 2)]` — the end cell itself — and not the
empty list. -/
theorem C5_empty_path_counterexample :
    (0, 2) ∉ (dijkstra (toggleWall (initializeGrid 1 3 (0, 0) (0, 2)) 0 1)
        (0, 0) (0, 2)).2 ∧
    getNodesInShortestPathOrder
      (dijkstra (toggleWall (initializeGrid 1 3 (0, 0) (0, 2)) 0 1)
        (0, 0) (0, 2)).1 (0, 2) ≠ [] := by decide

theorem C5_dijkstra_half (g : Grid) (s e : Nat × Nat)
    (hfresh2 : ∀ r c, (cellAt g r c).previousNode = none)
    (htype : (cellAt g e.1 e.2).type = CellType.finish)
    (hre : e.1 < (g : List (List Cell)).length)
    (hce2 : e.2 < ((g : List (List Cell)).getD e.1 []).length)
    (hnv : e ∉ (dijkstra g s e).2) :
    getNodesInShortestPathOrder (dijkstra g s e).1 e = [e] ∧
    animateShortestPathApply (dijkstra g s e).1
      (getNodesInShortestPathOrder (dijkstra g s e).1 e) =
      (dijkstra g s e).1 := by
  have hde : dijkstra g s e = dijkstraLoop
      (getAllNodesPos (setCell g s.1 s.2
        { cellAt g s.1 s.2 with distance := some 0 })).length
      (setCell g s.1 s.2 { cellAt g s.1 s.2 with distance := some 0 }) e
      (getAllNodesPos (setCell g s.1 s.2
        { cellAt g s.1 s.2 with distance := some 0 })) [] := rfl
  have hinv0 : ∀ r c, (cellAt (setCell g s.1 s.2
      { cellAt g s.1 s.2 with distance := some 0 }) r c).previousNode ≠
        none →
      (cellAt (setCell g s.1 s.2
        { cellAt g s.1 s.2 with distance := some 0 }) r c).distance ≠
        none := by
    intro r c hp
    exfalso
    rcases cellAt_setCell_cases g s.1 s.2
        { cellAt g s.1 s.2 with distance := some 0 } r c with h | ⟨_, _, h⟩
    · rw [h] at hp
      exact hp (hfresh2 r c)
    · rw [h] at hp
      exact hp (hfresh2 s.1 s.2)
  have htype0 : (cellAt (setCell g s.1 s.2
      { cellAt g s.1 s.2 with distance := some 0 }) e.1 e.2).type =
      CellType.finish := by
    rcases cellAt_setCell_cases g s.1 s.2
        { cellAt g s.1 s.2 with distance := some 0 } e.1 e.2 with
      h | ⟨h1, h2, h⟩
    · rw [h]
      exact htype
    · rw [h]
      show (cellAt g s.1 s.2).type = CellType.finish
      rw [← h1, ← h2]
      exact htype
  have hwall0 : ¬(cellAt (setCell g s.1 s.2
      { cellAt g s.1 s.2 with distance := some 0 }) e.1 e.2).type =
      CellType.wall := by
    rw [htype0]
    decide
  have hmem0 : e ∈ getAllNodesPos (setCell g s.1 s.2
      { cellAt g s.1 s.2 with distance := some 0 }) := by
    rw [mem_getAllNodesPos]
    constructor
    · rw [setCell_length]
      exact hre
    · rw [setCell_row_length]
      exact hce2
  rw [hde] at hnv
  have hprev := dijkstraLoop_unreachable _ _ e _ [] hmem0 (Nat.le_refl _)
    hinv0 hwall0 hnv
  have hprev2 : (cellAt (dijkstra g s e).1 e.1 e.2).previousNode = none := by
    rw [hde]
    exact hprev
  have htypeF : (cellAt (dijkstra g s e).1 e.1 e.2).type =
      CellType.finish := by
    have hsk := skeletonEq_dijkstra g s e
    rw [(hsk e.1 e.2).1]
    exact htype
  have hpath : getNodesInShortestPathOrder (dijkstra g s e).1 e = [e] := by
    unfold getNodesInShortestPathOrder
    rw [shortestPathOrder]
    rw [hprev2]
  have hanim : animateShortestPathApply (dijkstra g s e).1 [e] =
      (dijkstra g s e).1 := by
    unfold animateShortestPathApply
    simp only [List.foldl_cons, List.foldl_nil]
    rw [if_pos (Or.inr htypeF)]
    exact setCell_cellAt_self (dijkstra g s e).1 e.1 e.2
  refine ⟨hpath, ?_⟩
  rw [hpath]
  exact hanim


/-- One neighbour step of `runBFS`: `if (!visited[neighborId])` mark it
visited and push it on the queue; the pair is (visited, queue). -/
def bfsPush (vq : List Nat × List Nat) (nb : Nat) : List Nat × List Nat :=
  if nb ∈ vq.1 then vq else (vq.1 ++ [nb], vq.2 ++ [nb])

/-- The `while (queue.length > 0)` loop of `runBFS`: shift the head,
record it in `visitOrder`, and push its unvisited neighbours.  The node
objects have `id = index`, so `nodes.find((n) => n.id === nodeId)` is
lookup at index `nodeId`, and a missing node (out of range) contributes no
neighbours, exactly as the source's `if (!node) continue`. -/
def bfsLoop (adj : List (List Nat)) : Nat → List Nat → List Nat →
    List Nat → List Nat × List Nat
  | 0, _, vis, order => (vis, order)
  | fuel + 1, queue, vis, order =>
    match queue with
    | [] => (vis, order)
    | nodeId :: rest =>
      bfsLoop adj fuel ((adj.getD nodeId []).foldl bfsPush (vis, rest)).2
        ((adj.getD nodeId []).foldl bfsPush (vis, rest)).1
        (order ++ [nodeId])

/-- `runBFS` of the graph traversal visualizer, as the `visitOrder` it
hands to `animateTraversal`.  The fuel bounds the number of loop
iterations: every pop is paid for by the initial element or by an
adjacency entry of a newly processed node, so the loop always exits on the
empty-queue test, never on the fuel. -/
def runBFS (adj : List (List Nat)) (s : Nat) : List Nat :=
  (bfsLoop adj
    (((List.range adj.length).map fun u => (adj.getD u []).length).sum + 1)
    [s] [s] []).2

/-- The recursive `dfs` closure of `runDFS`: mark the node visited, record
it, then recurse into each still-unvisited neighbour in order.  The fuel
bounds the recursion depth; each nested call marks a fresh in-range node,
so depth `adj.length + 1` is never exhausted. -/
def dfsRec (adj : List (List Nat)) : Nat → Nat → List Nat → List Nat →
    List Nat × List Nat
  | 0, _, vis, order => (vis, order)
  | fuel + 1, nodeId, vis, order =>
    (adj.getD nodeId []).foldl
      (fun vo nb => if nb ∈ vo.1 then vo else dfsRec adj fuel nb vo.1 vo.2)
      (vis ++ [nodeId], order ++ [nodeId])

/-- `runDFS` of the graph traversal visualizer, as the `visitOrder` it
hands to `animateTraversal`. -/
def runDFS (adj : List (List Nat)) (s : Nat) : List Nat :=
  (dfsRec adj (adj.length + 1) s [] []).2

/-- `v` is reachable from `s` in at most `n` directed edge steps of the
adjacency structure.  A step from `u` exists only when `u` indexes a node,
so the intermediate node is bounded by `adj.length`. -/
def reachIn (adj : List (List Nat)) : Nat → Nat → Nat → Bool
  | 0, s, v => decide (v = s)
  | n + 1, s, v => reachIn adj n s v ||
      (List.range adj.length).any fun u =>
        reachIn adj n s u && decide (v ∈ adj.getD u [])

example : runBFS [[1], [0, 2], [1]] 0 = [0, 1, 2] := by decide

example : runDFS [[1], [0, 2], [1]] 0 = [0, 1, 2] := by decide

example : runBFS [[1, 2], [0, 3], [0], [1]] 0 = [0, 1, 2, 3] := by decide

example : runDFS [[1, 2], [0, 3], [0], [1]] 0 = [0, 1, 3, 2] := by decide

example : reachIn [[1], [0, 2], [1]] 2 0 2 = true := by decide

example : reachIn [[1], [0, 2], [1]] 1 0 2 = false := by decide

theorem reachIn_zero (adj : List (List Nat)) (s : Nat) :
    reachIn adj 0 s s = true := by
  simp [reachIn]

theorem reachIn_zero_iff (adj : List (List Nat)) (s v : Nat) :
    reachIn adj 0 s v = true ↔ v = s := by
  simp [reachIn]

theorem reachIn_succ_of (adj : List (List Nat)) (n s v : Nat)
    (h : reachIn adj n s v = true) : reachIn adj (n + 1) s v = true := by
  rw [reachIn, h]
  rfl

theorem reachIn_mono (adj : List (List Nat)) (s v : Nat) : ∀ {n m : Nat},
    n ≤ m → reachIn adj n s v = true → reachIn adj m s v = true := by
  intro n m
  induction m with
  | zero =>
    intro hle h
    rw [Nat.le_zero.mp hle] at h
    exact h
  | succ m ih =>
    intro hle h
    by_cases he : n = m + 1
    · rw [← he]
      exact h
    · exact reachIn_succ_of adj m s v (ih (by omega) h)

theorem reachIn_step (adj : List (List Nat)) (n s u v : Nat)
    (hu : reachIn adj n s u = true) (hv : v ∈ adj.getD u []) :
    reachIn adj (n + 1) s v = true := by
  have hul : u < adj.length := by
    by_contra hnl
    rw [List.getD_eq_default _ _ (Nat.le_of_not_lt hnl)] at hv
    cases hv
  rw [reachIn]
  simp only [List.any_eq_true, List.mem_range, Bool.or_eq_true,
    Bool.and_eq_true, decide_eq_true_eq]
  exact Or.inr ⟨u, hul, hu, hv⟩

/-- `d` is the exact graph distance from `s` to `v`: `v` is reachable in
`d` steps and in no fewer. -/
def Dist (adj : List (List Nat)) (s v d : Nat) : Prop :=
  reachIn adj d s v = true ∧ ∀ k, reachIn adj k s v = true → d ≤ k

theorem dist_exists (adj : List (List Nat)) (s v : Nat)
    (h : ∃ n, reachIn adj n s v = true) : ∃ d, Dist adj s v d :=
  ⟨Nat.find h, Nat.find_spec h, fun k hk => Nat.find_min' h hk⟩

theorem dist_unique (adj : List (List Nat)) (s v d d' : Nat)
    (hd : Dist adj s v d) (hd' : Dist adj s v d') : d = d' :=
  Nat.le_antisymm (hd.2 d' hd'.1) (hd'.2 d hd.1)

theorem dist_zero (adj : List (List Nat)) (s : Nat) : Dist adj s s 0 :=
  ⟨reachIn_zero adj s, fun k _ => Nat.zero_le k⟩

theorem dist_step_ub (adj : List (List Nat)) (s u v du : Nat)
    (hd : Dist adj s u du) (hv : v ∈ adj.getD u []) :
    ∃ dv, Dist adj s v dv ∧ dv ≤ du + 1 := by
  have hr := reachIn_step adj du s u v hd.1 hv
  obtain ⟨dv, hdv⟩ := dist_exists adj s v ⟨du + 1, hr⟩
  exact ⟨dv, hdv, hdv.2 _ hr⟩

theorem dist_pred (adj : List (List Nat)) (s v dv : Nat)
    (hd : Dist adj s v (dv + 1)) :
    ∃ u, reachIn adj dv s u = true ∧ v ∈ adj.getD u [] ∧ u < adj.length := by
  have h1 := hd.1
  rw [reachIn] at h1
  rcases Bool.or_eq_true_iff.mp h1 with h | h
  · exact absurd (hd.2 dv h) (by omega)
  · simp only [List.any_eq_true, List.mem_range, Bool.and_eq_true,
      decide_eq_true_eq] at h
    obtain ⟨u, hul, hru, hmem⟩ := h
    exact ⟨u, hru, hmem, hul⟩

/-- `a` is visited-before-eligible: the graph distance of `a` is at most
that of `b`, phrased without the distance function — every step bound
that reaches `b` also reaches `a`. -/
def distLEP (adj : List (List Nat)) (s a b : Nat) : Prop :=
  ∀ n, reachIn adj n s b = true → reachIn adj n s a = true

theorem distLEP_of_dist_le (adj : List (List Nat)) (s a b da db : Nat)
    (hda : Dist adj s a da) (hdb : Dist adj s b db) (h : da ≤ db) :
    distLEP adj s a b := fun n hn =>
  reachIn_mono adj s a (le_trans h (hdb.2 n hn)) hda.1

theorem sum_map_one {α : Type} (l : List α) :
    (l.map fun _ => 1).sum = l.length := by
  induction l with
  | nil => rfl
  | cons x l ih => simp [ih, Nat.add_comm]

theorem sum_filter_mono (f : Nat → Nat) (L : List Nat) (p q : Nat → Bool)
    (h : ∀ a ∈ L, p a = true → q a = true) :
    ((L.filter p).map f).sum ≤ ((L.filter q).map f).sum := by
  induction L with
  | nil => simp
  | cons x L ih =>
    have ih2 := ih fun a ha => h a (List.mem_cons_of_mem x ha)
    rw [List.filter_cons, List.filter_cons]
    by_cases hp : p x = true
    · rw [if_pos hp, if_pos (h x (List.mem_cons_self x L) hp)]
      simpa using ih2
    · rw [if_neg hp]
      by_cases hq : q x = true
      · rw [if_pos hq]
        simp only [List.map_cons, List.sum_cons]
        omega
      · rw [if_neg hq]
        exact ih2

/-- Removing one fresh element `x` from the complement filter of a
duplicate-free base list transfers exactly `f x` out of the sum. -/
theorem sum_filter_drop (f : Nat → Nat) (L : List Nat) (hN : L.Nodup)
    (x : Nat) (hx : x ∈ L) (o : List Nat) (hxo : x ∉ o) :
    ((L.filter fun u => decide (¬ u ∈ o)).map f).sum =
    ((L.filter fun u => decide (¬ u ∈ o ++ [x])).map f).sum + f x := by
  induction L with
  | nil => cases hx
  | cons y L ih =>
    rw [List.filter_cons, List.filter_cons]
    by_cases hxy : y = x
    · subst hxy
      rw [if_pos (by simpa using hxo), if_neg (by simp)]
      have hyl : y ∉ L := (List.nodup_cons.mp hN).1
      have hfe : L.filter (fun u => decide (¬ u ∈ o)) =
          L.filter (fun u => decide (¬ u ∈ o ++ [y])) := by
        apply List.filter_congr
        intro u hu
        have huy : u ≠ y := fun he => hyl (he ▸ hu)
        simp [List.mem_append, huy]
      rw [hfe]
      simp [Nat.add_comm]
    · have hN2 := (List.nodup_cons.mp hN).2
      have hx2 : x ∈ L := by
        rcases List.mem_cons.mp hx with h | h
        · exact absurd h.symm hxy
        · exact h
      have ih2 := ih hN2 hx2
      by_cases hyo : y ∈ o
      · rw [if_neg (by simpa using hyo),
          if_neg (by simp [List.mem_append]; intro h; exact absurd hyo h)]
        exact ih2
      · rw [if_pos (by simpa using hyo),
          if_pos (by simp [List.mem_append]; exact ⟨hyo, fun he => hxy he⟩)]
        simp only [List.map_cons, List.sum_cons]
        omega

/-- The adjacency-entry budget of the still-unprocessed nodes. -/
def bfsBudget (adj : List (List Nat)) (o : List Nat) : Nat :=
  (((List.range adj.length).filter fun u => decide (¬ u ∈ o)).map
    fun u => (adj.getD u []).length).sum

theorem bfsBudget_drop (adj : List (List Nat)) (o : List Nat) (x : Nat)
    (hx : x < adj.length) (hxo : x ∉ o) :
    bfsBudget adj o = bfsBudget adj (o ++ [x]) + (adj.getD x []).length :=
  sum_filter_drop _ (List.range adj.length) (List.nodup_range _) x
    (List.mem_range.mpr hx) o hxo

theorem bfsBudget_append_le (adj : List (List Nat)) (o : List Nat)
    (x : Nat) : bfsBudget adj (o ++ [x]) ≤ bfsBudget adj o := by
  apply sum_filter_mono
  intro a ha hp
  simp only [decide_eq_true_eq, List.mem_append] at hp ⊢
  exact fun hm => hp (Or.inl hm)

theorem bfsBudget_nil (adj : List (List Nat)) :
    bfsBudget adj [] =
      ((List.range adj.length).map fun u => (adj.getD u []).length).sum := by
  unfold bfsBudget
  have : (List.range adj.length).filter (fun u => decide (¬ u ∈ ([] : List Nat))) =
      List.range adj.length := by
    apply List.filter_eq_self.mpr
    intro a ha
    simp
  rw [this]

/-- Folding `bfsPush` over the neighbour list appends one common fresh
suffix `Δ` to both the visited list and the queue: its members are
unvisited neighbours, every neighbour ends up visited, freshness keeps the
visited list duplicate-free, and at most one push happens per neighbour. -/
theorem bfsPush_fold_spec (nbrs : List Nat) : ∀ (vis q : List Nat),
    ∃ Δ, (nbrs.foldl bfsPush (vis, q)).1 = vis ++ Δ ∧
      (nbrs.foldl bfsPush (vis, q)).2 = q ++ Δ ∧
      (∀ x ∈ Δ, x ∈ nbrs ∧ x ∉ vis) ∧
      (∀ nb ∈ nbrs, nb ∈ vis ++ Δ) ∧
      (vis.Nodup → (vis ++ Δ).Nodup) ∧
      Δ.length ≤ nbrs.length := by
  induction nbrs with
  | nil =>
    intro vis q
    exact ⟨[], by simp, by simp, by simp, by simp, by simp, by simp⟩
  | cons nb nbrs ih =>
    intro vis q
    rw [List.foldl_cons]
    by_cases hmem : nb ∈ vis
    · have hkeep : bfsPush (vis, q) nb = (vis, q) := by
        simp [bfsPush, hmem]
      rw [hkeep]
      obtain ⟨Δ, h1, h2, h3, h4, h5, h6⟩ := ih vis q
      refine ⟨Δ, h1, h2, ?_, ?_, h5, ?_⟩
      · exact fun x hx => ⟨List.mem_cons_of_mem nb (h3 x hx).1, (h3 x hx).2⟩
      · intro y hy
        rcases List.mem_cons.mp hy with he | hm
        · subst he
          exact List.mem_append_left Δ hmem
        · exact h4 y hm
      · exact Nat.le_succ_of_le h6
    · have hstep : bfsPush (vis, q) nb = (vis ++ [nb], q ++ [nb]) := by
        simp [bfsPush, hmem]
      rw [hstep]
      obtain ⟨Δ, h1, h2, h3, h4, h5, h6⟩ := ih (vis ++ [nb]) (q ++ [nb])
      refine ⟨nb :: Δ, ?_, ?_, ?_, ?_, ?_, ?_⟩
      · rw [h1, List.append_assoc]
        rfl
      · rw [h2, List.append_assoc]
        rfl
      · intro x hx
        rcases List.mem_cons.mp hx with he | hm
        · subst he
          exact ⟨List.mem_cons_self x nbrs, hmem⟩
        · refine ⟨List.mem_cons_of_mem nb (h3 x hm).1, ?_⟩
          intro hxv
          exact (h3 x hm).2 (List.mem_append_left [nb] hxv)
      · intro y hy
        rcases List.mem_cons.mp hy with he | hm
        · subst he
          exact List.mem_append_right vis (List.mem_cons_self y Δ)
        · have := h4 y hm
          rw [List.append_assoc] at this
          exact this
      · intro hnd
        have hnd2 : (vis ++ [nb]).Nodup := by
          rw [List.nodup_append]
          exact ⟨hnd, List.nodup_singleton nb,
            fun a ha hb => hmem (by rwa [List.mem_singleton.mp hb] at ha)⟩
        have := h5 hnd2
        rw [List.append_assoc] at this
        exact this
      · simpa using Nat.succ_le_succ h6

/-- The `runBFS` loop invariant, at current frontier depth `d`. -/
def BFSInv (adj : List (List Nat)) (s : Nat) (queue vis order : List Nat)
    (d : Nat) : Prop :=
  vis.Perm (order ++ queue) ∧
  vis.Nodup ∧
  (∀ v ∈ vis, ∃ n, reachIn adj n s v = true) ∧
  (∀ a ∈ order, ∀ da, Dist adj s a da → da ≤ d) ∧
  (∃ q1 q2, queue = q1 ++ q2 ∧ (∀ x ∈ q1, Dist adj s x d) ∧
    (∀ x ∈ q2, Dist adj s x (d + 1))) ∧
  order.Pairwise (distLEP adj s) ∧
  (∀ v dv, Dist adj s v dv → dv ≤ d → v ∈ vis) ∧
  (∀ u ∈ order, ∀ nb ∈ adj.getD u [], nb ∈ vis) ∧
  s ∈ vis

/-- Popping the queue head: whether it comes from the depth-`d` segment or
(after that segment is exhausted) from the depth-`d + 1` segment, there is
a frontier depth `d'` for the popped node such that the rest of the queue
splits at `d'`, every node of distance at most `d'` is already visited,
and every processed node has distance at most `d'`. -/
theorem bfs_head_cases (adj : List (List Nat)) (s nodeId : Nat)
    (rest vis order : List Nat) (d : Nat)
    (hinv : BFSInv adj s (nodeId :: rest) vis order d) :
    ∃ d', d ≤ d' ∧ Dist adj s nodeId d' ∧
      (∃ r1 r2, rest = r1 ++ r2 ∧ (∀ x ∈ r1, Dist adj s x d') ∧
        (∀ x ∈ r2, Dist adj s x (d' + 1))) ∧
      (∀ v dv, Dist adj s v dv → dv ≤ d' → v ∈ vis) ∧
      (∀ a ∈ order, ∀ da, Dist adj s a da → da ≤ d') := by
  obtain ⟨hperm, hnd, hreach, hordle, ⟨q1, q2, hq, hq1, hq2⟩, hsorted,
    hthresh, hclosed, hstart⟩ := hinv
  cases q1 with
  | nil =>
    rw [List.nil_append] at hq
    refine ⟨d + 1, Nat.le_succ d,
      hq2 nodeId (hq ▸ List.mem_cons_self nodeId rest),
      ⟨rest, [], (List.append_nil rest).symm,
        fun x hx => hq2 x (hq ▸ List.mem_cons_of_mem nodeId hx),
        fun x hx => absurd hx (List.not_mem_nil x)⟩, ?_, ?_⟩
    · intro v dv hdv hle
      by_cases hd2 : dv ≤ d
      · exact hthresh v dv hdv hd2
      · have hdveq : dv = d + 1 := by omega
        subst hdveq
        obtain ⟨u, hru, hvu, hul⟩ := dist_pred adj s v d hdv
        obtain ⟨du, hdu⟩ := dist_exists adj s u ⟨d, hru⟩
        have hdud : du ≤ d := hdu.2 d hru
        have huv : u ∈ vis := hthresh u du hdu hdud
        rcases List.mem_append.mp (hperm.mem_iff.mp huv) with ho | hqq
        · exact hclosed u ho v hvu
        · exfalso
          have := dist_unique adj s u du (d + 1) hdu (hq2 u (hq ▸ hqq))
          omega
    · intro a ha da hda
      exact le_trans (hordle a ha da hda) (Nat.le_succ d)
  | cons u1 q1t =>
    rw [List.cons_append] at hq
    injection hq with h1 h2
    subst h1
    refine ⟨d, Nat.le_refl d, hq1 nodeId (List.mem_cons_self nodeId q1t),
      ⟨q1t, q2, h2, fun x hx => hq1 x (List.mem_cons_of_mem nodeId hx),
        hq2⟩, hthresh, hordle⟩

/-- At queue exhaustion the invariant already yields the three published
facts: the visit order is duplicate-free, contains every reachable node,
and is sorted by graph distance. -/
theorem bfs_exit (adj : List (List Nat)) (s : Nat) (vis order : List Nat)
    (d : Nat) (hinv : BFSInv adj s [] vis order d) :
    order.Nodup ∧
    (∀ n v, reachIn adj n s v = true → v ∈ order) ∧
    order.Pairwise (distLEP adj s) := by
  obtain ⟨hperm, hnd, hreach, hordle, hsplit, hsorted, hthresh, hclosed,
    hstart⟩ := hinv
  rw [List.append_nil] at hperm
  have hviso : ∀ v, v ∈ vis ↔ v ∈ order := fun v => hperm.mem_iff
  have hcomp : ∀ n v, reachIn adj n s v = true → v ∈ vis := by
    intro n
    induction n with
    | zero =>
      intro v h
      rw [reachIn_zero_iff] at h
      subst h
      exact hstart
    | succ n ihn =>
      intro v h
      rw [reachIn] at h
      rcases Bool.or_eq_true_iff.mp h with h | h
      · exact ihn v h
      · simp only [List.any_eq_true, List.mem_range, Bool.and_eq_true,
          decide_eq_true_eq] at h
        obtain ⟨u, hul, hru, hmem⟩ := h
        exact hclosed u ((hviso u).mp (ihn u hru)) v hmem
  exact ⟨hperm.nodup hnd, fun n v h => (hviso v).mp (hcomp n v h), hsorted⟩

/-- The `runBFS` loop: started in an invariant state with enough fuel to
pay for one iteration per queue insertion, it returns a visit order that
is duplicate-free, complete for reachability, and sorted by graph
distance. -/
theorem bfsLoop_final (adj : List (List Nat)) (s : Nat) (fuel : Nat) :
    ∀ queue vis order d,
    BFSInv adj s queue vis order d →
    queue.length + bfsBudget adj order ≤ fuel →
    (bfsLoop adj fuel queue vis order).2.Nodup ∧
    (∀ n v, reachIn adj n s v = true →
      v ∈ (bfsLoop adj fuel queue vis order).2) ∧
    (bfsLoop adj fuel queue vis order).2.Pairwise (distLEP adj s) := by
  induction fuel with
  | zero =>
    intro queue vis order d hinv hbud
    have hq : queue = [] := by
      rw [List.length_eq_zero.mp (by omega : queue.length = 0)]
    subst hq
    exact bfs_exit adj s vis order d hinv
  | succ fuel ih =>
    intro queue vis order d hinv hbud
    cases queue with
    | nil =>
      rw [bfsLoop]
      exact bfs_exit adj s vis order d hinv
    | cons nodeId rest =>
      rw [bfsLoop]
      obtain ⟨d', hdd', hdnode, ⟨r1, r2, hrsplit, hr1, hr2⟩, hthresh2,
        hord2⟩ := bfs_head_cases adj s nodeId rest vis order d hinv
      obtain ⟨hperm, hnd, hreach, hordle, hsplit, hsorted, hthresh,
        hclosed, hstart⟩ := hinv
      obtain ⟨Δ, hf1, hf2, hfm, hfall, hfnd, hflen⟩ :=
        bfsPush_fold_spec (adj.getD nodeId []) vis rest
      have hnewdist : ∀ x ∈ Δ, Dist adj s x (d' + 1) := by
        intro x hx
        obtain ⟨dx, hdx, hdxle⟩ :=
          dist_step_ub adj s nodeId x d' hdnode (hfm x hx).1
        have hgt : ¬ dx ≤ d' := fun hle =>
          (hfm x hx).2 (hthresh2 x dx hdx hle)
        have : dx = d' + 1 := by omega
        exact this ▸ hdx
      have hinv2 : BFSInv adj s (rest ++ Δ) (vis ++ Δ)
          (order ++ [nodeId]) d' := by
        refine ⟨?_, hfnd hnd, ?_, ?_, ?_, ?_, ?_, ?_,
          List.mem_append_left Δ hstart⟩
        · rw [List.append_cons] at hperm
          have hp2 := hperm.append_right Δ
          rw [List.append_assoc (order ++ [nodeId])] at hp2
          exact hp2
        · intro v hv
          rcases List.mem_append.mp hv with h | h
          · exact hreach v h
          · exact ⟨d' + 1, (hnewdist v h).1⟩
        · intro a ha da hda
          rcases List.mem_append.mp ha with h | h
          · exact hord2 a h da hda
          · rw [List.mem_singleton.mp h] at hda
            rw [dist_unique adj s nodeId da d' hda hdnode]
        · refine ⟨r1, r2 ++ Δ, ?_, hr1, ?_⟩
          · rw [hrsplit, List.append_assoc]
          · intro x hx
            rcases List.mem_append.mp hx with h | h
            · exact hr2 x h
            · exact hnewdist x h
        · rw [List.pairwise_append]
          refine ⟨hsorted, List.pairwise_singleton _ _, ?_⟩
          intro a ha b hb
          rw [List.mem_singleton.mp hb]
          have hav : a ∈ vis := hperm.mem_iff.mpr
            (List.mem_append_left _ ha)
          obtain ⟨da, hda⟩ := dist_exists adj s a (hreach a hav)
          exact distLEP_of_dist_le adj s a nodeId da d' hda hdnode
            (hord2 a ha da hda)
        · intro v dv hdv hle
          exact List.mem_append_left Δ (hthresh2 v dv hdv hle)
        · intro u hu nb hnb
          rcases List.mem_append.mp hu with h | h
          · exact List.mem_append_left Δ (hclosed u h nb hnb)
          · rw [List.mem_singleton.mp h] at hnb
            exact hfall nb hnb
      have hnotord : nodeId ∉ order := by
        have hnd2 : (order ++ (nodeId :: rest)).Nodup := hperm.nodup hnd
        have hdisj := (List.nodup_append.mp hnd2).2.2
        exact fun hno => hdisj hno (List.mem_cons_self nodeId rest)
      have hbud2 : (rest ++ Δ).length +
          bfsBudget adj (order ++ [nodeId]) ≤ fuel := by
        rw [List.length_append]
        by_cases hl : nodeId < adj.length
        · have hdrop := bfsBudget_drop adj order nodeId hl hnotord
          rw [List.length_cons] at hbud
          omega
        · have hnil : adj.getD nodeId [] = [] :=
            List.getD_eq_default _ _ (Nat.le_of_not_lt hl)
          rw [hnil] at hflen
          have hble := bfsBudget_append_le adj order nodeId
          rw [List.length_cons] at hbud
          simp only [List.length_nil] at hflen
          omega
      have hres := ih ((adj.getD nodeId []).foldl bfsPush (vis, rest)).2
        ((adj.getD nodeId []).foldl bfsPush (vis, rest)).1
        (order ++ [nodeId]) d' (by rw [hf1, hf2]; exact hinv2)
        (by rw [hf2]; exact hbud2)
      exact hres

theorem runBFS_spec (adj : List (List Nat)) (s : Nat) :
    (runBFS adj s).Nodup ∧
    (∀ n v, reachIn adj n s v = true → v ∈ runBFS adj s) ∧
    (runBFS adj s).Pairwise (distLEP adj s) := by
  have hinv : BFSInv adj s [s] [s] [] 0 := by
    refine ⟨List.Perm.refl [s], List.nodup_singleton s, ?_, ?_, ?_,
      List.Pairwise.nil, ?_, ?_, List.mem_singleton_self s⟩
    · intro v hv
      rw [List.mem_singleton.mp hv]
      exact ⟨0, reachIn_zero adj s⟩
    · intro a ha
      exact absurd ha (List.not_mem_nil a)
    · refine ⟨[s], [], rfl, ?_, ?_⟩
      · intro x hx
        rw [List.mem_singleton.mp hx]
        exact dist_zero adj s
      · intro x hx
        exact absurd hx (List.not_mem_nil x)
    · intro v dv hdv hle
      have hz : dv = 0 := Nat.le_zero.mp hle
      subst hz
      rw [List.mem_singleton]
      exact (reachIn_zero_iff adj s v).mp hdv.1
    · intro u hu
      exact absurd hu (List.not_mem_nil u)
  have hbud : ([s] : List Nat).length + bfsBudget adj [] ≤
      ((List.range adj.length).map fun u => (adj.getD u []).length).sum +
        1 := by
    rw [bfsBudget_nil]
    simp [Nat.add_comm]
  unfold runBFS
  exact bfsLoop_final adj s _ [s] [s] [] 0 hinv hbud

/-- The number of in-range nodes not yet visited: the DFS recursion-depth
budget. -/
def dfsUn (adj : List (List Nat)) (vis : List Nat) : Nat :=
  ((List.range adj.length).filter fun u => decide (¬ u ∈ vis)).length

theorem dfsUn_drop (adj : List (List Nat)) (vis : List Nat) (x : Nat)
    (hx : x < adj.length) (hxv : x ∉ vis) :
    dfsUn adj vis = dfsUn adj (vis ++ [x]) + 1 := by
  have h := sum_filter_drop (fun _ => 1) (List.range adj.length)
    (List.nodup_range _) x (List.mem_range.mpr hx) vis hxv
  rw [sum_map_one, sum_map_one] at h
  exact h

theorem dfsUn_le_of_subset (adj : List (List Nat)) (vis w : List Nat)
    (h : ∀ a ∈ vis, a ∈ w) : dfsUn adj w ≤ dfsUn adj vis := by
  have hs := sum_filter_mono (fun _ => 1) (List.range adj.length)
    (fun u => decide (¬ u ∈ w)) (fun u => decide (¬ u ∈ vis))
    (by
      intro a ha hp
      simp only [decide_eq_true_eq] at hp ⊢
      exact fun hm => hp (h a hm))
  rw [sum_map_one, sum_map_one] at hs
  exact hs

theorem dfsUn_nil_le (adj : List (List Nat)) :
    dfsUn adj [] ≤ adj.length := by
  unfold dfsUn
  calc ((List.range adj.length).filter fun u =>
        decide (¬ u ∈ ([] : List Nat))).length
      ≤ (List.range adj.length).length := List.length_filter_le _ _
    _ = adj.length := List.length_range _

/-- Folding the DFS neighbour loop, given the recursion postcondition at
the next fuel level: the visited list and the visit order grow by one
common fresh suffix; every neighbour ends up visited; every node of the
suffix has all its neighbours visited at the end. -/
theorem dfsFold_spec (adj : List (List Nat)) (fuel : Nat)
    (IH : ∀ (nodeId : Nat) (vis order : List Nat), nodeId ∉ vis →
      vis.Nodup → dfsUn adj vis + 1 ≤ fuel →
      ∃ Δ, (dfsRec adj fuel nodeId vis order).1 = vis ++ Δ ∧
        (dfsRec adj fuel nodeId vis order).2 = order ++ Δ ∧
        (vis ++ Δ).Nodup ∧ nodeId ∈ Δ ∧
        (∀ u ∈ Δ, ∀ nb ∈ adj.getD u [], nb ∈ vis ++ Δ)) :
    ∀ (nbrs : List Nat) (vis order : List Nat), vis.Nodup →
      dfsUn adj vis + 1 ≤ fuel →
      ∃ Δ, (nbrs.foldl (fun vo nb => if nb ∈ vo.1 then vo
          else dfsRec adj fuel nb vo.1 vo.2) (vis, order)).1 = vis ++ Δ ∧
        (nbrs.foldl (fun vo nb => if nb ∈ vo.1 then vo
          else dfsRec adj fuel nb vo.1 vo.2) (vis, order)).2 = order ++ Δ ∧
        (vis ++ Δ).Nodup ∧
        (∀ nb ∈ nbrs, nb ∈ vis ++ Δ) ∧
        (∀ u ∈ Δ, ∀ nb ∈ adj.getD u [], nb ∈ vis ++ Δ) := by
  intro nbrs
  induction nbrs with
  | nil =>
    intro vis order hnd hfu
    refine ⟨[], by simp, by simp, by simpa using hnd, ?_, ?_⟩
    · intro nb hnb
      exact absurd hnb (List.not_mem_nil nb)
    · intro u hu
      exact absurd hu (List.not_mem_nil u)
  | cons nb nbrs ihf =>
    intro vis order hnd hfu
    simp only [List.foldl_cons]
    by_cases hmem : nb ∈ vis
    · rw [if_pos hmem]
      obtain ⟨Δ, h1, h2, h3, h4, h5⟩ := ihf vis order hnd hfu
      refine ⟨Δ, h1, h2, h3, ?_, h5⟩
      intro y hy
      rcases List.mem_cons.mp hy with he | hm
      · subst he
        exact List.mem_append_left Δ hmem
      · exact h4 y hm
    · rw [if_neg hmem]
      obtain ⟨Δ1, hd1, hd2, hd3, hd4, hd5⟩ := IH nb vis order hmem hnd hfu
      have hpair : dfsRec adj fuel nb vis order =
          (vis ++ Δ1, order ++ Δ1) := by
        rcases hity : dfsRec adj fuel nb vis order with ⟨x, y⟩
        rw [hity] at hd1 hd2
        simp only at hd1 hd2
        rw [hd1, hd2]
      rw [hpair]
      have hfu2 : dfsUn adj (vis ++ Δ1) + 1 ≤ fuel := by
        have := dfsUn_le_of_subset adj vis (vis ++ Δ1)
          (fun a ha => List.mem_append_left Δ1 ha)
        omega
      obtain ⟨Δ2, h1, h2, h3, h4, h5⟩ := ihf (vis ++ Δ1) (order ++ Δ1)
        hd3 hfu2
      refine ⟨Δ1 ++ Δ2, ?_, ?_, ?_, ?_, ?_⟩
      · rw [h1, List.append_assoc]
      · rw [h2, List.append_assoc]
      · rw [← List.append_assoc]
        exact h3
      · intro y hy
        rcases List.mem_cons.mp hy with he | hm
        · subst he
          exact List.mem_append_right vis (List.mem_append_left Δ2 hd4)
        · have := h4 y hm
          rw [List.append_assoc] at this
          exact this
      · intro u hu nb2 hnb2
        rcases List.mem_append.mp hu with h | h
        · have := hd5 u h nb2 hnb2
          rcases List.mem_append.mp this with h6 | h6
          · exact List.mem_append_left _ h6
          · exact List.mem_append_right vis (List.mem_append_left Δ2 h6)
        · have := h5 u h nb2 hnb2
          rw [List.append_assoc] at this
          exact this

/-- Postcondition of the recursive `dfs` closure: starting on a fresh
node with enough depth budget, it appends one common fresh suffix to the
visited list and the visit order; the suffix contains the node and is
neighbour-closed in the final visited list. -/
theorem dfsRec_spec (adj : List (List Nat)) : ∀ (fuel : Nat)
    (nodeId : Nat) (vis order : List Nat), nodeId ∉ vis → vis.Nodup →
    dfsUn adj vis + 1 ≤ fuel →
    ∃ Δ, (dfsRec adj fuel nodeId vis order).1 = vis ++ Δ ∧
      (dfsRec adj fuel nodeId vis order).2 = order ++ Δ ∧
      (vis ++ Δ).Nodup ∧ nodeId ∈ Δ ∧
      (∀ u ∈ Δ, ∀ nb ∈ adj.getD u [], nb ∈ vis ++ Δ) := by
  intro fuel
  induction fuel with
  | zero =>
    intro nodeId vis order hni hnd hfu
    omega
  | succ fuel ih =>
    intro nodeId vis order hni hnd hfu
    rw [dfsRec]
    have hnd2 : (vis ++ [nodeId]).Nodup := by
      rw [List.nodup_append]
      exact ⟨hnd, List.nodup_singleton nodeId,
        fun a ha hb => hni (by rwa [List.mem_singleton.mp hb] at ha)⟩
    by_cases hl : nodeId < adj.length
    · have hdrop := dfsUn_drop adj vis nodeId hl hni
      have hfu2 : dfsUn adj (vis ++ [nodeId]) + 1 ≤ fuel := by omega
      obtain ⟨Δ2, h1, h2, h3, h4, h5⟩ := dfsFold_spec adj fuel ih
        (adj.getD nodeId []) (vis ++ [nodeId]) (order ++ [nodeId])
        hnd2 hfu2
      refine ⟨nodeId :: Δ2, ?_, ?_, ?_, List.mem_cons_self nodeId Δ2, ?_⟩
      · rw [h1, List.append_assoc]
        rfl
      · rw [h2, List.append_assoc]
        rfl
      · rw [show vis ++ nodeId :: Δ2 = (vis ++ [nodeId]) ++ Δ2 from
          (List.append_cons vis nodeId Δ2)]
        exact h3
      · intro u hu nb hnb
        rw [List.append_cons vis nodeId Δ2]
        rcases List.mem_cons.mp hu with he | hm
        · subst he
          exact h4 nb hnb
        · exact h5 u hm nb hnb
    · have hnil : adj.getD nodeId [] = [] :=
        List.getD_eq_default _ _ (Nat.le_of_not_lt hl)
      rw [hnil]
      simp only [List.foldl_nil]
      refine ⟨[nodeId], rfl, rfl, hnd2, List.mem_singleton_self nodeId, ?_⟩
      intro u hu nb hnb
      rw [List.mem_singleton.mp hu, hnil] at hnb
      exact absurd hnb (List.not_mem_nil nb)

theorem runDFS_spec (adj : List (List Nat)) (s : Nat) :
    (runDFS adj s).Nodup ∧
    (∀ n v, reachIn adj n s v = true → v ∈ runDFS adj s) := by
  unfold runDFS
  obtain ⟨Δ, h1, h2, h3, h4, h5⟩ := dfsRec_spec adj (adj.length + 1) s [] []
    (List.not_mem_nil s) List.nodup_nil
    (by have := dfsUn_nil_le adj; omega)
  have hcomp : ∀ n v, reachIn adj n s v = true → v ∈ Δ := by
    intro n
    induction n with
    | zero =>
      intro v h
      rw [reachIn_zero_iff] at h
      subst h
      exact h4
    | succ n ihn =>
      intro v h
      rw [reachIn] at h
      rcases Bool.or_eq_true_iff.mp h with h | h
      · exact ihn v h
      · simp only [List.any_eq_true, List.mem_range, Bool.and_eq_true,
          decide_eq_true_eq] at h
        obtain ⟨u, hul, hru, hmem⟩ := h
        have := h5 u (ihn u hru) v hmem
        simpa using this
  constructor
  · rw [h2]
    simpa using h3
  · intro n v h
    rw [h2]
    exact List.mem_append_right [] (hcomp n v h)

/-- C8: For every adjacency structure and start node, `runBFS` visits
each node reachable from the start exactly once — its visit order is
duplicate-free and contains every reachable node — in non-decreasing
order of graph distance from the start (stated distance-free: for every
earlier/later pair in the visit order, any step bound within which the
later node is reachable also reaches the earlier node); and `runDFS`
visits each reachable node exactly once and never revisits — its visit
order is duplicate-free and contains every reachable node. -/
theorem C8_traversal_visits (adj : List (List Nat)) (s : Nat) :
    (runBFS adj s).Nodup ∧
    (∀ v n, reachIn adj n s v = true → v ∈ runBFS adj s) ∧
    (runBFS adj s).Pairwise (distLEP adj s) ∧
    (runDFS adj s).Nodup ∧
    (∀ v n, reachIn adj n s v = true → v ∈ runDFS adj s) := by
  obtain ⟨hb1, hb2, hb3⟩ := runBFS_spec adj s
  obtain ⟨hd1, hd2⟩ := runDFS_spec adj s
  exact ⟨hb1, fun v n h => hb2 n v h, hb3, hd1, fun v n h => hd2 n v h⟩

/-- The four in-bounds neighbour candidates of a grid cell (the
`getNeighbors` bounds checks, before the visited filter). -/
def nbrPos (g : Grid) (r c : Nat) : List (Nat × Nat) :=
  (if r > 0 then [(r - 1, c)] else []) ++
  (if r < (g : List (List Cell)).length - 1 then [(r + 1, c)] else []) ++
  (if c > 0 then [(r, c - 1)] else []) ++
  (if c < ((g : List (List Cell)).getD 0 []).length - 1
   then [(r, c + 1)] else [])

theorem getNeighborsPos_eq_filter (g : Grid) (r c : Nat) :
    getNeighborsPos g r c =
      (nbrPos g r c).filter fun p =>
        decide (¬(cellAt g p.1 p.2).isVisited = true) := by
  rfl

theorem nbrPos_congr (g g2 : Grid) (r c : Nat)
    (hl : (g2 : List (List Cell)).length = (g : List (List Cell)).length)
    (hw : ((g2 : List (List Cell)).getD 0 []).length =
      ((g : List (List Cell)).getD 0 []).length) :
    nbrPos g2 r c = nbrPos g r c := by
  unfold nbrPos
  rw [hl, hw]

/-- A wall-avoiding step: `v` is an in-bounds neighbour of `u` and is not
a wall. -/
def wStepB (g0 : Grid) (u v : Nat × Nat) : Bool :=
  decide (v ∈ nbrPos g0 u.1 u.2) &&
  decide (¬(cellAt g0 v.1 v.2).type = CellType.wall)

/-- `wP g0 n s v`: there is a wall-avoiding path of exactly `n` steps from
`s` to `v` whose intermediate and final cells are in bounds and not
walls. -/
def wP (g0 : Grid) : Nat → (Nat × Nat) → (Nat × Nat) → Bool
  | 0, s, v => decide (v = s)
  | n + 1, s, v => (getAllNodesPos g0).any fun u =>
      wP g0 n s u && wStepB g0 u v

/-- The exact wall-avoiding graph distance. -/
def WDistP (g0 : Grid) (s v : Nat × Nat) (d : Nat) : Prop :=
  wP g0 d s v = true ∧ ∀ k, wP g0 k s v = true → d ≤ k

theorem wdist_exists (g0 : Grid) (s v : Nat × Nat)
    (h : ∃ n, wP g0 n s v = true) : ∃ d, WDistP g0 s v d :=
  ⟨Nat.find h, Nat.find_spec h, fun k hk => Nat.find_min' h hk⟩

theorem wdist_unique (g0 : Grid) (s v : Nat × Nat) (d d' : Nat)
    (hd : WDistP g0 s v d) (hd' : WDistP g0 s v d') : d = d' :=
  Nat.le_antisymm (hd.2 d' hd'.1) (hd'.2 d hd.1)

theorem wP_zero (g0 : Grid) (s : Nat × Nat) : wP g0 0 s s = true := by
  simp [wP]

theorem wP_zero_iff (g0 : Grid) (s v : Nat × Nat) :
    wP g0 0 s v = true ↔ v = s := by
  simp [wP]

theorem wdist_zero (g0 : Grid) (s : Nat × Nat) : WDistP g0 s s 0 :=
  ⟨wP_zero g0 s, fun k _ => Nat.zero_le k⟩

theorem wP_succ_iff (g0 : Grid) (n : Nat) (s v : Nat × Nat) :
    wP g0 (n + 1) s v = true ↔
      ∃ u ∈ getAllNodesPos g0, wP g0 n s u = true ∧
        v ∈ nbrPos g0 u.1 u.2 ∧
        (cellAt g0 v.1 v.2).type ≠ CellType.wall := by
  rw [wP]
  simp only [List.any_eq_true, Bool.and_eq_true, wStepB,
    decide_eq_true_eq]

theorem wP_step (g0 : Grid) (n : Nat) (s u v : Nat × Nat)
    (hu : wP g0 n s u = true) (hmem : u ∈ getAllNodesPos g0)
    (hnb : v ∈ nbrPos g0 u.1 u.2)
    (hw : (cellAt g0 v.1 v.2).type ≠ CellType.wall) :
    wP g0 (n + 1) s v = true :=
  (wP_succ_iff g0 n s v).mpr ⟨u, hmem, hu, hnb, hw⟩

theorem wP_target_nonwall (g0 : Grid) (n : Nat) (s v : Nat × Nat)
    (h : wP g0 (n + 1) s v = true) :
    (cellAt g0 v.1 v.2).type ≠ CellType.wall := by
  obtain ⟨u, _, _, _, h4⟩ := (wP_succ_iff g0 n s v).mp h
  exact h4

theorem wP_target_mem (g0 : Grid)
    (hrect : ∀ r, r < (g0 : List (List Cell)).length →
      ((g0 : List (List Cell)).getD r []).length =
      ((g0 : List (List Cell)).getD 0 []).length)
    (n : Nat) (s v : Nat × Nat)
    (h : wP g0 n s v = true) (hs : s ∈ getAllNodesPos g0) :
    v ∈ getAllNodesPos g0 := by
  cases n with
  | zero =>
    rw [wP_zero_iff] at h
    rw [h]
    exact hs
  | succ n =>
    obtain ⟨u, hu, h1, h2, h3⟩ := (wP_succ_iff g0 n s v).mp h
    obtain ⟨hu1, hu2⟩ := (mem_getAllNodesPos g0 u).mp hu
    have hwid := hrect u.1 hu1
    rw [mem_getAllNodesPos]
    unfold nbrPos at h2
    simp only [List.mem_append] at h2
    rcases h2 with ((h2 | h2) | h2) | h2
    · by_cases hg : u.1 > 0
      · rw [if_pos hg, List.mem_singleton] at h2
        subst h2
        refine ⟨by show u.1 - 1 < _; omega, ?_⟩
        show u.2 < ((g0 : List (List Cell)).getD (u.1 - 1) []).length
        rw [hrect (u.1 - 1) (by omega)]
        omega
      · rw [if_neg hg] at h2
        exact absurd h2 (List.not_mem_nil v)
    · by_cases hg : u.1 < (g0 : List (List Cell)).length - 1
      · rw [if_pos hg, List.mem_singleton] at h2
        subst h2
        refine ⟨by show u.1 + 1 < _; omega, ?_⟩
        show u.2 < ((g0 : List (List Cell)).getD (u.1 + 1) []).length
        rw [hrect (u.1 + 1) (by omega)]
        omega
      · rw [if_neg hg] at h2
        exact absurd h2 (List.not_mem_nil v)
    · by_cases hg : u.2 > 0
      · rw [if_pos hg, List.mem_singleton] at h2
        subst h2
        refine ⟨by show u.1 < _; omega, ?_⟩
        show u.2 - 1 < ((g0 : List (List Cell)).getD u.1 []).length
        omega
      · rw [if_neg hg] at h2
        exact absurd h2 (List.not_mem_nil v)
    · by_cases hg : u.2 < ((g0 : List (List Cell)).getD 0 []).length - 1
      · rw [if_pos hg, List.mem_singleton] at h2
        subst h2
        refine ⟨by show u.1 < _; omega, ?_⟩
        show u.2 + 1 < ((g0 : List (List Cell)).getD u.1 []).length
        omega
      · rw [if_neg hg] at h2
        exact absurd h2 (List.not_mem_nil v)

theorem mem_ite_singleton2 {c : Prop} [Decidable c] {v x : Nat × Nat}
    (h : v ∈ (if c then [x] else [])) : c ∧ v = x := by
  split at h
  · next hc => exact ⟨hc, List.mem_singleton.mp h⟩
  · exact absurd h (List.not_mem_nil v)

/-- Moving to a grid neighbour flips the parity of the Manhattan distance
to any fixed cell: the grid graph is bipartite. -/
theorem nbr_parity (g0 : Grid) (s u v : Nat × Nat)
    (hv : v ∈ nbrPos g0 u.1 u.2) :
    (heuristic s u + heuristic s v) % 2 = 1 := by
  unfold nbrPos at hv
  simp only [List.mem_append] at hv
  rcases hv with ((h2 | h2) | h2) | h2 <;>
    obtain ⟨hg, he⟩ := mem_ite_singleton2 h2 <;> subst he <;>
    unfold heuristic <;> dsimp only <;> omega

/-- The parity of every wall-avoiding path length to `v` is the parity of
the Manhattan distance from the start. -/
theorem wP_parity (g0 : Grid) (s : Nat × Nat) :
    ∀ (k : Nat) (v : Nat × Nat), wP g0 k s v = true →
    (k + heuristic s v) % 2 = 0 := by
  intro k
  induction k with
  | zero =>
    intro v h1
    rw [wP_zero_iff] at h1
    subst h1
    unfold heuristic
    simp
  | succ k ih =>
    intro v h1
    obtain ⟨w, hw, hwp, hwnb, _⟩ := (wP_succ_iff g0 k s v).mp h1
    have hpar := nbr_parity g0 s w v hwnb
    have hwr := ih w hwp
    omega

/-- Two cells at the same wall-avoiding distance from the start are never
grid neighbours. -/
theorem wdist_eq_not_nbr (g0 : Grid) (s u v : Nat × Nat) (k : Nat)
    (hu : WDistP g0 s u k) (hv : WDistP g0 s v k)
    (hnb : v ∈ nbrPos g0 u.1 u.2) : False := by
  have hpu := wP_parity g0 s k u hu.1
  have hpv := wP_parity g0 s k v hv.1
  have hpar := nbr_parity g0 s u v hnb
  omega

theorem nbrPos_nodup (g : Grid) (r c : Nat) : (nbrPos g r c).Nodup := by
  unfold nbrPos
  by_cases h1 : r > 0 <;>
    by_cases h2 : r < (g : List (List Cell)).length - 1 <;>
    by_cases h3 : c > 0 <;>
    by_cases h4 : c < ((g : List (List Cell)).getD 0 []).length - 1 <;>
    simp only [h1, h2, h3, h4, if_true, if_false, List.nil_append,
      List.append_nil, List.cons_append, List.nodup_cons, List.mem_cons,
      List.mem_append, List.mem_singleton, List.nodup_nil, List.not_mem_nil,
      List.nodup_singleton, not_or, Prod.mk.injEq, and_true, true_and,
      not_and, not_false_iff] <;>
  omega

theorem getNeighborsPos_nodup (g : Grid) (r c : Nat) :
    (getNeighborsPos g r c).Nodup := by
  rw [getNeighborsPos_eq_filter]
  exact (nbrPos_nodup g r c).filter _

theorem getAllNodesPos_nodup (g : Grid) : (getAllNodesPos g).Nodup := by
  unfold getAllNodesPos
  rw [List.nodup_flatten]
  constructor
  · intro l hl
    rw [List.mem_map] at hl
    obtain ⟨r, _, rfl⟩ := hl
    refine (List.nodup_range _).map ?_
    intro a b hab
    injection hab
  · rw [List.pairwise_map]
    have := List.pairwise_lt_range ((g : List (List Cell)).length)
    refine this.imp ?_
    intro r1 r2 hlt
    intro a ha hb
    rw [List.mem_map] at ha hb
    obtain ⟨c1, _, rfl⟩ := ha
    obtain ⟨c2, _, he⟩ := hb
    injection he with he1 he2
    omega

/-- `g` has the same row/column layout as `g0`. -/
def ShapeEq (g0 g : Grid) : Prop :=
  (g : List (List Cell)).length = (g0 : List (List Cell)).length ∧
  ∀ r, ((g : List (List Cell)).getD r []).length =
    ((g0 : List (List Cell)).getD r []).length

theorem shapeEq_refl (g : Grid) : ShapeEq g g := ⟨rfl, fun _ => rfl⟩

theorem shapeEq_trans {g0 g1 g2 : Grid} (h1 : ShapeEq g0 g1)
    (h2 : ShapeEq g1 g2) : ShapeEq g0 g2 :=
  ⟨h2.1.trans h1.1, fun r => (h2.2 r).trans (h1.2 r)⟩

theorem shapeEq_setCell (g : Grid) (r c : Nat) (x : Cell) :
    ShapeEq g (setCell g r c x) :=
  ⟨setCell_length g r c x, fun r2 => setCell_row_length g r c x r2⟩

theorem shapeEq_updateFold (r0 c0 : Nat) :
    ∀ (ps : List (Nat × Nat)) (g : Grid),
    ShapeEq g (ps.foldl (updateStep r0 c0) g) := by
  intro ps
  induction ps with
  | nil => intro g; exact shapeEq_refl g
  | cons p ps ih =>
    intro g
    rw [List.foldl_cons]
    exact shapeEq_trans (shapeEq_setCell g p.1 p.2 _) (ih _)

theorem shapeEq_updateUnvisited (g : Grid) (r c : Nat) :
    ShapeEq g (updateUnvisitedNeighbors g r c) := by
  rw [updateUnvisitedNeighbors_eq_fold]
  exact shapeEq_updateFold r c _ g

theorem nbrPos_shape (g0 g : Grid) (hs : ShapeEq g0 g) (r c : Nat) :
    nbrPos g r c = nbrPos g0 r c :=
  nbrPos_congr g0 g r c hs.1 (hs.2 0)

theorem getAllNodesPos_shape (g0 g : Grid) (hs : ShapeEq g0 g) :
    getAllNodesPos g = getAllNodesPos g0 := by
  unfold getAllNodesPos
  rw [hs.1]
  congr 1
  apply List.map_congr_left
  intro r _
  rw [hs.2 r]

theorem cellAt_oob_shape (g0 g : Grid) (hs : ShapeEq g0 g)
    (v : Nat × Nat) (hv : v ∉ getAllNodesPos g0) :
    cellAt g v.1 v.2 = defaultCell := by
  apply cellAt_oob
  intro hb
  apply hv
  rw [mem_getAllNodesPos]
  rw [← hs.1, ← hs.2 v.1]
  exact hb

theorem mem_getNeighborsPos (g : Grid) (r c : Nat) (p : Nat × Nat) :
    p ∈ getNeighborsPos g r c ↔
      p ∈ nbrPos g r c ∧ (cellAt g p.1 p.2).isVisited = false := by
  rw [getNeighborsPos_eq_filter, List.mem_filter]
  simp [Bool.not_eq_true]

theorem nbrPos_mem_allPos (g : Grid)
    (hrect : ∀ r, r < (g : List (List Cell)).length →
      ((g : List (List Cell)).getD r []).length =
      ((g : List (List Cell)).getD 0 []).length)
    (u : Nat × Nat) (hu : u ∈ getAllNodesPos g) (v : Nat × Nat)
    (hv : v ∈ nbrPos g u.1 u.2) : v ∈ getAllNodesPos g := by
  obtain ⟨hu1, hu2⟩ := (mem_getAllNodesPos g u).mp hu
  have hwid := hrect u.1 hu1
  rw [mem_getAllNodesPos]
  unfold nbrPos at hv
  simp only [List.mem_append] at hv
  rcases hv with ((h2 | h2) | h2) | h2 <;>
    obtain ⟨hg, he⟩ := mem_ite_singleton2 h2 <;> subst he
  · refine ⟨by show u.1 - 1 < _; omega, ?_⟩
    show u.2 < ((g : List (List Cell)).getD (u.1 - 1) []).length
    rw [hrect (u.1 - 1) (by omega)]
    omega
  · refine ⟨by show u.1 + 1 < _; omega, ?_⟩
    show u.2 < ((g : List (List Cell)).getD (u.1 + 1) []).length
    rw [hrect (u.1 + 1) (by omega)]
    omega
  · refine ⟨hu1, ?_⟩
    show u.2 - 1 < ((g : List (List Cell)).getD u.1 []).length
    omega
  · refine ⟨hu1, ?_⟩
    show u.2 + 1 < ((g : List (List Cell)).getD u.1 []).length
    omega

/-- A written neighbour keeps its written `distance` and `previousNode`
through the remainder of the relaxation fold. -/
theorem updateFold_keeps (r0 c0 d : Nat) : ∀ (ps : List (Nat × Nat))
    (g : Grid) (q : Nat × Nat),
    (∀ p ∈ ps, p ≠ (r0, c0)) →
    (cellAt g r0 c0).distance = some d →
    (cellAt g q.1 q.2).distance = some (d + 1) →
    (cellAt g q.1 q.2).previousNode = some (r0, c0) →
    (cellAt (ps.foldl (updateStep r0 c0) g) q.1 q.2).distance =
      some (d + 1) ∧
    (cellAt (ps.foldl (updateStep r0 c0) g) q.1 q.2).previousNode =
      some (r0, c0) := by
  intro ps
  induction ps with
  | nil => intro g q hne hd hq1 hq2; exact ⟨hq1, hq2⟩
  | cons p ps ih =>
    intro g q hne hd hq1 hq2
    rw [List.foldl_cons]
    have hpne : p ≠ (r0, c0) := hne p (List.mem_cons_self p ps)
    have hd2 : (cellAt (updateStep r0 c0 g p) r0 c0).distance = some d := by
      rw [cellAt_updateStep_center r0 c0 g p hpne]
      exact hd
    rcases cellAt_updateStep_cases r0 c0 d g p hd q.1 q.2 with
      h | ⟨h1, h2, _, _⟩
    · exact ih (updateStep r0 c0 g p) q
        (fun x hx => hne x (List.mem_cons_of_mem p hx)) hd2
        (by rw [h]; exact hq1) (by rw [h]; exact hq2)
    · exact ih (updateStep r0 c0 g p) q
        (fun x hx => hne x (List.mem_cons_of_mem p hx)) hd2 h2 h1

/-- Every relaxed neighbour ends the fold carrying the incremented
distance and the back-pointer to the centre. -/
theorem updateFold_written (r0 c0 d : Nat) : ∀ (ps : List (Nat × Nat))
    (g : Grid),
    (∀ p ∈ ps, p ≠ (r0, c0)) →
    (cellAt g r0 c0).distance = some d →
    (∀ p ∈ ps, p.1 < (g : List (List Cell)).length ∧
      p.2 < ((g : List (List Cell)).getD p.1 []).length) →
    ∀ p ∈ ps,
      (cellAt (ps.foldl (updateStep r0 c0) g) p.1 p.2).distance =
        some (d + 1) ∧
      (cellAt (ps.foldl (updateStep r0 c0) g) p.1 p.2).previousNode =
        some (r0, c0) := by
  intro ps
  induction ps with
  | nil => intro g _ _ _ p hp; exact absurd hp (List.not_mem_nil p)
  | cons q ps ih =>
    intro g hne hd hb p hp
    rw [List.foldl_cons]
    have hqne : q ≠ (r0, c0) := hne q (List.mem_cons_self q ps)
    have hd2 : (cellAt (updateStep r0 c0 g q) r0 c0).distance = some d := by
      rw [cellAt_updateStep_center r0 c0 g q hqne]
      exact hd
    have hsh : ShapeEq g (updateStep r0 c0 g q) :=
      shapeEq_setCell g q.1 q.2 _
    have hb2 : ∀ x ∈ ps,
        x.1 < ((updateStep r0 c0 g q : Grid) :
          List (List Cell)).length ∧
        x.2 < (((updateStep r0 c0 g q : Grid) :
          List (List Cell)).getD x.1 []).length := by
      intro x hx
      have hx2 := hb x (List.mem_cons_of_mem q hx)
      rw [hsh.1, hsh.2 x.1]
      exact hx2
    have hqb := hb q (List.mem_cons_self q ps)
    have hwr1 : (cellAt (updateStep r0 c0 g q) q.1 q.2).distance =
        some (d + 1) := by
      have hself := cellAt_setCell_self g q.1 q.2
        { cellAt g q.1 q.2 with
          distance := match (cellAt g r0 c0).distance with
                      | none => none
                      | some dd => some (dd + 1),
          previousNode := some (r0, c0) } hqb.1 hqb.2
      show (cellAt (setCell g q.1 q.2 _) q.1 q.2).distance = some (d + 1)
      rw [hself]
      show (match (cellAt g r0 c0).distance with
            | none => none
            | some dd => some (dd + 1)) = some (d + 1)
      rw [hd]
    have hwr2 : (cellAt (updateStep r0 c0 g q) q.1 q.2).previousNode =
        some (r0, c0) := by
      have hself := cellAt_setCell_self g q.1 q.2
        { cellAt g q.1 q.2 with
          distance := match (cellAt g r0 c0).distance with
                      | none => none
                      | some dd => some (dd + 1),
          previousNode := some (r0, c0) } hqb.1 hqb.2
      show (cellAt (setCell g q.1 q.2 _) q.1 q.2).previousNode =
        some (r0, c0)
      rw [hself]
    rcases List.mem_cons.mp hp with he | hm
    · subst he
      exact updateFold_keeps r0 c0 d ps (updateStep r0 c0 g p) p
        (fun x hx => hne x (List.mem_cons_of_mem p hx)) hd2 hwr1 hwr2
    · exact ih (updateStep r0 c0 g q)
        (fun x hx => hne x (List.mem_cons_of_mem q hx)) hd2 hb2 p hm

theorem cellAt_updateStep_ne (r0 c0 : Nat) (g : Grid) (p q : Nat × Nat)
    (h : ¬(q.1 = p.1 ∧ q.2 = p.2)) :
    cellAt (updateStep r0 c0 g p) q.1 q.2 = cellAt g q.1 q.2 :=
  cellAt_setCell_ne g p.1 p.2 _ q.1 q.2 h

theorem updateFold_center (r0 c0 : Nat) : ∀ (ps : List (Nat × Nat))
    (g : Grid), (∀ p ∈ ps, p ≠ (r0, c0)) →
    cellAt (ps.foldl (updateStep r0 c0) g) r0 c0 = cellAt g r0 c0 := by
  intro ps
  induction ps with
  | nil => intro g _; rfl
  | cons p ps ih =>
    intro g hne
    rw [List.foldl_cons]
    rw [ih (updateStep r0 c0 g p)
      (fun x hx => hne x (List.mem_cons_of_mem p hx))]
    exact cellAt_updateStep_center r0 c0 g p (hne p (List.mem_cons_self p ps))

theorem updateFold_outside (r0 c0 : Nat) : ∀ (ps : List (Nat × Nat))
    (g : Grid) (q : Nat × Nat), q ∉ ps →
    cellAt (ps.foldl (updateStep r0 c0) g) q.1 q.2 = cellAt g q.1 q.2 := by
  intro ps
  induction ps with
  | nil => intro g q _; rfl
  | cons p ps ih =>
    intro g q hq
    rw [List.foldl_cons]
    rw [ih (updateStep r0 c0 g p) q (fun hm => hq (List.mem_cons_of_mem p hm))]
    apply cellAt_updateStep_ne
    intro hqc
    apply hq
    have : q = p := by
      cases q; cases p
      simp only [Prod.mk.injEq]
      exact hqc
    rw [this]
    exact List.mem_cons_self p ps

theorem updateFold_isVisited (r0 c0 d : Nat) (ps : List (Nat × Nat))
    (g : Grid) (hne : ∀ p ∈ ps, p ≠ (r0, c0))
    (hd : (cellAt g r0 c0).distance = some d) (r c : Nat) :
    (cellAt (ps.foldl (updateStep r0 c0) g) r c).isVisited =
      (cellAt g r c).isVisited := by
  rcases updateFold_cellAt_cases r0 c0 d ps g hne hd r c with
    h | ⟨_, _, _, h4⟩
  · rw [h]
  · exact h4

theorem updateFold_type (r0 c0 d : Nat) (ps : List (Nat × Nat))
    (g : Grid) (hne : ∀ p ∈ ps, p ≠ (r0, c0))
    (hd : (cellAt g r0 c0).distance = some d) (r c : Nat) :
    (cellAt (ps.foldl (updateStep r0 c0) g) r c).type =
      (cellAt g r c).type := by
  rcases updateFold_cellAt_cases r0 c0 d ps g hne hd r c with
    h | ⟨_, _, h3, _⟩
  · rw [h]
  · exact h3

/-- The facts about the mutated grid that make the back-pointer walk from
a labelled cell take exactly `label` steps and stop at the start. -/
def WalkOK (s : Nat × Nat) (g : Grid) : Prop :=
  (∀ v u : Nat × Nat, (cellAt g v.1 v.2).previousNode = some u →
    ∃ ku, (cellAt g u.1 u.2).distance = some ku ∧
      (cellAt g v.1 v.2).distance = some (ku + 1)) ∧
  (cellAt g s.1 s.2).previousNode = none ∧
  (∀ v : Nat × Nat, (cellAt g v.1 v.2).distance = some 0 → v = s) ∧
  (∀ (v : Nat × Nat) (k : Nat),
    (cellAt g v.1 v.2).distance = some (k + 1) →
    (cellAt g v.1 v.2).previousNode ≠ none)

/-- The `dijkstra` loop invariant over the base grid `g0`, at current
frontier depth `d`. -/
structure DInv (g0 : Grid) (s : Nat × Nat) (g : Grid)
    (queue : List (Nat × Nat)) (d : Nat) : Prop where
  shape : ShapeEq g0 g
  types : ∀ r c, (cellAt g r c).type = (cellAt g0 r c).type
  qnd : queue.Nodup
  qmem : ∀ v ∈ queue, v ∈ getAllNodesPos g0
  qcomp : ∀ v ∈ getAllNodesPos g0, v ∉ queue →
    (cellAt g v.1 v.2).isVisited = true ∨
    (cellAt g0 v.1 v.2).type = CellType.wall
  qunvis : ∀ v ∈ queue, (cellAt g v.1 v.2).isVisited = false
  unvisC : ∀ (v : Nat × Nat) (k : Nat),
    (cellAt g0 v.1 v.2).type ≠ CellType.wall →
    (cellAt g v.1 v.2).isVisited = false →
    (cellAt g v.1 v.2).distance = some k →
    WDistP g0 s v k ∧ d ≤ k ∧ k ≤ d + 1
  visD : ∀ v : Nat × Nat, (cellAt g v.1 v.2).isVisited = true →
    (cellAt g0 v.1 v.2).type ≠ CellType.wall ∧
    ∃ k, (cellAt g v.1 v.2).distance = some k ∧ WDistP g0 s v k ∧ k ≤ d
  thresh : ∀ (v : Nat × Nat) (k : Nat),
    (cellAt g0 v.1 v.2).type ≠ CellType.wall → WDistP g0 s v k → k ≤ d →
    (cellAt g v.1 v.2).isVisited = true ∨
    (cellAt g v.1 v.2).distance = some k
  closed : ∀ u : Nat × Nat, (cellAt g u.1 u.2).isVisited = true →
    ∀ v ∈ nbrPos g0 u.1 u.2,
    (cellAt g0 v.1 v.2).type ≠ CellType.wall →
    ((cellAt g v.1 v.2).isVisited = true ∨
      (cellAt g v.1 v.2).distance ≠ none)
  hPrev : ∀ (v u : Nat × Nat), (cellAt g v.1 v.2).previousNode = some u →
    (cellAt g u.1 u.2).isVisited = true ∧
    ∃ ku, (cellAt g u.1 u.2).distance = some ku ∧
      (cellAt g v.1 v.2).distance = some (ku + 1)
  hStart : (cellAt g s.1 s.2).previousNode = none ∧
    (cellAt g s.1 s.2).distance = some 0
  dist0 : ∀ v : Nat × Nat, (cellAt g v.1 v.2).distance = some 0 → v = s
  distS : ∀ (v : Nat × Nat) (k : Nat),
    (cellAt g v.1 v.2).distance = some (k + 1) →
    (cellAt g v.1 v.2).previousNode ≠ none
  budget : d + queue.length ≤ (getAllNodesPos g0).length

theorem allPos_bounds (g0 g : Grid) (hs : ShapeEq g0 g) (v : Nat × Nat)
    (hv : v ∈ getAllNodesPos g0) :
    v.1 < (g : List (List Cell)).length ∧
    v.2 < ((g : List (List Cell)).getD v.1 []).length := by
  obtain ⟨h1, h2⟩ := (mem_getAllNodesPos g0 v).mp hv
  rw [hs.1, hs.2 v.1]
  exact ⟨h1, h2⟩

theorem labelled_mem (g0 g : Grid) (hs : ShapeEq g0 g) (v : Nat × Nat)
    (j : Nat) (hj : (cellAt g v.1 v.2).distance = some j) :
    v ∈ getAllNodesPos g0 := by
  by_contra hnm
  rw [cellAt_oob_shape g0 g hs v hnm] at hj
  cases hj

theorem pair_ne_comp {p : Nat × Nat} {a b : Nat} (h : p ≠ (a, b)) :
    ¬(p.1 = a ∧ p.2 = b) := by
  rintro ⟨h1, h2⟩
  apply h
  cases p
  simp only [Prod.mk.injEq]
  exact ⟨h1, h2⟩

/-- Walking the back-pointers from a cell labelled `k` produces exactly
`k + 1` nodes. -/
theorem shortestPathOrder_length (s : Nat × Nat) (g : Grid)
    (hwalk : WalkOK s g) :
    ∀ (k : Nat) (v : Nat × Nat) (fuel : Nat),
    (cellAt g v.1 v.2).distance = some k → k + 1 ≤ fuel →
    (shortestPathOrder fuel g v).length = k + 1 := by
  obtain ⟨hH, hsp, h0, hS⟩ := hwalk
  intro k
  induction k with
  | zero =>
    intro v fuel hv hf
    have hv2 := h0 v hv
    subst hv2
    cases fuel with
    | zero => omega
    | succ f =>
      rw [shortestPathOrder, hsp]
      rfl
  | succ k ih =>
    intro v fuel hv hf
    have hprevne := hS v k hv
    rcases hq : (cellAt g v.1 v.2).previousNode with _ | u
    · exact absurd hq hprevne
    · obtain ⟨ku, hku, hkv⟩ := hH v u hq
      have hkuk : ku = k := by
        rw [hv] at hkv
        injection hkv with h
        omega
      rw [hkuk] at hku
      cases fuel with
      | zero => omega
      | succ f =>
        rw [shortestPathOrder, hq]
        show (shortestPathOrder f g u ++ [v]).length = k + 1 + 1
        rw [List.length_append, ih u f hku (by omega)]
        rfl

theorem update_center (g : Grid) (r0 c0 : Nat) :
    cellAt (updateUnvisitedNeighbors g r0 c0) r0 c0 = cellAt g r0 c0 := by
  rw [updateUnvisitedNeighbors_eq_fold]
  exact updateFold_center r0 c0 _ g (getNeighborsPos_ne_center g r0 c0)

theorem update_outside (g : Grid) (r0 c0 : Nat) (q : Nat × Nat)
    (hq : q ∉ getNeighborsPos g r0 c0) :
    cellAt (updateUnvisitedNeighbors g r0 c0) q.1 q.2 =
      cellAt g q.1 q.2 := by
  rw [updateUnvisitedNeighbors_eq_fold]
  exact updateFold_outside r0 c0 _ g q hq

theorem update_written (g : Grid) (r0 c0 d : Nat)
    (hd : (cellAt g r0 c0).distance = some d)
    (hb : ∀ p ∈ getNeighborsPos g r0 c0,
      p.1 < (g : List (List Cell)).length ∧
      p.2 < ((g : List (List Cell)).getD p.1 []).length) :
    ∀ p ∈ getNeighborsPos g r0 c0,
      (cellAt (updateUnvisitedNeighbors g r0 c0) p.1 p.2).distance =
        some (d + 1) ∧
      (cellAt (updateUnvisitedNeighbors g r0 c0) p.1 p.2).previousNode =
        some (r0, c0) := by
  rw [updateUnvisitedNeighbors_eq_fold]
  exact updateFold_written r0 c0 d _ g (getNeighborsPos_ne_center g r0 c0)
    hd hb

theorem update_isVisited (g : Grid) (r0 c0 d : Nat)
    (hd : (cellAt g r0 c0).distance = some d) (r c : Nat) :
    (cellAt (updateUnvisitedNeighbors g r0 c0) r c).isVisited =
      (cellAt g r c).isVisited := by
  rcases update_cellAt_cases g r0 c0 d hd r c with h | ⟨_, _, _, h⟩
  · rw [h]
  · exact h

theorem update_type (g : Grid) (r0 c0 d : Nat)
    (hd : (cellAt g r0 c0).distance = some d) (r c : Nat) :
    (cellAt (updateUnvisitedNeighbors g r0 c0) r c).type =
      (cellAt g r c).type := by
  rcases update_cellAt_cases g r0 c0 d hd r c with h | ⟨_, _, h, _⟩
  · rw [h]
  · exact h

/-- One relax-and-recurse iteration of the `dijkstra` loop: popping the
closest finite-distance non-wall node re-establishes the invariant at the
popped node's (exact) distance. -/
theorem dijkstra_step_DInv (g0 : Grid) (s : Nat × Nat)
    (hrect : ∀ r, r < (g0 : List (List Cell)).length →
      ((g0 : List (List Cell)).getD r []).length =
      ((g0 : List (List Cell)).getD 0 []).length)
    (hsm : s ∈ getAllNodesPos g0)
    (hsw : (cellAt g0 s.1 s.2).type ≠ CellType.wall)
    (g : Grid) (queue : List (Nat × Nat)) (d : Nat)
    (hinv : DInv g0 s g queue d)
    (closest : Nat × Nat) (rest : List (Nat × Nat))
    (hpermC : (closest :: rest).Perm queue)
    (hrel : ∀ x ∈ rest, distLEb g closest x = true)
    (hwall : ¬(cellAt g closest.1 closest.2).type = CellType.wall)
    (k : Nat) (hk : (cellAt g closest.1 closest.2).distance = some k) :
    DInv g0 s
      (updateUnvisitedNeighbors
        (setCell g closest.1 closest.2
          { cellAt g closest.1 closest.2 with isVisited := true })
        closest.1 closest.2)
      rest k ∧
    WDistP g0 s closest k ∧ d ≤ k := by
  have hclosq : closest ∈ queue :=
    hpermC.subset (List.mem_cons_self closest rest)
  have hclosAll := hinv.qmem closest hclosq
  have hclw0 : (cellAt g0 closest.1 closest.2).type ≠ CellType.wall := by
    rw [← hinv.types closest.1 closest.2]
    exact hwall
  have hclunvis := hinv.qunvis closest hclosq
  have hkf := hinv.unvisC closest k hclw0 hclunvis hk
  have hcb := allPos_bounds g0 g hinv.shape closest hclosAll
  have hmin : ∀ x ∈ rest, ∀ j, (cellAt g x.1 x.2).distance = some j →
      k ≤ j := by
    intro x hx j hj
    have hr := hrel x hx
    unfold distLEb at hr
    rw [hk, hj] at hr
    exact of_decide_eq_true hr
  have hndCR : (closest :: rest).Nodup := hpermC.nodup_iff.mpr hinv.qnd
  have hclnotrest : closest ∉ rest := (List.nodup_cons.mp hndCR).1
  have hrestnd := (List.nodup_cons.mp hndCR).2
  set g1 := setCell g closest.1 closest.2
    { cellAt g closest.1 closest.2 with isVisited := true } with hg1def
  have hg1eqO : ∀ r c, ¬(r = closest.1 ∧ c = closest.2) →
      cellAt g1 r c = cellAt g r c := fun r c h =>
    cellAt_setCell_ne g closest.1 closest.2 _ r c h
  have hg1self : cellAt g1 closest.1 closest.2 =
      { cellAt g closest.1 closest.2 with isVisited := true } :=
    cellAt_setCell_self g closest.1 closest.2 _ hcb.1 hcb.2
  have hg1dist : ∀ r c, (cellAt g1 r c).distance =
      (cellAt g r c).distance := by
    intro r c
    by_cases hrc : r = closest.1 ∧ c = closest.2
    · obtain ⟨h1, h2⟩ := hrc
      subst h1
      subst h2
      rw [hg1self]
    · rw [hg1eqO r c hrc]
  have hg1prev : ∀ r c, (cellAt g1 r c).previousNode =
      (cellAt g r c).previousNode := by
    intro r c
    by_cases hrc : r = closest.1 ∧ c = closest.2
    · obtain ⟨h1, h2⟩ := hrc
      subst h1
      subst h2
      rw [hg1self]
    · rw [hg1eqO r c hrc]
  have hg1type : ∀ r c, (cellAt g1 r c).type = (cellAt g r c).type := by
    intro r c
    by_cases hrc : r = closest.1 ∧ c = closest.2
    · obtain ⟨h1, h2⟩ := hrc
      subst h1
      subst h2
      rw [hg1self]
    · rw [hg1eqO r c hrc]
  have hg1visC : (cellAt g1 closest.1 closest.2).isVisited = true := by
    rw [hg1self]
  have hg1visO : ∀ r c, ¬(r = closest.1 ∧ c = closest.2) →
      (cellAt g1 r c).isVisited = (cellAt g r c).isVisited := fun r c h => by
    rw [hg1eqO r c h]
  have hsh1 : ShapeEq g0 g1 :=
    shapeEq_trans hinv.shape (shapeEq_setCell g closest.1 closest.2 _)
  have hd1 : (cellAt g1 closest.1 closest.2).distance = some k := by
    rw [hg1dist]
    exact hk
  have hTn := getNeighborsPos_ne_center g1 closest.1 closest.2
  have hTnb : ∀ p ∈ getNeighborsPos g1 closest.1 closest.2,
      p ∈ nbrPos g0 closest.1 closest.2 ∧
      (cellAt g1 p.1 p.2).isVisited = false := by
    intro p hp
    have h := (mem_getNeighborsPos g1 closest.1 closest.2 p).mp hp
    rw [nbrPos_shape g0 g1 hsh1] at h
    exact h
  have hTne : ∀ p ∈ getNeighborsPos g1 closest.1 closest.2,
      p ≠ closest := by
    intro p hp he
    exact absurd he (hTn p hp)
  have hTall : ∀ p ∈ getNeighborsPos g1 closest.1 closest.2,
      p ∈ getAllNodesPos g0 := fun p hp =>
    nbrPos_mem_allPos g0 hrect closest hclosAll p (hTnb p hp).1
  have hTb : ∀ p ∈ getNeighborsPos g1 closest.1 closest.2,
      p.1 < (g1 : List (List Cell)).length ∧
      p.2 < ((g1 : List (List Cell)).getD p.1 []).length := fun p hp =>
    allPos_bounds g0 g1 hsh1 p (hTall p hp)
  have hTunvisG : ∀ p ∈ getNeighborsPos g1 closest.1 closest.2,
      (cellAt g p.1 p.2).isVisited = false := by
    intro p hp
    have h2 := (hTnb p hp).2
    rw [hg1visO p.1 p.2 (pair_ne_comp (hTne p hp))] at h2
    exact h2
  have hkd1 : k ≤ d + 1 := hkf.2.2
  have hthreshK : ∀ (v : Nat × Nat) (k2 : Nat),
      (cellAt g0 v.1 v.2).type ≠ CellType.wall → WDistP g0 s v k2 →
      k2 ≤ k →
      (cellAt g v.1 v.2).isVisited = true ∨
      (cellAt g v.1 v.2).distance = some k2 := by
    intro v k2 hvw hvd hk2
    by_cases hk2d : k2 ≤ d
    · exact hinv.thresh v k2 hvw hvd hk2d
    · have hkd : k = d + 1 := by omega
      have hk2e : k2 = d + 1 := by omega
      subst hk2e
      obtain ⟨u, hum, hup, hunb, hvnw2⟩ := (wP_succ_iff g0 d s v).mp hvd.1
      have huw : (cellAt g0 u.1 u.2).type ≠ CellType.wall := by
        cases d with
        | zero =>
          rw [wP_zero_iff] at hup
          rw [hup]
          exact hsw
        | succ dd => exact wP_target_nonwall g0 dd s u hup
      obtain ⟨du, hdu⟩ := wdist_exists g0 s u ⟨d, hup⟩
      have hdud : du ≤ d := hdu.2 d hup
      by_cases huv : (cellAt g u.1 u.2).isVisited = true
      · rcases hinv.closed u huv v hunb hvnw2 with h | h
        · exact Or.inl h
        · by_cases hvv : (cellAt g v.1 v.2).isVisited = true
          · exact Or.inl hvv
          · rcases hcase : (cellAt g v.1 v.2).distance with _ | j
            · exact absurd hcase h
            · right
              rw [Bool.not_eq_true] at hvv
              have hexact := hinv.unvisC v j hvw hvv hcase
              have hje : j = d + 1 :=
                wdist_unique g0 s v j (d + 1) hexact.1 hvd
              rw [hje]
      · rcases hinv.thresh u du huw hdu hdud with h | hulab
        · exact absurd h huv
        · exfalso
          have humem2 := labelled_mem g0 g hinv.shape u du hulab
          have huq : u ∈ queue := by
            by_contra hnq
            rcases hinv.qcomp u humem2 hnq with h | h
            · exact huv h
            · exact huw h
          rcases List.mem_cons.mp (hpermC.mem_iff.mpr huq) with he | hm
          · rw [he, hk] at hulab
            injection hulab with hh
            omega
          · have := hmin u hm du hulab
            omega
  have hExact : ∀ p ∈ getNeighborsPos g1 closest.1 closest.2,
      (cellAt g0 p.1 p.2).type ≠ CellType.wall →
      WDistP g0 s p (k + 1) := by
    intro p hp hpw
    have hpnb := (hTnb p hp).1
    have hpneC := hTne p hp
    have hpunvG := hTunvisG p hp
    have hsound : wP g0 (k + 1) s p = true :=
      wP_step g0 k s closest p hkf.1.1 hclosAll hpnb hpw
    obtain ⟨dp, hdp⟩ := wdist_exists g0 s p ⟨k + 1, hsound⟩
    have hdple : dp ≤ k + 1 := hdp.2 _ hsound
    by_cases hdpk : dp ≤ k
    · exfalso
      rcases hthreshK p dp hpw hdp hdpk with h | h
      · rw [h] at hpunvG
        exact Bool.noConfusion hpunvG
      · have hpq : p ∈ queue := by
          by_contra hnq
          rcases hinv.qcomp p (hTall p hp) hnq with hh | hh
          · rw [hh] at hpunvG
            exact Bool.noConfusion hpunvG
          · exact hpw hh
        rcases List.mem_cons.mp (hpermC.mem_iff.mpr hpq) with he | hm
        · exact hpneC he
        · have := hmin p hm dp h
          have hdpk2 : dp = k := by omega
          exact wdist_eq_not_nbr g0 s closest p k hkf.1
            (hdpk2 ▸ hdp) hpnb
    · have hdpe : dp = k + 1 := by omega
      exact hdpe ▸ hdp
  set g2 := updateUnvisitedNeighbors g1 closest.1 closest.2 with hg2def
  have hvis2 : ∀ r c, (cellAt g2 r c).isVisited =
      (cellAt g1 r c).isVisited :=
    update_isVisited g1 closest.1 closest.2 k hd1
  have hty2 : ∀ r c, (cellAt g2 r c).type = (cellAt g1 r c).type :=
    update_type g1 closest.1 closest.2 k hd1
  have hcen2 : cellAt g2 closest.1 closest.2 =
      cellAt g1 closest.1 closest.2 :=
    update_center g1 closest.1 closest.2
  have hout2 : ∀ q : Nat × Nat,
      q ∉ getNeighborsPos g1 closest.1 closest.2 →
      cellAt g2 q.1 q.2 = cellAt g1 q.1 q.2 := fun q hq =>
    update_outside g1 closest.1 closest.2 q hq
  have hwr2 := update_written g1 closest.1 closest.2 k hd1 hTb
  have hcases2 := update_cellAt_cases g1 closest.1 closest.2 k hd1
  have hdistNT : ∀ q : Nat × Nat,
      q ∉ getNeighborsPos g1 closest.1 closest.2 →
      (cellAt g2 q.1 q.2).distance = (cellAt g q.1 q.2).distance := by
    intro q hq
    rw [hout2 q hq]
    exact hg1dist q.1 q.2
  have hprevNT : ∀ q : Nat × Nat,
      q ∉ getNeighborsPos g1 closest.1 closest.2 →
      (cellAt g2 q.1 q.2).previousNode =
        (cellAt g q.1 q.2).previousNode := by
    intro q hq
    rw [hout2 q hq]
    exact hg1prev q.1 q.2
  have hvisG : ∀ v : Nat × Nat, v ≠ closest →
      (cellAt g2 v.1 v.2).isVisited = (cellAt g v.1 v.2).isVisited := by
    intro v hv
    rw [hvis2 v.1 v.2]
    exact hg1visO v.1 v.2 (pair_ne_comp hv)
  have hvisC2 : (cellAt g2 closest.1 closest.2).isVisited = true := by
    rw [hvis2 closest.1 closest.2]
    exact hg1visC
  have hdistC2 : (cellAt g2 closest.1 closest.2).distance = some k := by
    rw [hcen2]
    exact hd1
  have hclNT : closest ∉ getNeighborsPos g1 closest.1 closest.2 := by
    intro hmem
    exact hTne closest hmem rfl
  have hql : rest.length + 1 = queue.length := by
    have := hpermC.length_eq
    rw [List.length_cons] at this
    exact this
  have hsnotT : s ∉ getNeighborsPos g1 closest.1 closest.2 := by
    intro hmem
    have hsunv := hTunvisG s hmem
    have hsq : s ∈ queue := by
      by_contra hnq
      rcases hinv.qcomp s hsm hnq with h | h
      · rw [h] at hsunv
        exact Bool.noConfusion hsunv
      · exact hsw h
    rcases List.mem_cons.mp (hpermC.mem_iff.mpr hsq) with he | hm
    · exact hTne s hmem he
    · have := hmin s hm 0 hinv.hStart.2
      have hk0 : k = 0 := by omega
      have : closest = s := by
        have hw0 := hkf.1
        rw [hk0] at hw0
        have := (wP_zero_iff g0 s closest).mp hw0.1
        exact this
      exact hTne s hmem (by rw [this])
  refine ⟨⟨?_, ?_, ?_, ?_, ?_, ?_, ?_, ?_, ?_, ?_, ?_, ?_, ?_, ?_, ?_⟩,
    hkf.1, hkf.2.1⟩
  · exact shapeEq_trans hsh1
      (shapeEq_updateUnvisited g1 closest.1 closest.2)
  · intro r c
    rw [hty2 r c, hg1type r c]
    exact hinv.types r c
  · exact hrestnd
  · intro v hv
    exact hinv.qmem v (hpermC.subset (List.mem_cons_of_mem closest hv))
  · intro v hvall hvq
    by_cases hvc : v = closest
    · rw [hvc]
      exact Or.inl hvisC2
    · have hvq2 : v ∉ queue := by
        intro hq
        rcases List.mem_cons.mp (hpermC.mem_iff.mpr hq) with he | hm
        · exact hvc he
        · exact hvq hm
      rcases hinv.qcomp v hvall hvq2 with h | h
      · left
        rw [hvisG v hvc]
        exact h
      · exact Or.inr h
  · intro v hv
    have hvc : v ≠ closest := fun he => hclnotrest (he ▸ hv)
    rw [hvisG v hvc]
    exact hinv.qunvis v (hpermC.subset (List.mem_cons_of_mem closest hv))
  · intro v j hvw hvunv hvd
    have hvc : v ≠ closest := by
      intro he
      rw [he] at hvunv
      rw [hvisC2] at hvunv
      exact Bool.noConfusion hvunv
    by_cases hvT : v ∈ getNeighborsPos g1 closest.1 closest.2
    · have hw := (hwr2 v hvT).1
      rw [hvd] at hw
      injection hw with hj
      refine ⟨?_, by omega, by omega⟩
      rw [hj]
      exact hExact v hvT hvw
    · rw [hdistNT v hvT] at hvd
      have hvunvG : (cellAt g v.1 v.2).isVisited = false := by
        rw [← hvisG v hvc]
        exact hvunv
      have hold := hinv.unvisC v j hvw hvunvG hvd
      have hvq : v ∈ queue := by
        by_contra hnq
        rcases hinv.qcomp v (labelled_mem g0 g hinv.shape v j hvd) hnq with
          h | h
        · rw [h] at hvunvG
          exact Bool.noConfusion hvunvG
        · exact hvw h
      rcases List.mem_cons.mp (hpermC.mem_iff.mpr hvq) with he | hm
      · exact absurd he hvc
      · have := hmin v hm j hvd
        exact ⟨hold.1, by omega, by omega⟩
  · intro v hvvis
    by_cases hvc : v = closest
    · subst hvc
      exact ⟨hclw0, k, hdistC2, hkf.1, Nat.le_refl k⟩
    · rw [hvisG v hvc] at hvvis
      obtain ⟨hw, j, hj, hjd, hjle⟩ := hinv.visD v hvvis
      refine ⟨hw, j, ?_, hjd, by omega⟩
      have hvT : v ∉ getNeighborsPos g1 closest.1 closest.2 := by
        intro hmem
        have := hTunvisG v hmem
        rw [hvvis] at this
        exact Bool.noConfusion this
      rw [hdistNT v hvT]
      exact hj
  · intro v k2 hvw hvd hk2
    rcases hthreshK v k2 hvw hvd hk2 with h | h
    · by_cases hvc : v = closest
      · rw [hvc]
        exact Or.inl hvisC2
      · left
        rw [hvisG v hvc]
        exact h
    · by_cases hvc : v = closest
      · rw [hvc]
        exact Or.inl hvisC2
      · by_cases hvT : v ∈ getNeighborsPos g1 closest.1 closest.2
        · exfalso
          have hvunvG := hTunvisG v hvT
          have hvq : v ∈ queue := by
            by_contra hnq
            rcases hinv.qcomp v (hTall v hvT) hnq with hh | hh
            · rw [hh] at hvunvG
              exact Bool.noConfusion hvunvG
            · exact hvw hh
          rcases List.mem_cons.mp (hpermC.mem_iff.mpr hvq) with he | hm
          · exact hvc he
          · have := hmin v hm k2 h
            have hk2e : k2 = k := by omega
            exact wdist_eq_not_nbr g0 s closest v k hkf.1
              (hk2e ▸ hvd) (hTnb v hvT).1
        · right
          rw [hdistNT v hvT]
          exact h
  · intro u huvis v hvnb hvw
    by_cases huc : u = closest
    · subst huc
      by_cases hvvis1 : (cellAt g1 v.1 v.2).isVisited = true
      · left
        rw [hvis2 v.1 v.2]
        exact hvvis1
      · have hvT : v ∈ getNeighborsPos g1 u.1 u.2 := by
          rw [mem_getNeighborsPos, nbrPos_shape g0 g1 hsh1]
          rw [Bool.not_eq_true] at hvvis1
          exact ⟨hvnb, hvvis1⟩
        right
        rw [(hwr2 v hvT).1]
        intro hc
        cases hc
    · rw [hvisG u huc] at huvis
      rcases hinv.closed u huvis v hvnb hvw with h | h
      · by_cases hvc : v = closest
        · rw [hvc]
          exact Or.inl hvisC2
        · left
          rw [hvisG v hvc]
          exact h
      · right
        by_cases hvT : v ∈ getNeighborsPos g1 closest.1 closest.2
        · rw [(hwr2 v hvT).1]
          intro hc
          cases hc
        · rw [hdistNT v hvT]
          exact h
  · intro v u hprev
    by_cases hvT : v ∈ getNeighborsPos g1 closest.1 closest.2
    · have hw := hwr2 v hvT
      have hu : some u = some (closest.1, closest.2) := by
        rw [← hprev]
        exact hw.2
      injection hu with hu2
      subst hu2
      exact ⟨hvisC2, k, hdistC2, hw.1⟩
    · rw [hprevNT v hvT] at hprev
      obtain ⟨huvis, ku, hku, hkv⟩ := hinv.hPrev v u hprev
      have huc : u ≠ closest := by
        intro he
        rw [he] at huvis
        rw [hclunvis] at huvis
        exact Bool.noConfusion huvis
      have huT : u ∉ getNeighborsPos g1 closest.1 closest.2 := by
        intro hmem
        have := hTunvisG u hmem
        rw [huvis] at this
        exact Bool.noConfusion this
      refine ⟨?_, ku, ?_, ?_⟩
      · rw [hvisG u huc]
        exact huvis
      · rw [hdistNT u huT]
        exact hku
      · rw [hdistNT v hvT]
        exact hkv
  · constructor
    · rw [hprevNT s hsnotT]
      exact hinv.hStart.1
    · rw [hdistNT s hsnotT]
      exact hinv.hStart.2
  · intro v hv
    by_cases hvT : v ∈ getNeighborsPos g1 closest.1 closest.2
    · rw [(hwr2 v hvT).1] at hv
      injection hv with hc
      exact absurd hc (Nat.succ_ne_zero k)
    · rw [hdistNT v hvT] at hv
      exact hinv.dist0 v hv
  · intro v j hv
    by_cases hvT : v ∈ getNeighborsPos g1 closest.1 closest.2
    · rw [(hwr2 v hvT).2]
      intro hc
      cases hc
    · rw [hdistNT v hvT] at hv
      rw [hprevNT v hvT]
      exact hinv.distS v j hv
  · have hb := hinv.budget
    omega

/-- The `dijkstra` loop, started in an invariant state with the end cell
still queued and reachable at distance `D`: it terminates by visiting the
end cell, whose label is then exactly `D`, and leaves a grid whose
back-pointer chains step down by one distance unit until the start. -/
theorem dijkstraLoop_correct (g0 : Grid) (s e : Nat × Nat) (D : Nat)
    (hrect : ∀ r, r < (g0 : List (List Cell)).length →
      ((g0 : List (List Cell)).getD r []).length =
      ((g0 : List (List Cell)).getD 0 []).length)
    (hsm : s ∈ getAllNodesPos g0)
    (hsw : (cellAt g0 s.1 s.2).type ≠ CellType.wall)
    (hew : (cellAt g0 e.1 e.2).type ≠ CellType.wall)
    (hD : WDistP g0 s e D) :
    ∀ (fuel : Nat) (g : Grid) (queue : List (Nat × Nat)) (d : Nat)
      (vis : List (Nat × Nat)),
    DInv g0 s g queue d → fuel = queue.length → e ∈ queue →
    (cellAt (dijkstraLoop fuel g e queue vis).1 e.1 e.2).distance =
      some D ∧
    WalkOK s (dijkstraLoop fuel g e queue vis).1 ∧
    ShapeEq g0 (dijkstraLoop fuel g e queue vis).1 ∧
    D ≤ (getAllNodesPos g0).length := by
  intro fuel
  induction fuel with
  | zero =>
    intro g queue d vis hinv hfuel hemem
    rw [List.length_eq_zero.mp hfuel.symm] at hemem
    cases hemem
  | succ fuel ih =>
    intro g queue d vis hinv hfuel hemem
    have hperm := sortNodesByDistance_perm g queue
    have hsorted := sortNodesByDistance_sorted g queue
    rw [dijkstraLoop]
    cases hs2 : sortNodesByDistance g queue with
    | nil =>
      exfalso
      have h := hperm.mem_iff.mpr hemem
      rw [hs2] at h
      cases h
    | cons closest rest =>
      rw [hs2] at hsorted
      have hpermC : (closest :: rest).Perm queue := hs2 ▸ hperm
      have hrel : ∀ x ∈ rest, distLEb g closest x = true :=
        List.rel_of_sorted_cons hsorted
      have hclosq : closest ∈ queue :=
        hpermC.subset (List.mem_cons_self closest rest)
      have hql : rest.length + 1 = queue.length := by
        have := hpermC.length_eq
        rw [List.length_cons] at this
        exact this
      dsimp only
      by_cases hwall : (cellAt g closest.1 closest.2).type = CellType.wall
      · rw [if_pos hwall]
        have hce : e ≠ closest := by
          intro he
          apply hew
          rw [he, ← hinv.types closest.1 closest.2]
          exact hwall
        have hemem2 : e ∈ rest := by
          rcases List.mem_cons.mp (hpermC.mem_iff.mpr hemem) with h | h
          · exact absurd h hce
          · exact h
        have hinv2 : DInv g0 s g rest d := by
          refine ⟨hinv.shape, hinv.types,
            (List.nodup_cons.mp (hpermC.nodup_iff.mpr hinv.qnd)).2,
            ?_, ?_, ?_, hinv.unvisC, hinv.visD, hinv.thresh, hinv.closed,
            hinv.hPrev, hinv.hStart, hinv.dist0, hinv.distS, ?_⟩
          · intro v hv
            exact hinv.qmem v
              (hpermC.subset (List.mem_cons_of_mem closest hv))
          · intro v hvall hvq
            by_cases hvc : v = closest
            · right
              rw [hvc, ← hinv.types closest.1 closest.2]
              exact hwall
            · have hvq2 : v ∉ queue := by
                intro hq
                rcases List.mem_cons.mp (hpermC.mem_iff.mpr hq) with h | h
                · exact hvc h
                · exact hvq h
              exact hinv.qcomp v hvall hvq2
          · intro v hv
            exact hinv.qunvis v
              (hpermC.subset (List.mem_cons_of_mem closest hv))
          · have := hinv.budget
            omega
        exact ih g rest d vis hinv2 (by omega) hemem2
      · rw [if_neg hwall]
        by_cases hinf : (cellAt g closest.1 closest.2).distance = none
        · rw [if_pos hinf]
          dsimp only
          exfalso
          have hallnone : ∀ x ∈ queue,
              (cellAt g x.1 x.2).distance = none := by
            intro x hx
            rcases List.mem_cons.mp (hpermC.mem_iff.mpr hx) with h | h
            · rw [h]
              exact hinf
            · exact distLEb_none g closest x hinf (hrel x h)
          have hreachvis : ∀ (n : Nat) (v : Nat × Nat),
              wP g0 n s v = true →
              (cellAt g0 v.1 v.2).type ≠ CellType.wall →
              (cellAt g v.1 v.2).isVisited = true := by
            intro n
            induction n with
            | zero =>
              intro v hv hw
              rw [wP_zero_iff] at hv
              subst hv
              by_contra hnv
              have hsq : v ∈ queue := by
                by_contra hnq
                rcases hinv.qcomp v hsm hnq with h | h
                · exact hnv h
                · exact hsw h
              have h0 := hallnone v hsq
              rw [hinv.hStart.2] at h0
              cases h0
            | succ n ihn =>
              intro v hv hw
              obtain ⟨u, hum, hup, hunb, hvnw⟩ :=
                (wP_succ_iff g0 n s v).mp hv
              have huw : (cellAt g0 u.1 u.2).type ≠ CellType.wall := by
                cases n with
                | zero =>
                  rw [wP_zero_iff] at hup
                  rw [hup]
                  exact hsw
                | succ nn => exact wP_target_nonwall g0 nn s u hup
              have huvis := ihn u hup huw
              by_contra hnv
              have hvm : v ∈ getAllNodesPos g0 :=
                wP_target_mem g0 hrect (n + 1) s v hv hsm
              have hvq : v ∈ queue := by
                by_contra hnq
                rcases hinv.qcomp v hvm hnq with h | h
                · exact hnv h
                · exact hvnw h
              have hnone := hallnone v hvq
              rcases hinv.closed u huvis v hunb hvnw with h | h
              · exact hnv h
              · exact h hnone
          have hevis := hreachvis D e hD.1 hew
          have heunv := hinv.qunvis e hemem
          rw [hevis] at heunv
          exact Bool.noConfusion heunv
        · rw [if_neg hinf]
          obtain ⟨k, hk⟩ : ∃ k,
              (cellAt g closest.1 closest.2).distance = some k := by
            rcases hx : (cellAt g closest.1 closest.2).distance with _ | k
            · exact absurd hx hinf
            · exact ⟨k, rfl⟩
          by_cases hce : closest = e
          · rw [if_pos hce]
            dsimp only
            have hclw0 : (cellAt g0 closest.1 closest.2).type ≠
                CellType.wall := by
              rw [← hinv.types closest.1 closest.2]
              exact hwall
            have hclunvis := hinv.qunvis closest hclosq
            have hkf := hinv.unvisC closest k hclw0 hclunvis hk
            have hDk : D = k :=
              wdist_unique g0 s e D k hD (hce ▸ hkf.1)
            have hcb := allPos_bounds g0 g hinv.shape closest
              (hinv.qmem closest hclosq)
            have hg1eqO : ∀ r c, ¬(r = closest.1 ∧ c = closest.2) →
                cellAt (setCell g closest.1 closest.2
                  { cellAt g closest.1 closest.2 with isVisited := true })
                  r c = cellAt g r c := fun r c h =>
              cellAt_setCell_ne g closest.1 closest.2 _ r c h
            have hg1self : cellAt (setCell g closest.1 closest.2
                { cellAt g closest.1 closest.2 with isVisited := true })
                closest.1 closest.2 =
                { cellAt g closest.1 closest.2 with isVisited := true } :=
              cellAt_setCell_self g closest.1 closest.2 _ hcb.1 hcb.2
            have hg1dist : ∀ r c, (cellAt (setCell g closest.1 closest.2
                { cellAt g closest.1 closest.2 with isVisited := true })
                r c).distance = (cellAt g r c).distance := by
              intro r c
              by_cases hrc : r = closest.1 ∧ c = closest.2
              · obtain ⟨h1, h2⟩ := hrc
                subst h1
                subst h2
                rw [hg1self]
              · rw [hg1eqO r c hrc]
            have hg1prev : ∀ r c, (cellAt (setCell g closest.1 closest.2
                { cellAt g closest.1 closest.2 with isVisited := true })
                r c).previousNode = (cellAt g r c).previousNode := by
              intro r c
              by_cases hrc : r = closest.1 ∧ c = closest.2
              · obtain ⟨h1, h2⟩ := hrc
                subst h1
                subst h2
                rw [hg1self]
              · rw [hg1eqO r c hrc]
            have hqlen : 0 < queue.length := by
              cases hqn : queue with
              | nil =>
                rw [hqn] at hemem
                cases hemem
              | cons a l => simp
            refine ⟨?_, ⟨?_, ?_, ?_, ?_⟩, ?_, ?_⟩
            · rw [hg1dist e.1 e.2]
              rw [hce] at hk
              rw [hDk]
              exact hk
            · intro v u hprev
              rw [hg1prev v.1 v.2] at hprev
              obtain ⟨_, ku, h1, h2⟩ := hinv.hPrev v u hprev
              exact ⟨ku, by rw [hg1dist u.1 u.2]; exact h1,
                by rw [hg1dist v.1 v.2]; exact h2⟩
            · rw [hg1prev s.1 s.2]
              exact hinv.hStart.1
            · intro v hv
              rw [hg1dist v.1 v.2] at hv
              exact hinv.dist0 v hv
            · intro v j hv
              rw [hg1dist v.1 v.2] at hv
              rw [hg1prev v.1 v.2]
              exact hinv.distS v j hv
            · exact shapeEq_trans hinv.shape
                (shapeEq_setCell g closest.1 closest.2 _)
            · have := hinv.budget
              omega
          · rw [if_neg hce]
            obtain ⟨hinv2, hwd, hdk⟩ := dijkstra_step_DInv g0 s hrect hsm
              hsw g queue d hinv closest rest hpermC hrel hwall k hk
            have hemem2 : e ∈ rest := by
              rcases List.mem_cons.mp (hpermC.mem_iff.mpr hemem) with h | h
              · exact absurd h.symm hce
              · exact h
            exact ih _ rest k (vis ++ [closest]) hinv2 (by omega) hemem2

theorem pair_eq_comp {p : Nat × Nat} {a b : Nat} (h1 : p.1 = a)
    (h2 : p.2 = b) : p = (a, b) := by
  cases p
  simp only [Prod.mk.injEq]
  exact ⟨h1, h2⟩

/-- On a fresh rectangular grid whose reachable end cell is at
wall-avoiding distance `D`, the `dijkstra` recorder's derived shortest
path has exactly `D + 1` nodes. -/
theorem dijkstra_path_length (g : Grid) (s e : Nat × Nat) (D : Nat)
    (hfresh : ∀ r c, (cellAt g r c).distance = none ∧
      (cellAt g r c).isVisited = false ∧
      (cellAt g r c).previousNode = none)
    (hrect : ∀ r, r < (g : List (List Cell)).length →
      ((g : List (List Cell)).getD r []).length =
      ((g : List (List Cell)).getD 0 []).length)
    (hsm : s ∈ getAllNodesPos g)
    (hem : e ∈ getAllNodesPos g)
    (hsw : (cellAt g s.1 s.2).type ≠ CellType.wall)
    (hew : (cellAt g e.1 e.2).type ≠ CellType.wall)
    (hD : WDistP g s e D) :
    (getNodesInShortestPathOrder (dijkstra g s e).1 e).length = D + 1 := by
  have hscb := allPos_bounds g g (shapeEq_refl g) s hsm
  have hg0eqO : ∀ r c, ¬(r = s.1 ∧ c = s.2) →
      cellAt (setCell g s.1 s.2
        { cellAt g s.1 s.2 with distance := some 0 }) r c =
      cellAt g r c := fun r c h =>
    cellAt_setCell_ne g s.1 s.2 _ r c h
  have hg0self : cellAt (setCell g s.1 s.2
      { cellAt g s.1 s.2 with distance := some 0 }) s.1 s.2 =
      { cellAt g s.1 s.2 with distance := some 0 } :=
    cellAt_setCell_self g s.1 s.2 _ hscb.1 hscb.2
  have hg0type : ∀ r c, (cellAt (setCell g s.1 s.2
      { cellAt g s.1 s.2 with distance := some 0 }) r c).type =
      (cellAt g r c).type := by
    intro r c
    by_cases hrc : r = s.1 ∧ c = s.2
    · obtain ⟨h1, h2⟩ := hrc
      subst h1
      subst h2
      rw [hg0self]
    · rw [hg0eqO r c hrc]
  have hg0vis : ∀ r c, (cellAt (setCell g s.1 s.2
      { cellAt g s.1 s.2 with distance := some 0 }) r c).isVisited =
      (cellAt g r c).isVisited := by
    intro r c
    by_cases hrc : r = s.1 ∧ c = s.2
    · obtain ⟨h1, h2⟩ := hrc
      subst h1
      subst h2
      rw [hg0self]
    · rw [hg0eqO r c hrc]
  have hg0prev : ∀ r c, (cellAt (setCell g s.1 s.2
      { cellAt g s.1 s.2 with distance := some 0 }) r c).previousNode =
      (cellAt g r c).previousNode := by
    intro r c
    by_cases hrc : r = s.1 ∧ c = s.2
    · obtain ⟨h1, h2⟩ := hrc
      subst h1
      subst h2
      rw [hg0self]
    · rw [hg0eqO r c hrc]
  have hg0dS : (cellAt (setCell g s.1 s.2
      { cellAt g s.1 s.2 with distance := some 0 }) s.1 s.2).distance =
      some 0 := by
    rw [hg0self]
  have hg0dO : ∀ v : Nat × Nat, v ≠ s →
      (cellAt (setCell g s.1 s.2
        { cellAt g s.1 s.2 with distance := some 0 }) v.1 v.2).distance =
      none := by
    intro v hv
    rw [hg0eqO v.1 v.2 (pair_ne_comp hv)]
    exact (hfresh v.1 v.2).1
  have hsh0 : ShapeEq g (setCell g s.1 s.2
      { cellAt g s.1 s.2 with distance := some 0 }) :=
    shapeEq_setCell g s.1 s.2 _
  have hq : getAllNodesPos (setCell g s.1 s.2
      { cellAt g s.1 s.2 with distance := some 0 }) =
      getAllNodesPos g := getAllNodesPos_shape g _ hsh0
  have hinv0 : DInv g s
      (setCell g s.1 s.2 { cellAt g s.1 s.2 with distance := some 0 })
      (getAllNodesPos (setCell g s.1 s.2
        { cellAt g s.1 s.2 with distance := some 0 })) 0 := by
    refine ⟨hsh0, hg0type, ?_, ?_, ?_, ?_, ?_, ?_, ?_, ?_, ?_, ?_, ?_,
      ?_, ?_⟩
    · exact getAllNodesPos_nodup _
    · intro v hv
      rw [hq] at hv
      exact hv
    · intro v hvall hvq
      rw [hq] at hvq
      exact absurd hvall hvq
    · intro v hv
      rw [hg0vis v.1 v.2]
      exact (hfresh v.1 v.2).2.1
    · intro v j hvw hvunv hvd
      by_cases hvc : v = s
      · subst hvc
        rw [hg0dS] at hvd
        injection hvd with hj
        rw [← hj]
        exact ⟨wdist_zero g v, Nat.le_refl 0, Nat.zero_le 1⟩
      · rw [hg0dO v hvc] at hvd
        cases hvd
    · intro v hvvis
      rw [hg0vis v.1 v.2] at hvvis
      rw [(hfresh v.1 v.2).2.1] at hvvis
      exact Bool.noConfusion hvvis
    · intro v k2 hvw hvd hk2
      have hk0 : k2 = 0 := Nat.le_zero.mp hk2
      subst hk0
      have hvs : v = s := (wP_zero_iff g s v).mp hvd.1
      subst hvs
      right
      exact hg0dS
    · intro u huvis
      rw [hg0vis u.1 u.2] at huvis
      rw [(hfresh u.1 u.2).2.1] at huvis
      exact absurd huvis (by simp)
    · intro v u hprev
      rw [hg0prev v.1 v.2] at hprev
      rw [(hfresh v.1 v.2).2.2] at hprev
      cases hprev
    · constructor
      · rw [hg0prev s.1 s.2]
        exact (hfresh s.1 s.2).2.2
      · exact hg0dS
    · intro v hv
      by_cases hvc : v = s
      · exact hvc
      · rw [hg0dO v hvc] at hv
        cases hv
    · intro v j hv
      by_cases hvc : v = s
      · subst hvc
        rw [hg0dS] at hv
        injection hv with hj
        exact absurd hj.symm (Nat.succ_ne_zero j)
      · rw [hg0dO v hvc] at hv
        cases hv
    · rw [hq]
      omega
  have hemem0 : e ∈ getAllNodesPos (setCell g s.1 s.2
      { cellAt g s.1 s.2 with distance := some 0 }) := by
    rw [hq]
    exact hem
  have hloop := dijkstraLoop_correct g s e D hrect hsm hsw hew hD
    (getAllNodesPos (setCell g s.1 s.2
      { cellAt g s.1 s.2 with distance := some 0 })).length
    (setCell g s.1 s.2 { cellAt g s.1 s.2 with distance := some 0 })
    (getAllNodesPos (setCell g s.1 s.2
      { cellAt g s.1 s.2 with distance := some 0 })) 0 [] hinv0 rfl hemem0
  have hde : dijkstra g s e = dijkstraLoop
      (getAllNodesPos (setCell g s.1 s.2
        { cellAt g s.1 s.2 with distance := some 0 })).length
      (setCell g s.1 s.2 { cellAt g s.1 s.2 with distance := some 0 }) e
      (getAllNodesPos (setCell g s.1 s.2
        { cellAt g s.1 s.2 with distance := some 0 })) [] := rfl
  obtain ⟨hdist, hwalk, hshape, hDN⟩ := hloop
  unfold getNodesInShortestPathOrder
  have hlenf : (getAllNodesPos (dijkstra g s e).1).length =
      (getAllNodesPos g).length := by
    rw [getAllNodesPos_shape g (dijkstra g s e).1 (by rw [hde]; exact hshape)]
  refine shortestPathOrder_length s (dijkstra g s e).1
    (by rw [hde]; exact hwalk) D e _ (by rw [hde]; exact hdist) ?_
  omega

theorem fLEb_total (g : Grid) : ∀ p q,
    fLEb g p q = true ∨ fLEb g q p = true := by
  intro p q
  unfold fLEb
  simp only [decide_eq_true_eq]
  omega

theorem fLEb_trans (g : Grid) : ∀ p q r,
    fLEb g p q = true → fLEb g q r = true → fLEb g p r = true := by
  intro p q r
  unfold fLEb
  simp only [decide_eq_true_eq]
  omega

theorem sortNodesByF_perm (g : Grid) (openSet : List (Nat × Nat)) :
    (sortNodesByF g openSet).Perm openSet :=
  List.perm_insertionSort _ openSet

theorem sortNodesByF_sorted (g : Grid) (openSet : List (Nat × Nat)) :
    (sortNodesByF g openSet).Sorted (fun p q => fLEb g p q = true) := by
  letI : IsTotal (Nat × Nat) (fun p q => fLEb g p q = true) :=
    ⟨fLEb_total g⟩
  letI : IsTrans (Nat × Nat) (fun p q => fLEb g p q = true) :=
    ⟨fLEb_trans g⟩
  exact List.sorted_insertionSort _ openSet

/-- One grid step changes the Manhattan distance to any fixed cell by at
most one. -/
theorem nbr_heur (g0 : Grid) (e u v : Nat × Nat)
    (hv : v ∈ nbrPos g0 u.1 u.2) :
    heuristic u e ≤ heuristic v e + 1 := by
  unfold nbrPos at hv
  simp only [List.mem_append] at hv
  rcases hv with ((h2 | h2) | h2) | h2 <;>
    obtain ⟨hg, he⟩ := mem_ite_singleton2 h2 <;> subst he <;>
    unfold heuristic <;> dsimp only <;> omega

/-- The heuristic is consistent along wall-avoiding paths: the Manhattan
distance from `u` to `e` is at most any path length from `u` to `v` plus
the Manhattan distance from `v`. -/
theorem wP_heuristic_chain (g0 : Grid) (e : Nat × Nat) :
    ∀ (n : Nat) (u v : Nat × Nat), wP g0 n u v = true →
    heuristic u e ≤ n + heuristic v e := by
  intro n
  induction n with
  | zero =>
    intro u v h
    rw [wP_zero_iff] at h
    subst h
    omega
  | succ n ih =>
    intro u v h
    obtain ⟨w, hw, hwp, hwnb, _⟩ := (wP_succ_iff g0 n u v).mp h
    have h1 := ih u w hwp
    have h2 := nbr_heur g0 e w v hwnb
    omega

/-- A cell at exact distance `dv + 1` has a neighbour predecessor at exact
distance `dv`. -/
theorem wdist_pred (g0 : Grid) (s v : Nat × Nat) (dv : Nat)
    (hd : WDistP g0 s v (dv + 1)) :
    ∃ u, u ∈ getAllNodesPos g0 ∧ WDistP g0 s u dv ∧
      v ∈ nbrPos g0 u.1 u.2 ∧
      (cellAt g0 v.1 v.2).type ≠ CellType.wall := by
  obtain ⟨u, hum, hup, hunb, hvw⟩ := (wP_succ_iff g0 dv s v).mp hd.1
  obtain ⟨du, hdu⟩ := wdist_exists g0 s u ⟨dv, hup⟩
  have hle : du ≤ dv := hdu.2 dv hup
  have hge : dv ≤ du := by
    have hstep := wP_step g0 du s u v hdu.1 hum hunb hvw
    have := hd.2 (du + 1) hstep
    omega
  have hdue : du = dv := by omega
  exact ⟨u, hum, hdue ▸ hdu, hunb, hvw⟩

theorem ite_singleton_length_le (c : Prop) [Decidable c] (x : Nat × Nat) :
    (if c then [x] else []).length ≤ 1 := by
  split <;> simp

theorem nbrPos_length_le (g : Grid) (r c : Nat) :
    (nbrPos g r c).length ≤ 4 := by
  unfold nbrPos
  rw [List.length_append, List.length_append, List.length_append]
  have h1 := ite_singleton_length_le (r > 0) (r - 1, c)
  have h2 := ite_singleton_length_le
    (r < (g : List (List Cell)).length - 1) (r + 1, c)
  have h3 := ite_singleton_length_le (c > 0) (r, c - 1)
  have h4 := ite_singleton_length_le
    (c < ((g : List (List Cell)).getD 0 []).length - 1) (r, c + 1)
  omega

theorem getNeighborsPos_length_le (g : Grid) (r c : Nat) :
    (getNeighborsPos g r c).length ≤ 4 := by
  rw [getNeighborsPos_eq_filter]
  exact le_trans (List.length_filter_le _ _) (nbrPos_length_le g r c)

theorem filter_length_drop {α : Type} (l : List α) (hN : l.Nodup)
    (x : α) (hx : x ∈ l) (p q : α → Bool) (hpx : p x = true)
    (hqx : q x = false) (hpq : ∀ y ∈ l, y ≠ x → p y = q y) :
    (l.filter p).length = (l.filter q).length + 1 := by
  induction l with
  | nil => cases hx
  | cons y l ih =>
    rw [List.filter_cons, List.filter_cons]
    by_cases hyx : y = x
    · subst hyx
      rw [hpx, hqx]
      have hyl : y ∉ l := (List.nodup_cons.mp hN).1
      have hfe : l.filter p = l.filter q := by
        apply List.filter_congr
        intro a ha
        exact hpq a (List.mem_cons_of_mem y ha)
          (fun he => hyl (he ▸ ha))
      rw [hfe]
      simp
    · have hN2 := (List.nodup_cons.mp hN).2
      have hx2 : x ∈ l := by
        rcases List.mem_cons.mp hx with h | h
        · exact absurd h.symm hyx
        · exact h
      have ih2 := ih hN2 hx2
        (fun a ha he => hpq a (List.mem_cons_of_mem y ha) he)
      have hyq := hpq y (List.mem_cons_self y l) hyx
      rw [← hyq]
      by_cases hpy : p y = true
      · rw [if_pos hpy, if_pos hpy]
        simp only [List.length_cons]
        omega
      · rw [if_neg hpy, if_neg hpy]
        exact ih2

theorem filter_length_mono {α : Type} (l : List α) (p q : α → Bool)
    (h : ∀ a ∈ l, p a = true → q a = true) :
    (l.filter p).length ≤ (l.filter q).length := by
  induction l with
  | nil => simp
  | cons x l ih =>
    have ih2 := ih fun a ha => h a (List.mem_cons_of_mem x ha)
    rw [List.filter_cons, List.filter_cons]
    by_cases hp : p x = true
    · rw [if_pos hp, if_pos (h x (List.mem_cons_self x l) hp)]
      simpa using ih2
    · rw [if_neg hp]
      by_cases hq : q x = true
      · rw [if_pos hq]
        simp only [List.length_cons]
        omega
      · rw [if_neg hq]
        exact ih2

/-- The number of in-bounds cells of the base grid not yet marked
visited. -/
def aU (g0 g : Grid) : Nat :=
  ((getAllNodesPos g0).filter fun v =>
    decide (¬(cellAt g v.1 v.2).isVisited = true)).length

/-- The per-neighbour body of the A* relaxation loop. -/
def relaxStep (endP current : Nat × Nat) (st : Grid × List (Nat × Nat))
    (p : Nat × Nat) : Grid × List (Nat × Nat) :=
  let cell := cellAt st.1 p.1 p.2
  if cell.isVisited = true ∨ cell.type = CellType.wall then st
  else
    let tentativeG := (cellAt st.1 current.1 current.2).g + 1
    if cell.g = 0 ∨ tentativeG < cell.g then
      let hVal := heuristic p endP
      let g2 := setCell st.1 p.1 p.2
        { cell with previousNode := some current, g := tentativeG,
                    h := hVal, f := tentativeG + hVal }
      let os2 := if st.2.any fun q => q = p then st.2 else st.2 ++ [p]
      (g2, os2)
    else st

theorem relaxNeighbors_eq_fold (g : Grid) (endP current : Nat × Nat)
    (openSet : List (Nat × Nat)) :
    relaxNeighbors g endP current openSet =
      (getNeighborsPos g current.1 current.2).foldl
        (relaxStep endP current) (g, openSet) := rfl

theorem relaxStep_skip1 (endP cur : Nat × Nat) (st : Grid × List (Nat × Nat))
    (p : Nat × Nat)
    (h : (cellAt st.1 p.1 p.2).isVisited = true ∨
      (cellAt st.1 p.1 p.2).type = CellType.wall) :
    relaxStep endP cur st p = st := by
  unfold relaxStep
  rw [if_pos h]

theorem relaxStep_skip2 (endP cur : Nat × Nat) (st : Grid × List (Nat × Nat))
    (p : Nat × Nat)
    (h1 : ¬((cellAt st.1 p.1 p.2).isVisited = true ∨
      (cellAt st.1 p.1 p.2).type = CellType.wall))
    (h2 : ¬((cellAt st.1 p.1 p.2).g = 0 ∨
      (cellAt st.1 cur.1 cur.2).g + 1 < (cellAt st.1 p.1 p.2).g)) :
    relaxStep endP cur st p = st := by
  unfold relaxStep
  rw [if_neg h1, if_neg h2]

theorem relaxStep_write (endP cur : Nat × Nat) (st : Grid × List (Nat × Nat))
    (p : Nat × Nat)
    (h1 : ¬((cellAt st.1 p.1 p.2).isVisited = true ∨
      (cellAt st.1 p.1 p.2).type = CellType.wall))
    (h2 : (cellAt st.1 p.1 p.2).g = 0 ∨
      (cellAt st.1 cur.1 cur.2).g + 1 < (cellAt st.1 p.1 p.2).g) :
    relaxStep endP cur st p =
      (setCell st.1 p.1 p.2
        { cellAt st.1 p.1 p.2 with
          previousNode := some cur,
          g := (cellAt st.1 cur.1 cur.2).g + 1,
          h := heuristic p endP,
          f := (cellAt st.1 cur.1 cur.2).g + 1 + heuristic p endP },
       if st.2.any fun q => q = p then st.2 else st.2 ++ [p]) := by
  unfold relaxStep
  rw [if_neg h1, if_pos h2]

/-- A relaxation write never changes `isVisited`, `type` or `distance` of
any cell, and never touches a cell other than its target. -/
theorem relaxStep_cell_cases (endP cur : Nat × Nat)
    (st : Grid × List (Nat × Nat)) (p : Nat × Nat) (r c : Nat) :
    cellAt (relaxStep endP cur st p).1 r c = cellAt st.1 r c ∨
      (r = p.1 ∧ c = p.2 ∧
        (cellAt (relaxStep endP cur st p).1 r c).isVisited =
          (cellAt st.1 r c).isVisited ∧
        (cellAt (relaxStep endP cur st p).1 r c).type =
          (cellAt st.1 r c).type ∧
        (cellAt (relaxStep endP cur st p).1 r c).distance =
          (cellAt st.1 r c).distance) := by
  by_cases h1 : (cellAt st.1 p.1 p.2).isVisited = true ∨
      (cellAt st.1 p.1 p.2).type = CellType.wall
  · rw [relaxStep_skip1 endP cur st p h1]
    exact Or.inl rfl
  · by_cases h2 : (cellAt st.1 p.1 p.2).g = 0 ∨
        (cellAt st.1 cur.1 cur.2).g + 1 < (cellAt st.1 p.1 p.2).g
    · rw [relaxStep_write endP cur st p h1 h2]
      rcases cellAt_setCell_cases st.1 p.1 p.2
          { cellAt st.1 p.1 p.2 with
            previousNode := some cur,
            g := (cellAt st.1 cur.1 cur.2).g + 1,
            h := heuristic p endP,
            f := (cellAt st.1 cur.1 cur.2).g + 1 + heuristic p endP }
          r c with h | ⟨hr, hc, h⟩
      · exact Or.inl h
      · right
        subst hr
        subst hc
        rw [h]
        exact ⟨rfl, rfl, rfl, rfl, rfl⟩
    · rw [relaxStep_skip2 endP cur st p h1 h2]
      exact Or.inl rfl

theorem relaxStep_open (endP cur : Nat × Nat)
    (st : Grid × List (Nat × Nat)) (p : Nat × Nat) :
    (relaxStep endP cur st p).2 = st.2 ∨
      ((relaxStep endP cur st p).2 = st.2 ++ [p] ∧ p ∉ st.2 ∧
        ¬((cellAt st.1 p.1 p.2).isVisited = true ∨
          (cellAt st.1 p.1 p.2).type = CellType.wall) ∧
        ((cellAt st.1 p.1 p.2).g = 0 ∨
          (cellAt st.1 cur.1 cur.2).g + 1 < (cellAt st.1 p.1 p.2).g)) := by
  by_cases h1 : (cellAt st.1 p.1 p.2).isVisited = true ∨
      (cellAt st.1 p.1 p.2).type = CellType.wall
  · rw [relaxStep_skip1 endP cur st p h1]
    exact Or.inl rfl
  · by_cases h2 : (cellAt st.1 p.1 p.2).g = 0 ∨
        (cellAt st.1 cur.1 cur.2).g + 1 < (cellAt st.1 p.1 p.2).g
    · rw [relaxStep_write endP cur st p h1 h2]
      by_cases h3 : st.2.any (fun q => q = p) = true
      · rw [if_pos h3]
        exact Or.inl rfl
      · rw [if_neg h3]
        right
        refine ⟨rfl, ?_, h1, h2⟩
        intro hmem
        apply h3
        rw [List.any_eq_true]
        exact ⟨p, hmem, by simp⟩
    · rw [relaxStep_skip2 endP cur st p h1 h2]
      exact Or.inl rfl

theorem relaxStep_shape (endP cur : Nat × Nat)
    (st : Grid × List (Nat × Nat)) (p : Nat × Nat) :
    ShapeEq st.1 (relaxStep endP cur st p).1 := by
  by_cases h1 : (cellAt st.1 p.1 p.2).isVisited = true ∨
      (cellAt st.1 p.1 p.2).type = CellType.wall
  · rw [relaxStep_skip1 endP cur st p h1]
    exact shapeEq_refl st.1
  · by_cases h2 : (cellAt st.1 p.1 p.2).g = 0 ∨
        (cellAt st.1 cur.1 cur.2).g + 1 < (cellAt st.1 p.1 p.2).g
    · rw [relaxStep_write endP cur st p h1 h2]
      exact shapeEq_setCell st.1 p.1 p.2 _
    · rw [relaxStep_skip2 endP cur st p h1 h2]
      exact shapeEq_refl st.1

theorem relaxStep_ne (endP cur : Nat × Nat)
    (st : Grid × List (Nat × Nat)) (p q : Nat × Nat) (h : q ≠ p) :
    cellAt (relaxStep endP cur st p).1 q.1 q.2 = cellAt st.1 q.1 q.2 := by
  rcases relaxStep_cell_cases endP cur st p q.1 q.2 with h2 | ⟨hr, hc, _⟩
  · exact h2
  · exact absurd (pair_eq_comp hr hc) h

theorem relaxStep_fields (endP cur : Nat × Nat)
    (st : Grid × List (Nat × Nat)) (p : Nat × Nat) (r c : Nat) :
    (cellAt (relaxStep endP cur st p).1 r c).isVisited =
      (cellAt st.1 r c).isVisited ∧
    (cellAt (relaxStep endP cur st p).1 r c).type = (cellAt st.1 r c).type ∧
    (cellAt (relaxStep endP cur st p).1 r c).distance =
      (cellAt st.1 r c).distance := by
  rcases relaxStep_cell_cases endP cur st p r c with h | ⟨_, _, h⟩
  · rw [h]
    exact ⟨rfl, rfl, rfl⟩
  · exact h

theorem relaxFold_fields (endP cur : Nat × Nat) :
    ∀ (ps : List (Nat × Nat)) (st : Grid × List (Nat × Nat)) (r c : Nat),
    (cellAt (ps.foldl (relaxStep endP cur) st).1 r c).isVisited =
      (cellAt st.1 r c).isVisited ∧
    (cellAt (ps.foldl (relaxStep endP cur) st).1 r c).type =
      (cellAt st.1 r c).type ∧
    (cellAt (ps.foldl (relaxStep endP cur) st).1 r c).distance =
      (cellAt st.1 r c).distance := by
  intro ps
  induction ps with
  | nil => intro st r c; exact ⟨rfl, rfl, rfl⟩
  | cons a ps ih =>
    intro st r c
    obtain ⟨h1, h2, h3⟩ := ih (relaxStep endP cur st a) r c
    obtain ⟨h4, h5, h6⟩ := relaxStep_fields endP cur st a r c
    exact ⟨h1.trans h4, h2.trans h5, h3.trans h6⟩

theorem relaxFold_outside (endP cur : Nat × Nat) :
    ∀ (ps : List (Nat × Nat)) (st : Grid × List (Nat × Nat))
      (q : Nat × Nat), q ∉ ps →
    cellAt (ps.foldl (relaxStep endP cur) st).1 q.1 q.2 =
      cellAt st.1 q.1 q.2 := by
  intro ps
  induction ps with
  | nil => intro st q _; rfl
  | cons a ps ih =>
    intro st q hq
    have hqa : q ≠ a := fun h => hq (h ▸ List.mem_cons_self a ps)
    have hqs : q ∉ ps := fun h => hq (List.mem_cons_of_mem a h)
    exact (ih (relaxStep endP cur st a) q hqs).trans
      (relaxStep_ne endP cur st a q hqa)

theorem relaxFold_shape (endP cur : Nat × Nat) :
    ∀ (ps : List (Nat × Nat)) (st : Grid × List (Nat × Nat)),
    ShapeEq st.1 (ps.foldl (relaxStep endP cur) st).1 := by
  intro ps
  induction ps with
  | nil => intro st; exact shapeEq_refl st.1
  | cons a ps ih =>
    intro st
    exact shapeEq_trans (relaxStep_shape endP cur st a)
      (ih (relaxStep endP cur st a))

theorem relaxFold_open (endP cur : Nat × Nat) :
    ∀ (ps : List (Nat × Nat)) (st : Grid × List (Nat × Nat)),
    ∃ Δ : List (Nat × Nat),
      (ps.foldl (relaxStep endP cur) st).2 = st.2 ++ Δ ∧
      (∀ x ∈ Δ, x ∈ ps ∧ x ∉ st.2 ∧
        (cellAt st.1 x.1 x.2).isVisited = false ∧
        (cellAt st.1 x.1 x.2).type ≠ CellType.wall) ∧
      Δ.length ≤ ps.length ∧
      (st.2.Nodup → (st.2 ++ Δ).Nodup) := by
  intro ps
  induction ps with
  | nil =>
    intro st
    exact ⟨[], by simp, by simp, by simp, fun h => by simpa using h⟩
  | cons a ps ih =>
    intro st
    have hfields := fun (x : Nat × Nat) =>
      relaxStep_fields endP cur st a x.1 x.2
    rcases relaxStep_open endP cur st a with hop | ⟨hop, hnew, hga, _⟩
    · obtain ⟨Δ, h1, h2, h3, h4⟩ := ih (relaxStep endP cur st a)
      rw [hop] at h1 h2 h4
      refine ⟨Δ, h1, ?_, Nat.le_trans h3 (Nat.le_succ _), h4⟩
      intro x hx
      obtain ⟨hx1, hx2, hx3, hx4⟩ := h2 x hx
      exact ⟨List.mem_cons_of_mem a hx1, hx2,
        (hfields x).1.symm.trans hx3,
        fun hw => hx4 ((hfields x).2.1.trans hw)⟩
    · obtain ⟨Δ, h1, h2, h3, h4⟩ := ih (relaxStep endP cur st a)
      rw [hop] at h1 h2 h4
      have hvis : (cellAt st.1 a.1 a.2).isVisited = false :=
        Bool.eq_false_iff.mpr (fun hv => hga (Or.inl hv))
      have hwl : (cellAt st.1 a.1 a.2).type ≠ CellType.wall :=
        fun hw => hga (Or.inr hw)
      refine ⟨a :: Δ, ?_, ?_, ?_, ?_⟩
      · rw [List.foldl_cons, h1, List.append_assoc, List.singleton_append]
      · intro x hx
        rcases List.mem_cons.mp hx with hxa | hxd
        · rw [hxa]
          exact ⟨List.mem_cons_self a ps, hnew, hvis, hwl⟩
        · obtain ⟨hx1, hx2, hx3, hx4⟩ := h2 x hxd
          refine ⟨List.mem_cons_of_mem a hx1, ?_,
            (hfields x).1.symm.trans hx3,
            fun hw => hx4 ((hfields x).2.1.trans hw)⟩
          intro hxmem
          exact hx2 (List.mem_append_left _ hxmem)
      · simpa using Nat.succ_le_succ h3
      · intro hnd
        have hnd2 : (st.2 ++ [a]).Nodup := by
          rw [List.nodup_append]
          exact ⟨hnd, List.nodup_singleton a,
            by simpa [List.disjoint_singleton] using hnew⟩
        have := h4 hnd2
        rwa [List.append_assoc, List.singleton_append] at this

theorem relaxFold_open_mono (endP cur : Nat × Nat)
    (ps : List (Nat × Nat)) (st : Grid × List (Nat × Nat))
    (q : Nat × Nat) (hq : q ∈ st.2) :
    q ∈ (ps.foldl (relaxStep endP cur) st).2 := by
  obtain ⟨Δ, h1, _, _, _⟩ := relaxFold_open endP cur ps st
  rw [h1]
  exact List.mem_append_left Δ hq

/-- Any member of the folded open set that was not open before the fold is
a target that passed both relaxation guards at the fold's start state. -/
theorem relaxFold_delta (endP cur : Nat × Nat) :
    ∀ (ps : List (Nat × Nat)) (st : Grid × List (Nat × Nat)),
    (∀ p ∈ ps, p ≠ cur) → ps.Nodup →
    ∀ x : Nat × Nat, x ∈ (ps.foldl (relaxStep endP cur) st).2 → x ∉ st.2 →
    x ∈ ps ∧
    ¬((cellAt st.1 x.1 x.2).isVisited = true ∨
      (cellAt st.1 x.1 x.2).type = CellType.wall) ∧
    ((cellAt st.1 x.1 x.2).g = 0 ∨
      (cellAt st.1 cur.1 cur.2).g + 1 < (cellAt st.1 x.1 x.2).g) := by
  intro ps
  induction ps with
  | nil =>
    intro st _ _ x hx hnx
    exact absurd hx hnx
  | cons a ps ih =>
    intro st hne hnd x hx hnx
    obtain ⟨hanp, hnd2⟩ := List.nodup_cons.mp hnd
    by_cases hx2 : x ∈ (relaxStep endP cur st a).2
    · rcases relaxStep_open endP cur st a with hop | ⟨hop, _, hga, hgd⟩
      · rw [hop] at hx2
        exact absurd hx2 hnx
      · rw [hop] at hx2
        rcases List.mem_append.mp hx2 with h | h
        · exact absurd h hnx
        · obtain rfl : x = a := List.mem_singleton.mp h
          exact ⟨List.mem_cons_self _ _, hga, hgd⟩
    · obtain ⟨hxm, hg1, hg2⟩ := ih (relaxStep endP cur st a)
        (fun p hp => hne p (List.mem_cons_of_mem a hp)) hnd2 x hx hx2
      have hxa : x ≠ a := fun h => hanp (h ▸ hxm)
      rw [relaxStep_ne endP cur st a x hxa] at hg1 hg2
      rw [relaxStep_ne endP cur st a cur
        (Ne.symm (hne a (List.mem_cons_self a ps)))] at hg2
      exact ⟨List.mem_cons_of_mem a hxm, hg1, hg2⟩

/-- Per-target behaviour of the A* relaxation fold, stated relative to the
state the fold starts from: a visited or wall neighbour is untouched, a
neighbour failing the g-improvement guard is untouched, and a neighbour
passing it receives the relaxed record and joins the open set. -/
theorem relaxFold_targets (endP cur : Nat × Nat) :
    ∀ (ps : List (Nat × Nat)) (st : Grid × List (Nat × Nat)),
    (∀ p ∈ ps, p ≠ cur) → ps.Nodup →
    (∀ p ∈ ps, p.1 < (st.1 : List (List Cell)).length ∧
      p.2 < ((st.1 : List (List Cell)).getD p.1 []).length) →
    ∀ p ∈ ps,
      (((cellAt st.1 p.1 p.2).isVisited = true ∨
          (cellAt st.1 p.1 p.2).type = CellType.wall) →
        cellAt (ps.foldl (relaxStep endP cur) st).1 p.1 p.2 =
          cellAt st.1 p.1 p.2) ∧
      (¬((cellAt st.1 p.1 p.2).isVisited = true ∨
          (cellAt st.1 p.1 p.2).type = CellType.wall) →
        ¬((cellAt st.1 p.1 p.2).g = 0 ∨
          (cellAt st.1 cur.1 cur.2).g + 1 < (cellAt st.1 p.1 p.2).g) →
        cellAt (ps.foldl (relaxStep endP cur) st).1 p.1 p.2 =
          cellAt st.1 p.1 p.2) ∧
      (¬((cellAt st.1 p.1 p.2).isVisited = true ∨
          (cellAt st.1 p.1 p.2).type = CellType.wall) →
        ((cellAt st.1 p.1 p.2).g = 0 ∨
          (cellAt st.1 cur.1 cur.2).g + 1 < (cellAt st.1 p.1 p.2).g) →
        cellAt (ps.foldl (relaxStep endP cur) st).1 p.1 p.2 =
          { cellAt st.1 p.1 p.2 with
            previousNode := some cur,
            g := (cellAt st.1 cur.1 cur.2).g + 1,
            h := heuristic p endP,
            f := (cellAt st.1 cur.1 cur.2).g + 1 + heuristic p endP } ∧
        p ∈ (ps.foldl (relaxStep endP cur) st).2) := by
  intro ps
  induction ps with
  | nil => intro st _ _ _ p hp; exact absurd hp (List.not_mem_nil p)
  | cons a ps ih =>
    intro st hne hnd hbd p hp
    have hha : a ≠ cur := hne a (List.mem_cons_self a ps)
    have hcen : cellAt (relaxStep endP cur st a).1 cur.1 cur.2 =
        cellAt st.1 cur.1 cur.2 :=
      relaxStep_ne endP cur st a cur (Ne.symm hha)
    have hnda := List.nodup_cons.mp hnd
    rcases List.mem_cons.mp hp with hpa | hps
    · subst hpa
      have hout : cellAt ((p :: ps).foldl (relaxStep endP cur) st).1 p.1 p.2 =
          cellAt (relaxStep endP cur st p).1 p.1 p.2 :=
        relaxFold_outside endP cur ps (relaxStep endP cur st p) p hnda.1
      by_cases h1 : (cellAt st.1 p.1 p.2).isVisited = true ∨
          (cellAt st.1 p.1 p.2).type = CellType.wall
      · refine ⟨fun _ => ?_, fun hc _ => absurd h1 hc, fun hc _ => absurd h1 hc⟩
        rw [hout, relaxStep_skip1 endP cur st p h1]
      · by_cases h2 : (cellAt st.1 p.1 p.2).g = 0 ∨
            (cellAt st.1 cur.1 cur.2).g + 1 < (cellAt st.1 p.1 p.2).g
        · refine ⟨fun hc => absurd hc h1, fun _ hc => absurd h2 hc,
            fun _ _ => ⟨?_, ?_⟩⟩
          · rw [hout, relaxStep_write endP cur st p h1 h2]
            exact cellAt_setCell_self st.1 p.1 p.2 _
              (hbd p hp).1 (hbd p hp).2
          · have hmem : p ∈ (relaxStep endP cur st p).2 := by
              rw [relaxStep_write endP cur st p h1 h2]
              show p ∈ (if st.2.any (fun q => q = p) = true
                then st.2 else st.2 ++ [p])
              by_cases h3 : st.2.any (fun q => q = p) = true
              · rw [if_pos h3]
                obtain ⟨q, hqm, hqe⟩ := List.any_eq_true.mp h3
                have hq : q = p := by simpa using hqe
                exact hq ▸ hqm
              · rw [if_neg h3]
                exact List.mem_append_right st.2 (List.mem_singleton.mpr rfl)
            exact relaxFold_open_mono endP cur ps
              (relaxStep endP cur st p) p hmem
        · refine ⟨fun hc => absurd hc h1, fun _ _ => ?_,
            fun _ hc => absurd hc h2⟩
          rw [hout, relaxStep_skip2 endP cur st p h1 h2]
    · have hpa : p ≠ a := fun h => hnda.1 (h ▸ hps)
      have hcell : cellAt (relaxStep endP cur st a).1 p.1 p.2 =
          cellAt st.1 p.1 p.2 :=
        relaxStep_ne endP cur st a p hpa
      have hbd2 : ∀ q ∈ ps, q.1 < ((relaxStep endP cur st a).1 :
          List (List Cell)).length ∧
          q.2 < (((relaxStep endP cur st a).1 :
            List (List Cell)).getD q.1 []).length := by
        intro q hq
        have hsh := relaxStep_shape endP cur st a
        rw [hsh.1, hsh.2 q.1]
        exact hbd q (List.mem_cons_of_mem a hq)
      have := ih (relaxStep endP cur st a)
        (fun q hq => hne q (List.mem_cons_of_mem a hq)) hnda.2 hbd2 p hps
      rw [hcell, hcen] at this
      exact this

/-- Walking the A* back-pointers from a cell whose `g` label is `k` yields
exactly `k + 1` nodes, mirroring `shortestPathOrder_length` with the `g`
field in place of `distance`. -/
theorem aWalk_length (s : Nat × Nat) (g : Grid)
    (hps : (cellAt g s.1 s.2).previousNode = none)
    (hgs : (cellAt g s.1 s.2).g = 0)
    (hsome : ∀ v : Nat × Nat, v ≠ s → (cellAt g v.1 v.2).g ≠ 0 →
      ∃ u : Nat × Nat, (cellAt g v.1 v.2).previousNode = some u ∧
        (u = s ∨ (cellAt g u.1 u.2).g ≠ 0) ∧
        (cellAt g v.1 v.2).g = (cellAt g u.1 u.2).g + 1) :
    ∀ (k : Nat) (v : Nat × Nat) (fuel : Nat),
      (v = s ∨ (cellAt g v.1 v.2).g ≠ 0) →
      (cellAt g v.1 v.2).g = k → k + 1 ≤ fuel →
      (shortestPathOrder fuel g v).length = k + 1 := by
  intro k
  induction k with
  | zero =>
    intro v fuel hlab hv hf
    have hv2 : v = s := by
      rcases hlab with h | h
      · exact h
      · exact absurd hv h
    subst hv2
    cases fuel with
    | zero => omega
    | succ f =>
      rw [shortestPathOrder, hps]
      rfl
  | succ k ih =>
    intro v fuel hlab hv hf
    have hvs : v ≠ s := by
      intro h
      rw [h, hgs] at hv
      cases hv
    have hvg : (cellAt g v.1 v.2).g ≠ 0 := by
      rw [hv]
      exact Nat.succ_ne_zero k
    obtain ⟨u, hu, hulab, hstep⟩ := hsome v hvs hvg
    have hug : (cellAt g u.1 u.2).g = k := by omega
    cases fuel with
    | zero => omega
    | succ f =>
      rw [shortestPathOrder, hu]
      show (shortestPathOrder f g u ++ [v]).length = k + 1 + 1
      rw [List.length_append, ih u f hulab hug (by omega)]
      rfl

/-- Along an exact-distance chain the intermediate cells all have distinct
exact distances, so `D + 1` in-bounds cells exist: the exact distance is
bounded by the cell count. -/
theorem wdist_chain (g0 : Grid)
    (hrect : ∀ r, r < (g0 : List (List Cell)).length →
      ((g0 : List (List Cell)).getD r []).length =
      ((g0 : List (List Cell)).getD 0 []).length)
    (s : Nat × Nat) (hsm : s ∈ getAllNodesPos g0) :
    ∀ (D : Nat) (v : Nat × Nat), WDistP g0 s v D →
    ∃ L : List (Nat × Nat), L.length = D + 1 ∧ L.Nodup ∧
      (∀ x ∈ L, x ∈ getAllNodesPos g0) ∧
      (∀ x ∈ L, ∃ i, WDistP g0 s x i ∧ i ≤ D) := by
  intro D
  induction D with
  | zero =>
    intro v hv
    have hv2 : v = s := (wP_zero_iff g0 s v).mp hv.1
    subst hv2
    exact ⟨[v], rfl, List.nodup_singleton v,
      fun x hx => (List.mem_singleton.mp hx) ▸ hsm,
      fun x hx => ⟨0, (List.mem_singleton.mp hx) ▸ hv, Nat.zero_le 0⟩⟩
  | succ D ih =>
    intro v hv
    obtain ⟨u, hum, hud, _, _⟩ := wdist_pred g0 s v D hv
    obtain ⟨L, hL1, hL2, hL3, hL4⟩ := ih u hud
    have hvm : v ∈ getAllNodesPos g0 :=
      wP_target_mem g0 hrect (D + 1) s v hv.1 hsm
    refine ⟨v :: L, by simp [hL1], ?_, ?_, ?_⟩
    · rw [List.nodup_cons]
      refine ⟨?_, hL2⟩
      intro hvL
      obtain ⟨i, hi, hiD⟩ := hL4 v hvL
      have := wdist_unique g0 s v (D + 1) i hv hi
      omega
    · intro x hx
      rcases List.mem_cons.mp hx with h | h
      · exact h ▸ hvm
      · exact hL3 x h
    · intro x hx
      rcases List.mem_cons.mp hx with h | h
      · exact ⟨D + 1, h ▸ hv, Nat.le_refl _⟩
      · obtain ⟨i, hi, hiD⟩ := hL4 x h
        exact ⟨i, hi, Nat.le_succ_of_le hiD⟩

theorem wdist_card (g0 : Grid)
    (hrect : ∀ r, r < (g0 : List (List Cell)).length →
      ((g0 : List (List Cell)).getD r []).length =
      ((g0 : List (List Cell)).getD 0 []).length)
    (s v : Nat × Nat) (hsm : s ∈ getAllNodesPos g0) (D : Nat)
    (hD : WDistP g0 s v D) : D + 1 ≤ (getAllNodesPos g0).length := by
  obtain ⟨L, hL1, hL2, hL3, _⟩ := wdist_chain g0 hrect s hsm D v hD
  rw [← hL1]
  exact (List.subperm_of_subset hL2 hL3).length_le

/-- The `aStar` loop invariant over the base grid `g0`: the open set is a
duplicate-free list of in-bounds unvisited non-wall labelled cells whose
`f` field is `g` plus the heuristic, `g` labels are sound path lengths,
visited cells carry exact distances, visited cells' unvisited neighbours
are labelled within one step and open, and every labelled unvisited cell
is open with a back-pointer chain decreasing the label by one. -/
structure AInv (g0 : Grid) (s e : Nat × Nat) (g : Grid)
    (openSet : List (Nat × Nat)) : Prop where
  shape : ShapeEq g0 g
  types : ∀ r c, (cellAt g r c).type = (cellAt g0 r c).type
  sVis : (cellAt g s.1 s.2).isVisited = true
  sG : (cellAt g s.1 s.2).g = 0
  sPrev : (cellAt g s.1 s.2).previousNode = none
  eUnvis : (cellAt g e.1 e.2).isVisited = false
  ond : openSet.Nodup
  omem : ∀ p ∈ openSet, p ∈ getAllNodesPos g0
  ononwall : ∀ p ∈ openSet, (cellAt g0 p.1 p.2).type ≠ CellType.wall
  ounvis : ∀ p ∈ openSet, (cellAt g p.1 p.2).isVisited = false
  oLab : ∀ p ∈ openSet, p = s ∨ (cellAt g p.1 p.2).g ≠ 0
  oFH : ∀ p ∈ openSet,
    (cellAt g p.1 p.2).f = (cellAt g p.1 p.2).g + heuristic p e
  labSound : ∀ v : Nat × Nat, v ≠ s → (cellAt g v.1 v.2).g ≠ 0 →
    wP g0 ((cellAt g v.1 v.2).g) s v = true
  visExact : ∀ v : Nat × Nat, (cellAt g v.1 v.2).isVisited = true →
    WDistP g0 s v ((cellAt g v.1 v.2).g)
  closure : ∀ u : Nat × Nat, (cellAt g u.1 u.2).isVisited = true →
    ∀ v ∈ nbrPos g0 u.1 u.2,
    (cellAt g0 v.1 v.2).type ≠ CellType.wall →
    (cellAt g v.1 v.2).isVisited = false →
    ((v = s ∨ (cellAt g v.1 v.2).g ≠ 0) ∧
      (cellAt g v.1 v.2).g ≤ (cellAt g u.1 u.2).g + 1)
  labOpen : ∀ v : Nat × Nat, (v = s ∨ (cellAt g v.1 v.2).g ≠ 0) →
    (cellAt g v.1 v.2).isVisited = false → v ∈ openSet
  hPrevA : ∀ v : Nat × Nat, v ≠ s → (cellAt g v.1 v.2).g ≠ 0 →
    ∃ u : Nat × Nat, (cellAt g v.1 v.2).previousNode = some u ∧
      (cellAt g u.1 u.2).isVisited = true ∧
      (cellAt g v.1 v.2).g = (cellAt g u.1 u.2).g + 1

/-- Consistency of the Manhattan heuristic makes A* behave like Dijkstra
on `f = g + h`: every cell at exact distance `i` is either already visited
or dominated by an open cell whose `f` value is at most `i` plus the
heuristic. -/
theorem aStar_witness_lemma (g0 : Grid) (s e : Nat × Nat) (g : Grid)
    (openSet : List (Nat × Nat)) (inv : AInv g0 s e g openSet) :
    ∀ (i : Nat) (v : Nat × Nat), WDistP g0 s v i →
      (cellAt g v.1 v.2).isVisited = true ∨
      ∃ w ∈ openSet,
        (cellAt g w.1 w.2).g + heuristic w e ≤ i + heuristic v e := by
  intro i
  induction i with
  | zero =>
    intro v hv
    have hv2 : v = s := (wP_zero_iff g0 s v).mp hv.1
    subst hv2
    exact Or.inl inv.sVis
  | succ i ih =>
    intro v hv
    obtain ⟨u, hum, hud, hnb, hvw⟩ := wdist_pred g0 s v i hv
    rcases ih u hud with huv | ⟨w, hwm, hwb⟩
    · by_cases hvv : (cellAt g v.1 v.2).isVisited = true
      · exact Or.inl hvv
      · have hvun : (cellAt g v.1 v.2).isVisited = false :=
          Bool.eq_false_iff.mpr hvv
        obtain ⟨hlab, hle⟩ := inv.closure u huv v hnb hvw hvun
        have hue : (cellAt g u.1 u.2).g = i :=
          wdist_unique g0 s u _ i (inv.visExact u huv) hud
        right
        refine ⟨v, inv.labOpen v hlab hvun, ?_⟩
        omega
    · right
      refine ⟨w, hwm, ?_⟩
      have := nbr_heur g0 e u v hnb
      omega

/-- Pop exactness: the head of the `f`-sorted open set carries an exact
`g` label. -/
theorem aStar_pop_exact (g0 : Grid) (s e : Nat × Nat) (g : Grid)
    (openSet rest : List (Nat × Nat)) (current : Nat × Nat)
    (inv : AInv g0 s e g openSet)
    (hsort : sortNodesByF g openSet = current :: rest) :
    WDistP g0 s current ((cellAt g current.1 current.2).g) := by
  have hcm : current ∈ openSet :=
    (sortNodesByF_perm g openSet).subset
      (hsort ▸ List.mem_cons_self current rest)
  have hcun : (cellAt g current.1 current.2).isVisited = false :=
    inv.ounvis current hcm
  have hcs : current ≠ s := by
    intro h
    rw [h, inv.sVis] at hcun
    cases hcun
  have hcg : (cellAt g current.1 current.2).g ≠ 0 := by
    rcases inv.oLab current hcm with h | h
    · exact absurd h hcs
    · exact h
  have hsound := inv.labSound current hcs hcg
  obtain ⟨du, hdu⟩ := wdist_exists g0 s current ⟨_, hsound⟩
  have hle : du ≤ (cellAt g current.1 current.2).g := hdu.2 _ hsound
  rcases Nat.eq_or_lt_of_le hle with heq | hlt
  · rw [← heq]
    exact hdu
  · exfalso
    rcases aStar_witness_lemma g0 s e g openSet inv du current hdu with
      hvis | ⟨w, hwm, hwb⟩
    · rw [hvis] at hcun
      cases hcun
    · have hfc := inv.oFH current hcm
      have hfw := inv.oFH w hwm
      have hflt : (cellAt g w.1 w.2).f <
          (cellAt g current.1 current.2).f := by omega
      have hsorted := sortNodesByF_sorted g openSet
      rw [hsort] at hsorted
      obtain ⟨hhead, _⟩ := List.sorted_cons.mp hsorted
      have hws : w ∈ current :: rest :=
        hsort ▸ (sortNodesByF_perm g openSet).symm.subset hwm
      rcases List.mem_cons.mp hws with hwc | hwr
      · rw [hwc] at hflt
        exact absurd hflt (lt_irrefl _)
      · have := hhead w hwr
        rw [fLEb, decide_eq_true_eq] at this
        omega

theorem aU_congr (g0 g g' : Grid)
    (h : ∀ r c, (cellAt g' r c).isVisited = (cellAt g r c).isVisited) :
    aU g0 g' = aU g0 g := by
  unfold aU
  congr 1
  apply List.filter_congr
  intro x _
  rw [h x.1 x.2]

theorem aU_mark (g0 g g' : Grid) (v : Nat × Nat)
    (hvm : v ∈ getAllNodesPos g0)
    (hvun : (cellAt g v.1 v.2).isVisited = false)
    (hv' : (cellAt g' v.1 v.2).isVisited = true)
    (hother : ∀ q : Nat × Nat, q ≠ v →
      (cellAt g' q.1 q.2).isVisited = (cellAt g q.1 q.2).isVisited) :
    aU g0 g = aU g0 g' + 1 := by
  unfold aU
  apply filter_length_drop (getAllNodesPos g0) (getAllNodesPos_nodup g0)
    v hvm
  · simp [hvun]
  · simp [hv']
  · intro y _ hy
    simp only [decide_eq_decide]
    rw [hother y hy]

theorem relaxNeighbors_fields (g : Grid) (e cur : Nat × Nat)
    (os : List (Nat × Nat)) (r c : Nat) :
    (cellAt (relaxNeighbors g e cur os).1 r c).isVisited =
      (cellAt g r c).isVisited ∧
    (cellAt (relaxNeighbors g e cur os).1 r c).type = (cellAt g r c).type ∧
    (cellAt (relaxNeighbors g e cur os).1 r c).distance =
      (cellAt g r c).distance := by
  rw [relaxNeighbors_eq_fold]
  exact relaxFold_fields e cur _ (g, os) r c

theorem relaxNeighbors_outside (g : Grid) (e cur : Nat × Nat)
    (os : List (Nat × Nat)) (q : Nat × Nat)
    (hq : q ∉ getNeighborsPos g cur.1 cur.2) :
    cellAt (relaxNeighbors g e cur os).1 q.1 q.2 = cellAt g q.1 q.2 := by
  rw [relaxNeighbors_eq_fold]
  exact relaxFold_outside e cur _ (g, os) q hq

theorem relaxNeighbors_shape (g : Grid) (e cur : Nat × Nat)
    (os : List (Nat × Nat)) : ShapeEq g (relaxNeighbors g e cur os).1 := by
  rw [relaxNeighbors_eq_fold]
  exact relaxFold_shape e cur _ (g, os)

theorem relaxNeighbors_open (g : Grid) (e cur : Nat × Nat)
    (os : List (Nat × Nat)) :
    ∃ Δ : List (Nat × Nat),
      (relaxNeighbors g e cur os).2 = os ++ Δ ∧
      (∀ x ∈ Δ, x ∈ getNeighborsPos g cur.1 cur.2 ∧ x ∉ os ∧
        (cellAt g x.1 x.2).isVisited = false ∧
        (cellAt g x.1 x.2).type ≠ CellType.wall) ∧
      Δ.length ≤ (getNeighborsPos g cur.1 cur.2).length ∧
      (os.Nodup → (os ++ Δ).Nodup) := by
  rw [relaxNeighbors_eq_fold]
  exact relaxFold_open e cur _ (g, os)

theorem relaxNeighbors_delta (g : Grid) (e cur : Nat × Nat)
    (os : List (Nat × Nat))
    (hne : ∀ p ∈ getNeighborsPos g cur.1 cur.2, p ≠ cur) :
    ∀ x : Nat × Nat, x ∈ (relaxNeighbors g e cur os).2 → x ∉ os →
    x ∈ getNeighborsPos g cur.1 cur.2 ∧
    ¬((cellAt g x.1 x.2).isVisited = true ∨
      (cellAt g x.1 x.2).type = CellType.wall) ∧
    ((cellAt g x.1 x.2).g = 0 ∨
      (cellAt g cur.1 cur.2).g + 1 < (cellAt g x.1 x.2).g) := by
  rw [relaxNeighbors_eq_fold]
  exact relaxFold_delta e cur _ (g, os) hne
    (getNeighborsPos_nodup g cur.1 cur.2)

theorem relaxNeighbors_targets (g : Grid) (e cur : Nat × Nat)
    (os : List (Nat × Nat))
    (hne : ∀ p ∈ getNeighborsPos g cur.1 cur.2, p ≠ cur)
    (hbd : ∀ p ∈ getNeighborsPos g cur.1 cur.2,
      p.1 < (g : List (List Cell)).length ∧
      p.2 < ((g : List (List Cell)).getD p.1 []).length) :
    ∀ p ∈ getNeighborsPos g cur.1 cur.2,
      (((cellAt g p.1 p.2).isVisited = true ∨
          (cellAt g p.1 p.2).type = CellType.wall) →
        cellAt (relaxNeighbors g e cur os).1 p.1 p.2 = cellAt g p.1 p.2) ∧
      (¬((cellAt g p.1 p.2).isVisited = true ∨
          (cellAt g p.1 p.2).type = CellType.wall) →
        ¬((cellAt g p.1 p.2).g = 0 ∨
          (cellAt g cur.1 cur.2).g + 1 < (cellAt g p.1 p.2).g) →
        cellAt (relaxNeighbors g e cur os).1 p.1 p.2 = cellAt g p.1 p.2) ∧
      (¬((cellAt g p.1 p.2).isVisited = true ∨
          (cellAt g p.1 p.2).type = CellType.wall) →
        ((cellAt g p.1 p.2).g = 0 ∨
          (cellAt g cur.1 cur.2).g + 1 < (cellAt g p.1 p.2).g) →
        cellAt (relaxNeighbors g e cur os).1 p.1 p.2 =
          { cellAt g p.1 p.2 with
            previousNode := some cur,
            g := (cellAt g cur.1 cur.2).g + 1,
            h := heuristic p e,
            f := (cellAt g cur.1 cur.2).g + 1 + heuristic p e } ∧
        p ∈ (relaxNeighbors g e cur os).2) := by
  rw [relaxNeighbors_eq_fold]
  exact relaxFold_targets e cur _ (g, os) hne
    (getNeighborsPos_nodup g cur.1 cur.2) hbd

/-- One full A* iteration (pop the minimum-`f` open cell, mark it, relax
its unvisited neighbours) preserves the invariant, visits exactly one new
cell, and grows the open set by at most four entries. -/
theorem aStar_step_AInv (g0 : Grid)
    (hrect : ∀ r, r < (g0 : List (List Cell)).length →
      ((g0 : List (List Cell)).getD r []).length =
      ((g0 : List (List Cell)).getD 0 []).length)
    (s e : Nat × Nat) (g : Grid) (openSet rest : List (Nat × Nat))
    (current : Nat × Nat)
    (inv : AInv g0 s e g openSet)
    (hsort : sortNodesByF g openSet = current :: rest)
    (hce : current ≠ e)
    (g1 : Grid)
    (hg1 : g1 = setCell g current.1 current.2
      { cellAt g current.1 current.2 with isVisited := true })
    (st : Grid × List (Nat × Nat))
    (hst : st = relaxNeighbors g1 e current rest) :
    AInv g0 s e st.1 st.2 ∧
    aU g0 g = aU g0 st.1 + 1 ∧
    st.2.length ≤ rest.length + 4 := by
  have hperm := sortNodesByF_perm g openSet
  have hcm : current ∈ openSet :=
    hperm.subset (hsort ▸ List.mem_cons_self current rest)
  have hsub : ∀ x ∈ rest, x ∈ openSet := fun x hx =>
    hperm.subset (hsort ▸ List.mem_cons_of_mem current hx)
  have hnd2 : (current :: rest).Nodup := by
    rw [← hsort]
    exact (hperm.nodup_iff).mpr inv.ond
  obtain ⟨hcnr, hrnd⟩ := List.nodup_cons.mp hnd2
  have hcun : (cellAt g current.1 current.2).isVisited = false :=
    inv.ounvis current hcm
  have hcs : current ≠ s := by
    intro h
    have h2 := inv.sVis
    rw [← h] at h2
    rw [hcun] at h2
    cases h2
  have hcg : (cellAt g current.1 current.2).g ≠ 0 := by
    rcases inv.oLab current hcm with h | h
    · exact absurd h hcs
    · exact h
  have hcex : WDistP g0 s current ((cellAt g current.1 current.2).g) :=
    aStar_pop_exact g0 s e g openSet rest current inv hsort
  have hcmem0 : current ∈ getAllNodesPos g0 := inv.omem current hcm
  have hcb := allPos_bounds g0 g inv.shape current hcmem0
  have hg1self : cellAt g1 current.1 current.2 =
      { cellAt g current.1 current.2 with isVisited := true } := by
    rw [hg1]
    exact cellAt_setCell_self g current.1 current.2 _ hcb.1 hcb.2
  have hg1ne : ∀ q : Nat × Nat, q ≠ current →
      cellAt g1 q.1 q.2 = cellAt g q.1 q.2 := by
    intro q hq
    rw [hg1]
    exact cellAt_setCell_ne g current.1 current.2 _ q.1 q.2
      (pair_ne_comp hq)
  have hg1gC : (cellAt g1 current.1 current.2).g =
      (cellAt g current.1 current.2).g := by
    rw [hg1self]
  have hsh01 : ShapeEq g0 g1 := by
    rw [hg1]
    exact shapeEq_trans inv.shape (shapeEq_setCell g current.1 current.2 _)
  have hg1type : ∀ r c, (cellAt g1 r c).type = (cellAt g r c).type := by
    intro r c
    by_cases hq : (r, c) = current
    · have hr : r = current.1 := by rw [← hq]
      have hc : c = current.2 := by rw [← hq]
      subst hr
      subst hc
      rw [hg1self]
    · exact congrArg Cell.type (hg1ne (r, c) hq)
  have hstFields : ∀ r c,
      (cellAt st.1 r c).isVisited = (cellAt g1 r c).isVisited ∧
      (cellAt st.1 r c).type = (cellAt g1 r c).type ∧
      (cellAt st.1 r c).distance = (cellAt g1 r c).distance := by
    intro r c
    rw [hst]
    exact relaxNeighbors_fields g1 e current rest r c
  have hsh0st : ShapeEq g0 st.1 := by
    rw [hst]
    exact shapeEq_trans hsh01 (relaxNeighbors_shape g1 e current rest)
  have hstVis : ∀ q : Nat × Nat, q ≠ current →
      (cellAt st.1 q.1 q.2).isVisited = (cellAt g q.1 q.2).isVisited :=
    fun q hq => ((hstFields q.1 q.2).1).trans
      (congrArg Cell.isVisited (hg1ne q hq))
  have hnbr1 : nbrPos g1 current.1 current.2 =
      nbrPos g0 current.1 current.2 :=
    nbrPos_shape g0 g1 hsh01 current.1 current.2
  have hT : ∀ p ∈ getNeighborsPos g1 current.1 current.2,
      p ∈ nbrPos g0 current.1 current.2 ∧
      (cellAt g1 p.1 p.2).isVisited = false := by
    intro p hp
    obtain ⟨h1, h2⟩ := (mem_getNeighborsPos g1 current.1 current.2 p).mp hp
    rw [hnbr1] at h1
    exact ⟨h1, h2⟩
  have hTne : ∀ p ∈ getNeighborsPos g1 current.1 current.2,
      p ≠ current := by
    intro p hp hpc
    have h2 := (hT p hp).2
    rw [hpc, hg1self] at h2
    have h3 : (true : Bool) = false := h2
    cases h3
  have hTmem0 : ∀ p ∈ getNeighborsPos g1 current.1 current.2,
      p ∈ getAllNodesPos g0 := fun p hp =>
    nbrPos_mem_allPos g0 hrect current hcmem0 p (hT p hp).1
  have hTbd : ∀ p ∈ getNeighborsPos g1 current.1 current.2,
      p.1 < (g1 : List (List Cell)).length ∧
      p.2 < ((g1 : List (List Cell)).getD p.1 []).length := fun p hp =>
    allPos_bounds g0 g1 hsh01 p (hTmem0 p hp)
  have hcurT : current ∉ getNeighborsPos g1 current.1 current.2 :=
    fun h => (hTne current h) rfl
  have hstcur : cellAt st.1 current.1 current.2 =
      { cellAt g current.1 current.2 with isVisited := true } := by
    have h1 : cellAt st.1 current.1 current.2 =
        cellAt g1 current.1 current.2 := by
      rw [hst]
      exact relaxNeighbors_outside g1 e current rest current hcurT
    rw [h1, hg1self]
  have hstcurvis : (cellAt st.1 current.1 current.2).isVisited = true := by
    rw [hstcur]
  have hstcurG : (cellAt st.1 current.1 current.2).g =
      (cellAt g current.1 current.2).g := by
    rw [hstcur]
  have hvisMono : ∀ q : Nat × Nat, (cellAt g q.1 q.2).isVisited = true →
      (cellAt st.1 q.1 q.2).isVisited = true := by
    intro q hq
    by_cases hqc : q = current
    · rw [hqc]
      exact hstcurvis
    · rw [hstVis q hqc]
      exact hq
  have htri := relaxNeighbors_targets g1 e current rest hTne hTbd
  rw [← hst] at htri
  obtain ⟨Δ, hΔeq, hΔm, hΔl, hΔnd⟩ := relaxNeighbors_open g1 e current rest
  rw [← hst] at hΔeq
  have hdelta := relaxNeighbors_delta g1 e current rest hTne
  rw [← hst] at hdelta
  have hnew : ∀ x ∈ st.2, x ∉ rest →
      x ∈ nbrPos g0 current.1 current.2 ∧
      cellAt st.1 x.1 x.2 = { cellAt g x.1 x.2 with
        previousNode := some current,
        g := (cellAt g current.1 current.2).g + 1,
        h := heuristic x e,
        f := (cellAt g current.1 current.2).g + 1 + heuristic x e } ∧
      (cellAt g x.1 x.2).isVisited = false ∧
      (cellAt g x.1 x.2).type ≠ CellType.wall := by
    intro x hx hnr
    obtain ⟨hxT, hxg, hxgd⟩ := hdelta x hx hnr
    have hxc : x ≠ current := hTne x hxT
    have hq1 : cellAt g1 x.1 x.2 = cellAt g x.1 x.2 := hg1ne x hxc
    rw [hq1] at hxg
    rw [hq1, hg1gC] at hxgd
    obtain ⟨_, _, t3⟩ := htri x hxT
    rw [hq1, hg1gC] at t3
    exact ⟨(hT x hxT).1, (t3 hxg hxgd).1,
      Bool.eq_false_iff.mpr (fun h => hxg (Or.inl h)),
      fun h => hxg (Or.inr h)⟩
  have hmaster : ∀ q : Nat × Nat, q ≠ current →
      cellAt st.1 q.1 q.2 = cellAt g q.1 q.2 ∨
      ((cellAt g q.1 q.2).isVisited = false ∧
       (cellAt g q.1 q.2).type ≠ CellType.wall ∧
       ((cellAt g q.1 q.2).g = 0 ∨
         (cellAt g current.1 current.2).g + 1 < (cellAt g q.1 q.2).g) ∧
       q ∈ nbrPos g0 current.1 current.2 ∧
       cellAt st.1 q.1 q.2 =
         { cellAt g q.1 q.2 with
           previousNode := some current,
           g := (cellAt g current.1 current.2).g + 1,
           h := heuristic q e,
           f := (cellAt g current.1 current.2).g + 1 + heuristic q e } ∧
       q ∈ st.2) := by
    intro q hq
    by_cases hqT : q ∈ getNeighborsPos g1 current.1 current.2
    · have hq1 : cellAt g1 q.1 q.2 = cellAt g q.1 q.2 := hg1ne q hq
      obtain ⟨t1, t2, t3⟩ := htri q hqT
      rw [hq1] at t1 t2 t3
      rw [hg1gC] at t2 t3
      by_cases hv : (cellAt g q.1 q.2).isVisited = true ∨
          (cellAt g q.1 q.2).type = CellType.wall
      · exact Or.inl (t1 hv)
      · by_cases hgd : (cellAt g q.1 q.2).g = 0 ∨
            (cellAt g current.1 current.2).g + 1 < (cellAt g q.1 q.2).g
        · exact Or.inr ⟨Bool.eq_false_iff.mpr (fun h => hv (Or.inl h)),
            fun h => hv (Or.inr h), hgd, (hT q hqT).1,
            (t3 hv hgd).1, (t3 hv hgd).2⟩
        · exact Or.inl (t2 hv hgd)
    · left
      have hout : cellAt st.1 q.1 q.2 = cellAt g1 q.1 q.2 := by
        rw [hst]
        exact relaxNeighbors_outside g1 e current rest q hqT
      rw [hout]
      exact hg1ne q hq
  refine ⟨⟨hsh0st, ?_, ?_, ?_, ?_, ?_, ?_, ?_, ?_, ?_, ?_, ?_, ?_, ?_,
    ?_, ?_, ?_⟩, ?_, ?_⟩
  · -- types
    intro r c
    rw [(hstFields r c).2.1, hg1type r c, inv.types r c]
  · -- sVis
    exact (hstVis s (Ne.symm hcs)).trans inv.sVis
  · -- sG
    rcases hmaster s (Ne.symm hcs) with h | ⟨hun, _, _, _, _, _⟩
    · rw [h]
      exact inv.sG
    · exfalso
      rw [inv.sVis] at hun
      cases hun
  · -- sPrev
    rcases hmaster s (Ne.symm hcs) with h | ⟨hun, _, _, _, _, _⟩
    · rw [h]
      exact inv.sPrev
    · exfalso
      rw [inv.sVis] at hun
      cases hun
  · -- eUnvis
    exact (hstVis e (Ne.symm hce)).trans inv.eUnvis
  · -- ond
    rw [hΔeq]
    exact hΔnd hrnd
  · -- omem
    intro p hp
    rw [hΔeq] at hp
    rcases List.mem_append.mp hp with h | h
    · exact inv.omem p (hsub p h)
    · exact hTmem0 p (hΔm p h).1
  · -- ononwall
    intro p hp
    rw [hΔeq] at hp
    rcases List.mem_append.mp hp with h | h
    · exact inv.ononwall p (hsub p h)
    · intro hw
      apply (hΔm p h).2.2.2
      rw [hg1type p.1 p.2, inv.types p.1 p.2]
      exact hw
  · -- ounvis
    intro p hp
    rw [hΔeq] at hp
    rcases List.mem_append.mp hp with h | h
    · have hpc : p ≠ current := fun he => hcnr (he ▸ h)
      rw [hstVis p hpc]
      exact inv.ounvis p (hsub p h)
    · exact ((hstFields p.1 p.2).1).trans (hΔm p h).2.2.1
  · -- oLab
    intro p hp
    by_cases hpr : p ∈ rest
    · have hpc : p ≠ current := fun he => hcnr (he ▸ hpr)
      rcases hmaster p hpc with hm | ⟨_, _, _, _, hm, _⟩
      · rw [hm]
        exact inv.oLab p (hsub p hpr)
      · right
        rw [hm]
        exact Nat.succ_ne_zero _
    · right
      rw [(hnew p hp hpr).2.1]
      exact Nat.succ_ne_zero _
  · -- oFH
    intro p hp
    by_cases hpr : p ∈ rest
    · have hpc : p ≠ current := fun he => hcnr (he ▸ hpr)
      rcases hmaster p hpc with hm | ⟨_, _, _, _, hm, _⟩
      · rw [hm]
        exact inv.oFH p (hsub p hpr)
      · rw [hm]
    · rw [(hnew p hp hpr).2.1]
  · -- labSound
    intro v hvs hvg
    by_cases hvc : v = current
    · subst hvc
      rw [hstcurG] at hvg ⊢
      exact inv.labSound v hvs hvg
    · rcases hmaster v hvc with hm | ⟨_, htyw, _, hnb, hm, _⟩
      · rw [hm] at hvg ⊢
        exact inv.labSound v hvs hvg
      · rw [hm]
        show wP g0 ((cellAt g current.1 current.2).g + 1) s v = true
        have hvw0 : (cellAt g0 v.1 v.2).type ≠ CellType.wall := by
          intro hw
          apply htyw
          rw [inv.types v.1 v.2]
          exact hw
        exact wP_step g0 _ s current v (inv.labSound current hcs hcg)
          hcmem0 hnb hvw0
  · -- visExact
    intro v hvv
    by_cases hvc : v = current
    · subst hvc
      rw [hstcurG]
      exact hcex
    · have hiv : (cellAt g v.1 v.2).isVisited = true := by
        rw [← hstVis v hvc]
        exact hvv
      rcases hmaster v hvc with hm | ⟨hun, _, _, _, _, _⟩
      · rw [hm]
        exact inv.visExact v hiv
      · exfalso
        rw [hiv] at hun
        cases hun
  · -- closure
    intro u huv v hnb hvw hvun
    have hvc : v ≠ current := by
      intro h
      rw [h, hstcurvis] at hvun
      cases hvun
    have hvung : (cellAt g v.1 v.2).isVisited = false := by
      rw [← hstVis v hvc]
      exact hvun
    by_cases huc : u = current
    · subst huc
      have hvT : v ∈ getNeighborsPos g1 u.1 u.2 := by
        apply (mem_getNeighborsPos g1 u.1 u.2 v).mpr
        constructor
        · rw [hnbr1]
          exact hnb
        · rw [hg1ne v hvc]
          exact hvung
      obtain ⟨t1, t2, t3⟩ := htri v hvT
      have hq1 : cellAt g1 v.1 v.2 = cellAt g v.1 v.2 := hg1ne v hvc
      rw [hq1] at t1 t2 t3
      rw [hg1gC] at t2 t3
      have hvnw : ¬((cellAt g v.1 v.2).isVisited = true ∨
          (cellAt g v.1 v.2).type = CellType.wall) := by
        rintro (h | h)
        · rw [hvung] at h
          cases h
        · apply hvw
          rw [← inv.types v.1 v.2]
          exact h
      by_cases hgd : (cellAt g v.1 v.2).g = 0 ∨
          (cellAt g u.1 u.2).g + 1 < (cellAt g v.1 v.2).g
      · constructor
        · right
          rw [(t3 hvnw hgd).1]
          exact Nat.succ_ne_zero _
        · rw [(t3 hvnw hgd).1, hstcurG]
      · constructor
        · right
          rw [t2 hvnw hgd]
          omega
        · rw [t2 hvnw hgd, hstcurG]
          omega
    · have huvg : (cellAt g u.1 u.2).isVisited = true := by
        rw [← hstVis u huc]
        exact huv
      have hmu : cellAt st.1 u.1 u.2 = cellAt g u.1 u.2 := by
        rcases hmaster u huc with hm | ⟨hun, _, _, _, _, _⟩
        · exact hm
        · exfalso
          rw [huvg] at hun
          cases hun
      obtain ⟨hlabg, hleg⟩ := inv.closure u huvg v hnb hvw hvung
      have hvs : v ≠ s := by
        intro h
        rw [h, inv.sVis] at hvung
        cases hvung
      have hvlabg : (cellAt g v.1 v.2).g ≠ 0 := by
        rcases hlabg with h | h
        · exact absurd h hvs
        · exact h
      rcases hmaster v hvc with hm | ⟨_, _, hgd, _, hm, _⟩
      · rw [hm, hmu]
        exact ⟨hlabg, hleg⟩
      · rw [hm, hmu]
        constructor
        · right
          exact Nat.succ_ne_zero _
        · show (cellAt g current.1 current.2).g + 1 ≤
            (cellAt g u.1 u.2).g + 1
          rcases hgd with h | h
          · exact absurd h hvlabg
          · omega
  · -- labOpen
    intro v hvlab hvun
    have hvc : v ≠ current := by
      intro h
      rw [h, hstcurvis] at hvun
      cases hvun
    rcases hmaster v hvc with hm | ⟨_, _, _, _, _, hm2⟩
    · rw [hm] at hvlab
      have hvung : (cellAt g v.1 v.2).isVisited = false := by
        rw [← hstVis v hvc]
        exact hvun
      have hvo := inv.labOpen v hvlab hvung
      have hvo2 : v ∈ current :: rest :=
        hsort ▸ hperm.symm.subset hvo
      rcases List.mem_cons.mp hvo2 with h | h
      · exact absurd h hvc
      · rw [hΔeq]
        exact List.mem_append_left Δ h
    · exact hm2
  · -- hPrevA
    intro v hvs hvg
    by_cases hvc : v = current
    · subst hvc
      rw [hstcurG] at hvg
      obtain ⟨u, hpu, huvg, hgu⟩ := inv.hPrevA v hvs hvg
      have huc : u ≠ v := by
        intro h
        rw [h, hcun] at huvg
        cases huvg
      have hmu : cellAt st.1 u.1 u.2 = cellAt g u.1 u.2 := by
        rcases hmaster u huc with hm | ⟨hun, _, _, _, _, _⟩
        · exact hm
        · exfalso
          rw [huvg] at hun
          cases hun
      refine ⟨u, ?_, hvisMono u huvg, ?_⟩
      · rw [show (cellAt st.1 v.1 v.2).previousNode =
          (cellAt g v.1 v.2).previousNode from by rw [hstcur]]
        exact hpu
      · rw [hstcurG, hmu]
        exact hgu
    · rcases hmaster v hvc with hm | ⟨_, _, _, _, hm, _⟩
      · rw [hm] at hvg
        obtain ⟨u, hpu, huvg, hgu⟩ := inv.hPrevA v hvs hvg
        have huc : u ≠ current := by
          intro h
          rw [h, hcun] at huvg
          cases huvg
        have hmu : cellAt st.1 u.1 u.2 = cellAt g u.1 u.2 := by
          rcases hmaster u huc with hm2 | ⟨hun, _, _, _, _, _⟩
          · exact hm2
          · exfalso
            rw [huvg] at hun
            cases hun
        refine ⟨u, ?_, hvisMono u huvg, ?_⟩
        · rw [hm]
          exact hpu
        · rw [hm, hmu]
          exact hgu
      · refine ⟨current, ?_, hstcurvis, ?_⟩
        · rw [hm]
        · rw [hm, hstcurG]
  · -- one more cell is visited
    exact aU_mark g0 g st.1 current hcmem0 hcun hstcurvis
      (fun q hq => hstVis q hq)
  · -- the open set grows by at most four
    rw [hΔeq, List.length_append]
    have h4 := getNeighborsPos_length_le g1 current.1 current.2
    omega

/-- What holds of the grid an `aStar` run leaves behind: the end cell's
`g` label is the exact wall-avoiding distance and the back-pointer chain
decreases labels by one down to the start. -/
def AStarPost (g0 : Grid) (s e : Nat × Nat) (D : Nat) (gf : Grid) : Prop :=
  ShapeEq g0 gf ∧
  (cellAt gf e.1 e.2).g = D ∧
  (cellAt gf s.1 s.2).g = 0 ∧
  (cellAt gf s.1 s.2).previousNode = none ∧
  (∀ v : Nat × Nat, v ≠ s → (cellAt gf v.1 v.2).g ≠ 0 →
    ∃ u : Nat × Nat, (cellAt gf v.1 v.2).previousNode = some u ∧
      (u = s ∨ (cellAt gf u.1 u.2).g ≠ 0) ∧
      (cellAt gf v.1 v.2).g = (cellAt gf u.1 u.2).g + 1) ∧
  (e = s ∨ (cellAt gf e.1 e.2).g ≠ 0)

theorem aStarLoop_correct (g0 : Grid) (s e : Nat × Nat) (D : Nat)
    (hrect : ∀ r, r < (g0 : List (List Cell)).length →
      ((g0 : List (List Cell)).getD r []).length =
      ((g0 : List (List Cell)).getD 0 []).length)
    (hem : e ∈ getAllNodesPos g0)
    (hD : WDistP g0 s e D) :
    ∀ (fuel : Nat) (g : Grid) (openSet vis : List (Nat × Nat)),
    AInv g0 s e g openSet →
    openSet.length + 5 * aU g0 g ≤ fuel →
    AStarPost g0 s e D (aStarLoop fuel g e openSet vis).1 ∧
    e ∈ (aStarLoop fuel g e openSet vis).2 := by
  intro fuel
  induction fuel with
  | zero =>
    intro g openSet vis inv hbud
    exfalso
    have he1 : e ∈ (getAllNodesPos g0).filter fun v =>
        decide (¬(cellAt g v.1 v.2).isVisited = true) :=
      List.mem_filter.mpr ⟨hem, by simp [inv.eUnvis]⟩
    have h2 : 0 < aU g0 g := by
      unfold aU
      exact List.length_pos.mpr (List.ne_nil_of_mem he1)
    omega
  | succ fuel ih =>
    intro g openSet vis inv hbud
    have hperm := sortNodesByF_perm g openSet
    rw [aStarLoop]
    cases hs2 : sortNodesByF g openSet with
    | nil =>
      exfalso
      have hoe : openSet = [] := by
        rw [hs2] at hperm
        exact hperm.symm.eq_nil
      rcases aStar_witness_lemma g0 s e g openSet inv D e hD with h | ⟨w, hw, _⟩
      · rw [inv.eUnvis] at h
        cases h
      · rw [hoe] at hw
        exact absurd hw (List.not_mem_nil w)
    | cons current rest =>
      have hpermC : (current :: rest).Perm openSet := hs2 ▸ hperm
      have hcm : current ∈ openSet :=
        hpermC.subset (List.mem_cons_self current rest)
      have hlen : openSet.length = rest.length + 1 := by
        have h1 := hpermC.length_eq
        rw [List.length_cons] at h1
        omega
      dsimp only
      by_cases hwall : (cellAt g current.1 current.2).type = CellType.wall
      · exfalso
        apply inv.ononwall current hcm
        rw [← inv.types current.1 current.2]
        exact hwall
      · rw [if_neg hwall]
        have hcun : (cellAt g current.1 current.2).isVisited = false :=
          inv.ounvis current hcm
        have hcs : current ≠ s := by
          intro h
          have h2 := inv.sVis
          rw [← h] at h2
          rw [hcun] at h2
          cases h2
        have hcb := allPos_bounds g0 g inv.shape current
          (inv.omem current hcm)
        by_cases hce : current = e
        · rw [if_pos hce]
          dsimp only
          have hcex := aStar_pop_exact g0 s e g openSet rest current
            inv hs2
          have hgD : (cellAt g current.1 current.2).g = D := by
            apply wdist_unique g0 s current _ D hcex
            rw [hce]
            exact hD
          have hg1self : cellAt (setCell g current.1 current.2
              { cellAt g current.1 current.2 with isVisited := true })
              current.1 current.2 =
              { cellAt g current.1 current.2 with isVisited := true } :=
            cellAt_setCell_self g current.1 current.2 _ hcb.1 hcb.2
          have hg1ne : ∀ q : Nat × Nat, q ≠ current →
              cellAt (setCell g current.1 current.2
                { cellAt g current.1 current.2 with isVisited := true })
                q.1 q.2 = cellAt g q.1 q.2 := fun q hq =>
            cellAt_setCell_ne g current.1 current.2 _ q.1 q.2
              (pair_ne_comp hq)
          have hg1g : ∀ q : Nat × Nat,
              (cellAt (setCell g current.1 current.2
                { cellAt g current.1 current.2 with isVisited := true })
                q.1 q.2).g = (cellAt g q.1 q.2).g := by
            intro q
            by_cases hq : q = current
            · have h1 : q.1 = current.1 := by rw [hq]
              have h2 : q.2 = current.2 := by rw [hq]
              rw [h1, h2, hg1self]
            · rw [hg1ne q hq]
          have hg1prev : ∀ q : Nat × Nat,
              (cellAt (setCell g current.1 current.2
                { cellAt g current.1 current.2 with isVisited := true })
                q.1 q.2).previousNode =
                (cellAt g q.1 q.2).previousNode := by
            intro q
            by_cases hq : q = current
            · have h1 : q.1 = current.1 := by rw [hq]
              have h2 : q.2 = current.2 := by rw [hq]
              rw [h1, h2, hg1self]
            · rw [hg1ne q hq]
          have hlabvis : ∀ u : Nat × Nat,
              (cellAt g u.1 u.2).isVisited = true →
              (u = s ∨ (cellAt g u.1 u.2).g ≠ 0) := by
            intro u hu
            by_cases h : (cellAt g u.1 u.2).g = 0
            · left
              have h2 := inv.visExact u hu
              rw [h] at h2
              exact (wP_zero_iff g0 s u).mp h2.1
            · exact Or.inr h
          have hDnz : D ≠ 0 := by
            intro h
            apply hcs
            rw [hce]
            rw [h] at hD
            exact (wP_zero_iff g0 s e).mp hD.1
          refine ⟨⟨shapeEq_trans inv.shape
            (shapeEq_setCell g current.1 current.2 _), ?_, ?_, ?_, ?_, ?_⟩,
            ?_⟩
          · rw [hg1g e, ← hce]
            exact hgD
          · rw [hg1g s]
            exact inv.sG
          · rw [hg1prev s]
            exact inv.sPrev
          · intro v hvs hvg
            rw [hg1g v] at hvg
            obtain ⟨u, hpu, huvis, hgu⟩ := inv.hPrevA v hvs hvg
            refine ⟨u, ?_, ?_, ?_⟩
            · rw [hg1prev v]
              exact hpu
            · rcases hlabvis u huvis with h | h
              · exact Or.inl h
              · right
                rw [hg1g u]
                exact h
            · rw [hg1g v, hg1g u]
              exact hgu
          · right
            rw [hg1g e, ← hce, hgD]
            exact hDnz
          · show e ∈ vis ++ [current]
            apply List.mem_append_right
            rw [hce]
            exact List.mem_singleton.mpr rfl
        · rw [if_neg hce]
          obtain ⟨hinv2, haU, hlen2⟩ := aStar_step_AInv g0 hrect s e g
            openSet rest current inv hs2 hce
            (setCell g current.1 current.2
              { cellAt g current.1 current.2 with isVisited := true }) rfl
            (relaxNeighbors (setCell g current.1 current.2
              { cellAt g current.1 current.2 with isVisited := true })
              e current rest) rfl
          dsimp only at hinv2 haU hlen2
          exact ih _ _ (vis ++ [current]) hinv2 (by omega)

/-- After `aStar` initialises the start cell and the first iteration pops
it (the open set is the singleton start), the loop invariant holds. -/
theorem aStar_init_AInv (g0 : Grid)
    (hrect : ∀ r, r < (g0 : List (List Cell)).length →
      ((g0 : List (List Cell)).getD r []).length =
      ((g0 : List (List Cell)).getD 0 []).length)
    (s e : Nat × Nat)
    (hsm : s ∈ getAllNodesPos g0) (hse : s ≠ e)
    (hfresh : ∀ r c, (cellAt g0 r c).isVisited = false ∧
      (cellAt g0 r c).previousNode = none ∧ (cellAt g0 r c).g = 0)
    (gI : Grid)
    (hgI : gI = setCell g0 s.1 s.2 { cellAt g0 s.1 s.2 with
      g := 0, h := heuristic s e, f := heuristic s e })
    (g1I : Grid)
    (hg1I : g1I = setCell gI s.1 s.2
      { cellAt gI s.1 s.2 with isVisited := true })
    (st : Grid × List (Nat × Nat))
    (hst : st = relaxNeighbors g1I e s []) :
    AInv g0 s e st.1 st.2 ∧ aU g0 gI = aU g0 st.1 + 1 ∧
    st.2.length ≤ 4 ∧ aU g0 gI = (getAllNodesPos g0).length := by
  have hscb := allPos_bounds g0 g0 (shapeEq_refl g0) s hsm
  have hgIself : cellAt gI s.1 s.2 = { cellAt g0 s.1 s.2 with
      g := 0, h := heuristic s e, f := heuristic s e } := by
    rw [hgI]
    exact cellAt_setCell_self g0 s.1 s.2 _ hscb.1 hscb.2
  have hgIne : ∀ q : Nat × Nat, q ≠ s →
      cellAt gI q.1 q.2 = cellAt g0 q.1 q.2 := by
    intro q hq
    rw [hgI]
    exact cellAt_setCell_ne g0 s.1 s.2 _ q.1 q.2 (pair_ne_comp hq)
  have hshI : ShapeEq g0 gI := by
    rw [hgI]
    exact shapeEq_setCell g0 s.1 s.2 _
  have hgIvis : ∀ r c, (cellAt gI r c).isVisited = false := by
    intro r c
    by_cases hq : (r, c) = s
    · have h1 : r = s.1 := by rw [← hq]
      have h2 : c = s.2 := by rw [← hq]
      subst h1
      subst h2
      rw [hgIself]
      exact (hfresh s.1 s.2).1
    · rw [show cellAt gI r c = cellAt g0 r c from hgIne (r, c) hq]
      exact (hfresh r c).1
  have hgItype : ∀ r c, (cellAt gI r c).type = (cellAt g0 r c).type := by
    intro r c
    by_cases hq : (r, c) = s
    · have h1 : r = s.1 := by rw [← hq]
      have h2 : c = s.2 := by rw [← hq]
      subst h1
      subst h2
      rw [hgIself]
    · rw [show cellAt gI r c = cellAt g0 r c from hgIne (r, c) hq]
  have hgIprev : ∀ r c, (cellAt gI r c).previousNode = none := by
    intro r c
    by_cases hq : (r, c) = s
    · have h1 : r = s.1 := by rw [← hq]
      have h2 : c = s.2 := by rw [← hq]
      subst h1
      subst h2
      rw [hgIself]
      exact (hfresh s.1 s.2).2.1
    · rw [show cellAt gI r c = cellAt g0 r c from hgIne (r, c) hq]
      exact (hfresh r c).2.1
  have hgIg : ∀ r c, (cellAt gI r c).g = 0 := by
    intro r c
    by_cases hq : (r, c) = s
    · have h1 : r = s.1 := by rw [← hq]
      have h2 : c = s.2 := by rw [← hq]
      subst h1
      subst h2
      rw [hgIself]
    · rw [show cellAt gI r c = cellAt g0 r c from hgIne (r, c) hq]
      exact (hfresh r c).2.2
  have hgicb := allPos_bounds g0 gI hshI s hsm
  have hg1Iself : cellAt g1I s.1 s.2 =
      { cellAt gI s.1 s.2 with isVisited := true } := by
    rw [hg1I]
    exact cellAt_setCell_self gI s.1 s.2 _ hgicb.1 hgicb.2
  have hg1Ine : ∀ q : Nat × Nat, q ≠ s →
      cellAt g1I q.1 q.2 = cellAt gI q.1 q.2 := by
    intro q hq
    rw [hg1I]
    exact cellAt_setCell_ne gI s.1 s.2 _ q.1 q.2 (pair_ne_comp hq)
  have hsh1 : ShapeEq g0 g1I := by
    rw [hg1I]
    exact shapeEq_trans hshI (shapeEq_setCell gI s.1 s.2 _)
  have hg1Ieq : ∀ q : Nat × Nat, q ≠ s →
      cellAt g1I q.1 q.2 = cellAt g0 q.1 q.2 := fun q hq =>
    (hg1Ine q hq).trans (hgIne q hq)
  have hg1IvisS : (cellAt g1I s.1 s.2).isVisited = true := by
    rw [hg1Iself]
  have hg1IgS : (cellAt g1I s.1 s.2).g = 0 := by
    rw [hg1Iself]
    show (cellAt gI s.1 s.2).g = 0
    exact hgIg s.1 s.2
  have hg1Itype : ∀ r c, (cellAt g1I r c).type = (cellAt g0 r c).type := by
    intro r c
    by_cases hq : (r, c) = s
    · have h1 : r = s.1 := by rw [← hq]
      have h2 : c = s.2 := by rw [← hq]
      subst h1
      subst h2
      rw [hg1Iself]
      show (cellAt gI s.1 s.2).type = (cellAt g0 s.1 s.2).type
      exact hgItype s.1 s.2
    · rw [show cellAt g1I r c = cellAt g0 r c from hg1Ieq (r, c) hq]
  have hg1Iprev : ∀ r c, (cellAt g1I r c).previousNode = none := by
    intro r c
    by_cases hq : (r, c) = s
    · have h1 : r = s.1 := by rw [← hq]
      have h2 : c = s.2 := by rw [← hq]
      subst h1
      subst h2
      rw [hg1Iself]
      show (cellAt gI s.1 s.2).previousNode = none
      exact hgIprev s.1 s.2
    · rw [show cellAt g1I r c = cellAt g0 r c from hg1Ieq (r, c) hq]
      exact (hfresh r c).2.1
  have hg1IvisNe : ∀ q : Nat × Nat, q ≠ s →
      (cellAt g1I q.1 q.2).isVisited = false := by
    intro q hq
    rw [hg1Ine q hq]
    exact hgIvis q.1 q.2
  have hnbr1 : nbrPos g1I s.1 s.2 = nbrPos g0 s.1 s.2 :=
    nbrPos_shape g0 g1I hsh1 s.1 s.2
  have hT : ∀ p ∈ getNeighborsPos g1I s.1 s.2,
      p ∈ nbrPos g0 s.1 s.2 ∧ (cellAt g1I p.1 p.2).isVisited = false := by
    intro p hp
    obtain ⟨h1, h2⟩ := (mem_getNeighborsPos g1I s.1 s.2 p).mp hp
    rw [hnbr1] at h1
    exact ⟨h1, h2⟩
  have hTne : ∀ p ∈ getNeighborsPos g1I s.1 s.2, p ≠ s := by
    intro p hp hpc
    have h2 := (hT p hp).2
    rw [hpc, hg1IvisS] at h2
    cases h2
  have hTmem0 : ∀ p ∈ getNeighborsPos g1I s.1 s.2,
      p ∈ getAllNodesPos g0 := fun p hp =>
    nbrPos_mem_allPos g0 hrect s hsm p (hT p hp).1
  have hTbd : ∀ p ∈ getNeighborsPos g1I s.1 s.2,
      p.1 < (g1I : List (List Cell)).length ∧
      p.2 < ((g1I : List (List Cell)).getD p.1 []).length := fun p hp =>
    allPos_bounds g0 g1I hsh1 p (hTmem0 p hp)
  have htri := relaxNeighbors_targets g1I e s [] hTne hTbd
  rw [← hst] at htri
  obtain ⟨Δ, hΔeq, hΔm, hΔl, hΔnd⟩ := relaxNeighbors_open g1I e s []
  rw [← hst] at hΔeq
  have hdelta := relaxNeighbors_delta g1I e s [] hTne
  rw [← hst] at hdelta
  have hstFields : ∀ r c,
      (cellAt st.1 r c).isVisited = (cellAt g1I r c).isVisited ∧
      (cellAt st.1 r c).type = (cellAt g1I r c).type ∧
      (cellAt st.1 r c).distance = (cellAt g1I r c).distance := by
    intro r c
    rw [hst]
    exact relaxNeighbors_fields g1I e s [] r c
  have hshSt : ShapeEq g0 st.1 := by
    rw [hst]
    exact shapeEq_trans hsh1 (relaxNeighbors_shape g1I e s [])
  have hcurT : s ∉ getNeighborsPos g1I s.1 s.2 :=
    fun h => (hTne s h) rfl
  have hstS : cellAt st.1 s.1 s.2 = cellAt g1I s.1 s.2 := by
    rw [hst]
    exact relaxNeighbors_outside g1I e s [] s hcurT
  have hsVis : (cellAt st.1 s.1 s.2).isVisited = true :=
    (congrArg Cell.isVisited hstS).trans hg1IvisS
  have hsG : (cellAt st.1 s.1 s.2).g = 0 :=
    (congrArg Cell.g hstS).trans hg1IgS
  have hmasterI : ∀ q : Nat × Nat, q ≠ s →
      cellAt st.1 q.1 q.2 = cellAt g0 q.1 q.2 ∨
      ((cellAt g0 q.1 q.2).isVisited = false ∧
       (cellAt g0 q.1 q.2).type ≠ CellType.wall ∧
       q ∈ nbrPos g0 s.1 s.2 ∧
       cellAt st.1 q.1 q.2 =
         { cellAt g0 q.1 q.2 with
           previousNode := some s, g := 0 + 1, h := heuristic q e,
           f := 0 + 1 + heuristic q e } ∧
       q ∈ st.2) := by
    intro q hq
    by_cases hqT : q ∈ getNeighborsPos g1I s.1 s.2
    · have hq1 : cellAt g1I q.1 q.2 = cellAt g0 q.1 q.2 := hg1Ieq q hq
      obtain ⟨t1, t2, t3⟩ := htri q hqT
      rw [hq1] at t1 t2 t3
      rw [hg1IgS] at t2 t3
      by_cases hqw : (cellAt g0 q.1 q.2).type = CellType.wall
      · exact Or.inl (t1 (Or.inr hqw))
      · have hnvw : ¬((cellAt g0 q.1 q.2).isVisited = true ∨
            (cellAt g0 q.1 q.2).type = CellType.wall) := by
          rintro (h | h)
          · rw [(hfresh q.1 q.2).1] at h
            cases h
          · exact hqw h
        have hgd : (cellAt g0 q.1 q.2).g = 0 ∨
            0 + 1 < (cellAt g0 q.1 q.2).g :=
          Or.inl (hfresh q.1 q.2).2.2
        exact Or.inr ⟨(hfresh q.1 q.2).1, hqw, (hT q hqT).1,
          (t3 hnvw hgd).1, (t3 hnvw hgd).2⟩
    · left
      have hout : cellAt st.1 q.1 q.2 = cellAt g1I q.1 q.2 := by
        rw [hst]
        exact relaxNeighbors_outside g1I e s [] q hqT
      rw [hout]
      exact hg1Ieq q hq
  have hnew : ∀ x ∈ st.2,
      x ≠ s ∧ x ∈ nbrPos g0 s.1 s.2 ∧
      (cellAt g0 x.1 x.2).isVisited = false ∧
      (cellAt g0 x.1 x.2).type ≠ CellType.wall ∧
      cellAt st.1 x.1 x.2 =
        { cellAt g0 x.1 x.2 with
          previousNode := some s, g := 0 + 1, h := heuristic x e,
          f := 0 + 1 + heuristic x e } := by
    intro x hx
    obtain ⟨hxT, hxg, hxgd⟩ := hdelta x hx (List.not_mem_nil x)
    have hxc : x ≠ s := hTne x hxT
    rcases hmasterI x hxc with hm | ⟨h1, h2, h3, h4, _⟩
    · exfalso
      obtain ⟨_, _, t3⟩ := htri x hxT
      have hq1 : cellAt g1I x.1 x.2 = cellAt g0 x.1 x.2 := hg1Ieq x hxc
      rw [hq1] at hxg t3
      rw [hg1IgS] at t3
      have hgd : (cellAt g0 x.1 x.2).g = 0 ∨
          0 + 1 < (cellAt g0 x.1 x.2).g :=
        Or.inl (hfresh x.1 x.2).2.2
      have hrec := (t3 hxg hgd).1
      rw [hm] at hrec
      have hp : (cellAt g0 x.1 x.2).previousNode = some s :=
        congrArg Cell.previousNode hrec
      rw [(hfresh x.1 x.2).2.1] at hp
      cases hp
    · exact ⟨hxc, h3, h1, h2, h4⟩
  refine ⟨⟨hshSt, ?_, hsVis, hsG, ?_, ?_, ?_, ?_, ?_, ?_, ?_, ?_, ?_, ?_,
    ?_, ?_, ?_⟩, ?_, ?_, ?_⟩
  · -- types
    intro r c
    rw [(hstFields r c).2.1, hg1Itype r c]
  · -- sPrev
    exact (congrArg Cell.previousNode hstS).trans (hg1Iprev s.1 s.2)
  · -- eUnvis
    rw [(hstFields e.1 e.2).1]
    exact hg1IvisNe e (Ne.symm hse)
  · -- ond
    rw [hΔeq]
    exact hΔnd List.nodup_nil
  · -- omem
    intro p hp
    exact nbrPos_mem_allPos g0 hrect s hsm p (hnew p hp).2.1
  · -- ononwall
    intro p hp
    exact (hnew p hp).2.2.2.1
  · -- ounvis
    intro p hp
    rw [(hstFields p.1 p.2).1,
      show cellAt g1I p.1 p.2 = cellAt g0 p.1 p.2 from
        hg1Ieq p (hnew p hp).1]
    exact (hnew p hp).2.2.1
  · -- oLab
    intro p hp
    right
    rw [(hnew p hp).2.2.2.2]
    exact Nat.succ_ne_zero 0
  · -- oFH
    intro p hp
    rw [(hnew p hp).2.2.2.2]
  · -- labSound
    intro v hvs hvg
    rcases hmasterI v hvs with hm | ⟨_, hw, hnb, hm, _⟩
    · exfalso
      rw [hm, (hfresh v.1 v.2).2.2] at hvg
      exact hvg rfl
    · rw [hm]
      show wP g0 (0 + 1) s v = true
      exact wP_step g0 0 s s v (wP_zero g0 s) hsm hnb hw
  · -- visExact
    intro v hvv
    by_cases hvs : v = s
    · have h1 : v.1 = s.1 := by rw [hvs]
      have h2 : v.2 = s.2 := by rw [hvs]
      rw [h1, h2, hsG]
      rw [hvs]
      exact wdist_zero g0 s
    · exfalso
      rcases hmasterI v hvs with hm | ⟨hun, _, _, hm, _⟩
      · rw [hm, (hfresh v.1 v.2).1] at hvv
        cases hvv
      · rw [hm] at hvv
        have h3 : (cellAt g0 v.1 v.2).isVisited = true := hvv
        rw [(hfresh v.1 v.2).1] at h3
        cases h3
  · -- closure
    intro u huv v hnb hvw hvun
    have hus : u = s := by
      by_contra hneu
      rcases hmasterI u hneu with hm | ⟨_, _, _, hm, _⟩
      · rw [hm, (hfresh u.1 u.2).1] at huv
        cases huv
      · rw [hm] at huv
        have h3 : (cellAt g0 u.1 u.2).isVisited = true := huv
        rw [(hfresh u.1 u.2).1] at h3
        cases h3
    have hvs : v ≠ s := by
      intro h
      have h1 : v.1 = s.1 := by rw [h]
      have h2 : v.2 = s.2 := by rw [h]
      rw [h1, h2, hsVis] at hvun
      cases hvun
    have hnb2 : v ∈ nbrPos g0 s.1 s.2 := by
      rw [← show u.1 = s.1 from by rw [hus],
        ← show u.2 = s.2 from by rw [hus]]
      exact hnb
    have hvT : v ∈ getNeighborsPos g1I s.1 s.2 := by
      apply (mem_getNeighborsPos g1I s.1 s.2 v).mpr
      constructor
      · rw [hnbr1]
        exact hnb2
      · exact hg1IvisNe v hvs
    obtain ⟨t1, t2, t3⟩ := htri v hvT
    have hq1 : cellAt g1I v.1 v.2 = cellAt g0 v.1 v.2 := hg1Ieq v hvs
    rw [hq1] at t1 t2 t3
    rw [hg1IgS] at t2 t3
    have hnvw : ¬((cellAt g0 v.1 v.2).isVisited = true ∨
        (cellAt g0 v.1 v.2).type = CellType.wall) := by
      rintro (h | h)
      · rw [(hfresh v.1 v.2).1] at h
        cases h
      · exact hvw h
    have hgd : (cellAt g0 v.1 v.2).g = 0 ∨
        0 + 1 < (cellAt g0 v.1 v.2).g :=
      Or.inl (hfresh v.1 v.2).2.2
    constructor
    · right
      rw [(t3 hnvw hgd).1]
      exact Nat.succ_ne_zero 0
    · rw [(t3 hnvw hgd).1,
        show u.1 = s.1 from by rw [hus],
        show u.2 = s.2 from by rw [hus], hsG]
  · -- labOpen
    intro v hvlab hvun
    have hvs : v ≠ s := by
      intro h
      have h1 : v.1 = s.1 := by rw [h]
      have h2 : v.2 = s.2 := by rw [h]
      rw [h1, h2, hsVis] at hvun
      cases hvun
    have hvg : (cellAt st.1 v.1 v.2).g ≠ 0 := by
      rcases hvlab with h | h
      · exact absurd h hvs
      · exact h
    rcases hmasterI v hvs with hm | ⟨_, _, _, _, hm2⟩
    · exfalso
      rw [hm, (hfresh v.1 v.2).2.2] at hvg
      exact hvg rfl
    · exact hm2
  · -- hPrevA
    intro v hvs hvg
    rcases hmasterI v hvs with hm | ⟨_, _, _, hm, _⟩
    · exfalso
      rw [hm, (hfresh v.1 v.2).2.2] at hvg
      exact hvg rfl
    · refine ⟨s, ?_, hsVis, ?_⟩
      · rw [hm]
      · rw [hm, hsG]
  · -- one visit
    exact aU_mark g0 gI st.1 s hsm (hgIvis s.1 s.2) hsVis
      (fun q hq => ((hstFields q.1 q.2).1).trans
        (congrArg Cell.isVisited (hg1Ine q hq)))
  · -- open set small
    rw [hΔeq, List.nil_append]
    exact Nat.le_trans hΔl (getNeighborsPos_length_le g1I s.1 s.2)
  · -- everything unvisited initially
    unfold aU
    rw [List.filter_eq_self.mpr]
    intro x _
    simp [hgIvis x.1 x.2]

/-- On a fresh rectangular grid whose reachable end cell is at
wall-avoiding distance `D`, the `aStar` recorder's derived shortest path
has exactly `D + 1` nodes. -/
theorem aStar_path_length (g : Grid) (s e : Nat × Nat) (D : Nat)
    (hfresh : ∀ r c, (cellAt g r c).isVisited = false ∧
      (cellAt g r c).previousNode = none ∧ (cellAt g r c).g = 0)
    (hrect : ∀ r, r < (g : List (List Cell)).length →
      ((g : List (List Cell)).getD r []).length =
      ((g : List (List Cell)).getD 0 []).length)
    (hsm : s ∈ getAllNodesPos g)
    (hem : e ∈ getAllNodesPos g)
    (hsw : (cellAt g s.1 s.2).type ≠ CellType.wall)
    (hD : WDistP g s e D) :
    (getNodesInShortestPathOrder (aStar g s e).1 e).length = D + 1 ∧
    e ∈ (aStar g s e).2 := by
  have hscb := allPos_bounds g g (shapeEq_refl g) s hsm
  have hgIselfW : cellAt (setCell g s.1 s.2 { cellAt g s.1 s.2 with
      g := 0, h := heuristic s e, f := heuristic s e }) s.1 s.2 =
      { cellAt g s.1 s.2 with
        g := 0, h := heuristic s e, f := heuristic s e } :=
    cellAt_setCell_self g s.1 s.2 _ hscb.1 hscb.2
  have hshIW : ShapeEq g (setCell g s.1 s.2 { cellAt g s.1 s.2 with
      g := 0, h := heuristic s e, f := heuristic s e }) :=
    shapeEq_setCell g s.1 s.2 _
  have hde : aStar g s e = aStarLoop
      (5 * (getAllNodesPos (setCell g s.1 s.2 { cellAt g s.1 s.2 with
        g := 0, h := heuristic s e, f := heuristic s e })).length + 1)
      (setCell g s.1 s.2 { cellAt g s.1 s.2 with
        g := 0, h := heuristic s e, f := heuristic s e }) e [s] [] := rfl
  have hNI : (getAllNodesPos (setCell g s.1 s.2 { cellAt g s.1 s.2 with
      g := 0, h := heuristic s e, f := heuristic s e })).length =
      (getAllNodesPos g).length := by
    rw [getAllNodesPos_shape g _ hshIW]
  by_cases hse : s = e
  · have hD0 : D = 0 := wdist_unique g s e D 0 hD
      (by rw [← hse]; exact wdist_zero g s)
    have hstep0 : aStarLoop
        (5 * (getAllNodesPos (setCell g s.1 s.2 { cellAt g s.1 s.2 with
          g := 0, h := heuristic s e, f := heuristic s e })).length + 1)
        (setCell g s.1 s.2 { cellAt g s.1 s.2 with
          g := 0, h := heuristic s e, f := heuristic s e }) e [s] [] =
        (setCell (setCell g s.1 s.2 { cellAt g s.1 s.2 with
            g := 0, h := heuristic s e, f := heuristic s e }) s.1 s.2
          { cellAt (setCell g s.1 s.2 { cellAt g s.1 s.2 with
              g := 0, h := heuristic s e, f := heuristic s e }) s.1 s.2
            with isVisited := true }, [] ++ [s]) := by
      rw [aStarLoop]
      rw [show sortNodesByF (setCell g s.1 s.2 { cellAt g s.1 s.2 with
        g := 0, h := heuristic s e, f := heuristic s e }) [s] = [s]
        from rfl]
      dsimp only
      by_cases hw : (cellAt (setCell g s.1 s.2 { cellAt g s.1 s.2 with
          g := 0, h := heuristic s e, f := heuristic s e })
          s.1 s.2).type = CellType.wall
      · exfalso
        apply hsw
        rw [hgIselfW] at hw
        exact hw
      · rw [if_neg hw, if_pos hse]
    have hg1b := allPos_bounds g (setCell g s.1 s.2 { cellAt g s.1 s.2
      with g := 0, h := heuristic s e, f := heuristic s e }) hshIW s hsm
    have hg1selfW : cellAt (setCell (setCell g s.1 s.2
        { cellAt g s.1 s.2 with
          g := 0, h := heuristic s e, f := heuristic s e }) s.1 s.2
        { cellAt (setCell g s.1 s.2 { cellAt g s.1 s.2 with
            g := 0, h := heuristic s e, f := heuristic s e }) s.1 s.2
          with isVisited := true }) s.1 s.2 =
        { cellAt (setCell g s.1 s.2 { cellAt g s.1 s.2 with
            g := 0, h := heuristic s e, f := heuristic s e }) s.1 s.2
          with isVisited := true } :=
      cellAt_setCell_self _ s.1 s.2 _ hg1b.1 hg1b.2
    have hprevE : (cellAt (setCell (setCell g s.1 s.2
        { cellAt g s.1 s.2 with
          g := 0, h := heuristic s e, f := heuristic s e }) s.1 s.2
        { cellAt (setCell g s.1 s.2 { cellAt g s.1 s.2 with
            g := 0, h := heuristic s e, f := heuristic s e }) s.1 s.2
          with isVisited := true }) e.1 e.2).previousNode = none := by
      have he1 : e.1 = s.1 := by rw [← hse]
      have he2 : e.2 = s.2 := by rw [← hse]
      rw [he1, he2]
      rw [hg1selfW]
      show (cellAt (setCell g s.1 s.2 { cellAt g s.1 s.2 with
        g := 0, h := heuristic s e, f := heuristic s e })
        s.1 s.2).previousNode = none
      rw [hgIselfW]
      exact (hfresh s.1 s.2).2.1
    have hfin : (aStar g s e).1 = setCell (setCell g s.1 s.2
        { cellAt g s.1 s.2 with
          g := 0, h := heuristic s e, f := heuristic s e }) s.1 s.2
        { cellAt (setCell g s.1 s.2 { cellAt g s.1 s.2 with
            g := 0, h := heuristic s e, f := heuristic s e }) s.1 s.2
          with isVisited := true } := by
      rw [hde, hstep0]
    refine ⟨?_, ?_⟩
    · rw [hD0, hfin]
      unfold getNodesInShortestPathOrder
      rw [shortestPathOrder]
      rw [hprevE]
      rfl
    · rw [show (aStar g s e).2 = [] ++ [s] from by rw [hde, hstep0], hse]
      simp
  · have hstep : aStarLoop
        (5 * (getAllNodesPos (setCell g s.1 s.2 { cellAt g s.1 s.2 with
          g := 0, h := heuristic s e, f := heuristic s e })).length + 1)
        (setCell g s.1 s.2 { cellAt g s.1 s.2 with
          g := 0, h := heuristic s e, f := heuristic s e }) e [s] [] =
        aStarLoop
          (5 * (getAllNodesPos (setCell g s.1 s.2 { cellAt g s.1 s.2 with
            g := 0, h := heuristic s e, f := heuristic s e })).length)
          (relaxNeighbors (setCell (setCell g s.1 s.2
            { cellAt g s.1 s.2 with
              g := 0, h := heuristic s e, f := heuristic s e }) s.1 s.2
            { cellAt (setCell g s.1 s.2 { cellAt g s.1 s.2 with
                g := 0, h := heuristic s e, f := heuristic s e }) s.1 s.2
              with isVisited := true }) e s []).1
          e
          (relaxNeighbors (setCell (setCell g s.1 s.2
            { cellAt g s.1 s.2 with
              g := 0, h := heuristic s e, f := heuristic s e }) s.1 s.2
            { cellAt (setCell g s.1 s.2 { cellAt g s.1 s.2 with
                g := 0, h := heuristic s e, f := heuristic s e }) s.1 s.2
              with isVisited := true }) e s []).2
          ([] ++ [s]) := by
      rw [aStarLoop]
      rw [show sortNodesByF (setCell g s.1 s.2 { cellAt g s.1 s.2 with
        g := 0, h := heuristic s e, f := heuristic s e }) [s] = [s]
        from rfl]
      dsimp only
      by_cases hw : (cellAt (setCell g s.1 s.2 { cellAt g s.1 s.2 with
          g := 0, h := heuristic s e, f := heuristic s e })
          s.1 s.2).type = CellType.wall
      · exfalso
        apply hsw
        rw [hgIselfW] at hw
        exact hw
      · rw [if_neg hw, if_neg hse]
    have hinit := aStar_init_AInv g hrect s e hsm hse hfresh
      (setCell g s.1 s.2 { cellAt g s.1 s.2 with
        g := 0, h := heuristic s e, f := heuristic s e }) rfl
      (setCell (setCell g s.1 s.2 { cellAt g s.1 s.2 with
          g := 0, h := heuristic s e, f := heuristic s e }) s.1 s.2
        { cellAt (setCell g s.1 s.2 { cellAt g s.1 s.2 with
            g := 0, h := heuristic s e, f := heuristic s e }) s.1 s.2
          with isVisited := true }) rfl
      (relaxNeighbors (setCell (setCell g s.1 s.2
        { cellAt g s.1 s.2 with
          g := 0, h := heuristic s e, f := heuristic s e }) s.1 s.2
        { cellAt (setCell g s.1 s.2 { cellAt g s.1 s.2 with
            g := 0, h := heuristic s e, f := heuristic s e }) s.1 s.2
          with isVisited := true }) e s []) rfl
    obtain ⟨hinv0, haU0, hlen0, haUF⟩ := hinit
    have hN1 : 0 < (getAllNodesPos g).length :=
      List.length_pos.mpr (List.ne_nil_of_mem hsm)
    have hloop := aStarLoop_correct g s e D hrect hem hD
      (5 * (getAllNodesPos (setCell g s.1 s.2 { cellAt g s.1 s.2 with
        g := 0, h := heuristic s e, f := heuristic s e })).length)
      (relaxNeighbors (setCell (setCell g s.1 s.2
        { cellAt g s.1 s.2 with
          g := 0, h := heuristic s e, f := heuristic s e }) s.1 s.2
        { cellAt (setCell g s.1 s.2 { cellAt g s.1 s.2 with
            g := 0, h := heuristic s e, f := heuristic s e }) s.1 s.2
          with isVisited := true }) e s []).1
      (relaxNeighbors (setCell (setCell g s.1 s.2
        { cellAt g s.1 s.2 with
          g := 0, h := heuristic s e, f := heuristic s e }) s.1 s.2
        { cellAt (setCell g s.1 s.2 { cellAt g s.1 s.2 with
            g := 0, h := heuristic s e, f := heuristic s e }) s.1 s.2
          with isVisited := true }) e s []).2
      ([] ++ [s]) hinv0 (by rw [hNI]; omega)
    have hpost : AStarPost g s e D (aStar g s e).1 := by
      rw [hde, hstep]
      exact hloop.1
    have hvisE : e ∈ (aStar g s e).2 := by
      rw [hde, hstep]
      exact hloop.2
    obtain ⟨hshape, hgE, hgS, hprevS, hchain, hlabE⟩ := hpost
    have hlenf : (getAllNodesPos (aStar g s e).1).length =
        (getAllNodesPos g).length := by
      rw [getAllNodesPos_shape g (aStar g s e).1 hshape]
    have hcard := wdist_card g hrect s e hsm D hD
    refine ⟨?_, hvisE⟩
    unfold getNodesInShortestPathOrder
    exact aWalk_length s (aStar g s e).1 hprevS hgS hchain D e _
      hlabE hgE (by omega)

/-- The unreachable case of the `aStar` while loop: every open or visited
cell is an in-bounds cell reachable from the start by a wall-avoiding
path, so a non-wall end cell with no such path is never popped and never
relaxed — its `previousNode` is still `none` when the loop exits. -/
theorem aStarLoop_unreachable (g0 : Grid)
    (hrect : ∀ r, r < (g0 : List (List Cell)).length →
      ((g0 : List (List Cell)).getD r []).length =
      ((g0 : List (List Cell)).getD 0 []).length)
    (s e : Nat × Nat)
    (hew : (cellAt g0 e.1 e.2).type ≠ CellType.wall)
    (hunreach : ¬∃ n, wP g0 n s e = true) :
    ∀ (fuel : Nat) (g : Grid) (openSet vis : List (Nat × Nat)),
    ShapeEq g0 g →
    (∀ r c, (cellAt g r c).type = (cellAt g0 r c).type) →
    (∀ v ∈ openSet, v ∈ getAllNodesPos g0 ∧ ∃ n, wP g0 n s v = true) →
    (∀ v : Nat × Nat, (cellAt g v.1 v.2).isVisited = true →
      v ∈ getAllNodesPos g0 ∧ ∃ n, wP g0 n s v = true) →
    (cellAt g e.1 e.2).previousNode = none →
    (cellAt (aStarLoop fuel g e openSet vis).1 e.1 e.2).previousNode =
      none := by
  intro fuel
  induction fuel with
  | zero =>
    intro g openSet vis _ _ _ _ hprev
    exact hprev
  | succ fuel ih =>
    intro g openSet vis hshape htypes hopen hvisr hprev
    have hperm := sortNodesByF_perm g openSet
    rw [aStarLoop]
    cases hs2 : sortNodesByF g openSet with
    | nil => exact hprev
    | cons current rest =>
      have hpermC : (current :: rest).Perm openSet := hs2 ▸ hperm
      have hcm : current ∈ openSet :=
        hpermC.subset (List.mem_cons_self current rest)
      have hrsub : ∀ x ∈ rest, x ∈ openSet := fun x hx =>
        hpermC.subset (List.mem_cons_of_mem current hx)
      obtain ⟨hcmem, n, hcreach⟩ := hopen current hcm
      dsimp only
      by_cases hwall : (cellAt g current.1 current.2).type = CellType.wall
      · rw [if_pos hwall]
        exact ih g rest vis hshape htypes
          (fun v hv => hopen v (hrsub v hv)) hvisr hprev
      · rw [if_neg hwall]
        have hce : current ≠ e := by
          intro h
          exact hunreach ⟨n, h ▸ hcreach⟩
        rw [if_neg hce]
        have hcb := allPos_bounds g0 g hshape current hcmem
        have hg1self : cellAt (setCell g current.1 current.2
            { cellAt g current.1 current.2 with isVisited := true })
            current.1 current.2 =
            { cellAt g current.1 current.2 with isVisited := true } :=
          cellAt_setCell_self g current.1 current.2 _ hcb.1 hcb.2
        have hg1ne : ∀ q : Nat × Nat, q ≠ current →
            cellAt (setCell g current.1 current.2
              { cellAt g current.1 current.2 with isVisited := true })
              q.1 q.2 = cellAt g q.1 q.2 := fun q hq =>
          cellAt_setCell_ne g current.1 current.2 _ q.1 q.2
            (pair_ne_comp hq)
        have hsh1 : ShapeEq g0 (setCell g current.1 current.2
            { cellAt g current.1 current.2 with isVisited := true }) :=
          shapeEq_trans hshape (shapeEq_setCell g current.1 current.2 _)
        have hg1type : ∀ r c, (cellAt (setCell g current.1 current.2
            { cellAt g current.1 current.2 with isVisited := true })
            r c).type = (cellAt g r c).type := by
          intro r c
          by_cases hq : (r, c) = current
          · have h1 : r = current.1 := by rw [← hq]
            have h2 : c = current.2 := by rw [← hq]
            subst h1
            subst h2
            rw [hg1self]
          · exact congrArg Cell.type (hg1ne (r, c) hq)
        have hnbr1 : nbrPos (setCell g current.1 current.2
            { cellAt g current.1 current.2 with isVisited := true })
            current.1 current.2 = nbrPos g0 current.1 current.2 :=
          nbrPos_shape g0 _ hsh1 current.1 current.2
        have hT : ∀ p ∈ getNeighborsPos (setCell g current.1 current.2
            { cellAt g current.1 current.2 with isVisited := true })
            current.1 current.2, p ∈ nbrPos g0 current.1 current.2 := by
          intro p hp
          obtain ⟨h1, _⟩ := (mem_getNeighborsPos _ current.1 current.2
            p).mp hp
          rw [hnbr1] at h1
          exact h1
        obtain ⟨Δ, hΔeq, hΔm, _, _⟩ := relaxNeighbors_open
          (setCell g current.1 current.2
            { cellAt g current.1 current.2 with isVisited := true })
          e current rest
        refine ih _ _ (vis ++ [current]) ?_ ?_ ?_ ?_ ?_
        · exact shapeEq_trans hsh1 (relaxNeighbors_shape
            (setCell g current.1 current.2
              { cellAt g current.1 current.2 with isVisited := true })
            e current rest)
        · intro r c
          exact ((relaxNeighbors_fields (setCell g current.1 current.2
            { cellAt g current.1 current.2 with isVisited := true })
            e current rest r c).2.1).trans
            ((hg1type r c).trans (htypes r c))
        · intro v hv
          have hv2 : v ∈ (relaxNeighbors (setCell g current.1 current.2
              { cellAt g current.1 current.2 with isVisited := true })
              e current rest).2 := hv
          rw [hΔeq] at hv2
          rcases List.mem_append.mp hv2 with h | h
          · exact hopen v (hrsub v h)
          · obtain ⟨hvT, _, _, hwlv⟩ := hΔm v h
            have hw0 : (cellAt g0 v.1 v.2).type ≠ CellType.wall := by
              intro hw
              apply hwlv
              rw [hg1type v.1 v.2, htypes v.1 v.2]
              exact hw
            exact ⟨nbrPos_mem_allPos g0 hrect current hcmem v (hT v hvT),
              n + 1, wP_step g0 n s current v hcreach hcmem
                (hT v hvT) hw0⟩
        · intro v hvv
          have hvv2 : (cellAt (relaxNeighbors (setCell g current.1
              current.2 { cellAt g current.1 current.2 with
                isVisited := true }) e current rest).1 v.1
              v.2).isVisited = true := hvv
          rw [(relaxNeighbors_fields (setCell g current.1 current.2
            { cellAt g current.1 current.2 with isVisited := true })
            e current rest v.1 v.2).1] at hvv2
          by_cases hvc : v = current
          · rw [hvc]
            exact ⟨hcmem, n, hcreach⟩
          · rw [hg1ne v hvc] at hvv2
            exact hvisr v hvv2
        · have hg1prevE : (cellAt (setCell g current.1 current.2
              { cellAt g current.1 current.2 with isVisited := true })
              e.1 e.2).previousNode = none := by
            rw [hg1ne e (Ne.symm hce)]
            exact hprev
          by_cases heT : e ∈ getNeighborsPos (setCell g current.1
              current.2 { cellAt g current.1 current.2 with
                isVisited := true }) current.1 current.2
          · exfalso
            apply hunreach
            exact ⟨n + 1, wP_step g0 n s current e hcreach hcmem
              (hT e heT) hew⟩
          · have hout := relaxNeighbors_outside
              (setCell g current.1 current.2
                { cellAt g current.1 current.2 with isVisited := true })
              e current rest e heT
            exact (congrArg Cell.previousNode hout).trans hg1prevE

/-- C5 (amended): on a freshly generated grid (no `previousNode` set
anywhere) whose end cell is in bounds and typed `finish`, whichever
pathfinding run (dijkstra or aStar) never visits the end cell (frontier
exhausted), the derived shortest-path node list is `[end]` — the lone end
cell, not the empty list — and the second animation phase repaints no
cell: applying the path-phase `setGrid` updates to that list leaves the
grid unchanged, so no cell is ever painted as a path cell.  The aStar
half additionally assumes the remaining fresh search fields, a
rectangular grid and an in-bounds non-wall start, as the visualizer
always provides. -/
theorem C5_unreachable_end_only (g : Grid) (s e : Nat × Nat)
    (hfresh : ∀ r, r < (g : List (List Cell)).length →
      ∀ c, c < ((g : List (List Cell)).getD r []).length →
      (cellAt g r c).previousNode = none)
    (htype : (cellAt g e.1 e.2).type = CellType.finish)
    (hre : e.1 < (g : List (List Cell)).length)
    (hce2 : e.2 < ((g : List (List Cell)).getD e.1 []).length) :
    (e ∉ (dijkstra g s e).2 →
      getNodesInShortestPathOrder (dijkstra g s e).1 e = [e] ∧
      animateShortestPathApply (dijkstra g s e).1
        (getNodesInShortestPathOrder (dijkstra g s e).1 e) =
        (dijkstra g s e).1) ∧
    ((∀ r, r < (g : List (List Cell)).length →
        ∀ c, c < ((g : List (List Cell)).getD r []).length →
        (cellAt g r c).isVisited = false ∧ (cellAt g r c).g = 0) →
      (∀ r, r < (g : List (List Cell)).length →
        ((g : List (List Cell)).getD r []).length =
        ((g : List (List Cell)).getD 0 []).length) →
      s.1 < (g : List (List Cell)).length →
      s.2 < ((g : List (List Cell)).getD s.1 []).length →
      (cellAt g s.1 s.2).type ≠ CellType.wall →
      e ∉ (aStar g s e).2 →
      getNodesInShortestPathOrder (aStar g s e).1 e = [e] ∧
      animateShortestPathApply (aStar g s e).1
        (getNodesInShortestPathOrder (aStar g s e).1 e) =
        (aStar g s e).1) := by
  have hfresh2 : ∀ r c, (cellAt g r c).previousNode = none := by
    intro r c
    by_cases hb : r < (g : List (List Cell)).length ∧
        c < ((g : List (List Cell)).getD r []).length
    · exact hfresh r hb.1 c hb.2
    · rw [cellAt_oob g r c hb]
      rfl
  constructor
  · intro hnv
    exact C5_dijkstra_half g s e hfresh2 htype hre hce2 hnv
  · intro hfrA hrect hs1 hs2b hsw hnvA
    have hfreshA2 : ∀ r c, (cellAt g r c).isVisited = false ∧
        (cellAt g r c).g = 0 := by
      intro r c
      by_cases hb : r < (g : List (List Cell)).length ∧
          c < ((g : List (List Cell)).getD r []).length
      · exact hfrA r hb.1 c hb.2
      · rw [cellAt_oob g r c hb]
        exact ⟨rfl, rfl⟩
    have hsm : s ∈ getAllNodesPos g :=
      (mem_getAllNodesPos g s).mpr ⟨hs1, hs2b⟩
    have hem : e ∈ getAllNodesPos g :=
      (mem_getAllNodesPos g e).mpr ⟨hre, hce2⟩
    have hew : (cellAt g e.1 e.2).type ≠ CellType.wall := by
      rw [htype]
      decide
    by_cases hreach : ∃ nn, wP g nn s e = true
    · exfalso
      obtain ⟨D, hD⟩ := wdist_exists g s e hreach
      have h2 := aStar_path_length g s e D
        (fun r c => ⟨(hfreshA2 r c).1, hfresh2 r c, (hfreshA2 r c).2⟩)
        hrect hsm hem hsw hD
      exact hnvA h2.2
    · have hde : aStar g s e = aStarLoop
          (5 * (getAllNodesPos (setCell g s.1 s.2 { cellAt g s.1 s.2 with
            g := 0, h := heuristic s e, f := heuristic s e })).length + 1)
          (setCell g s.1 s.2 { cellAt g s.1 s.2 with
            g := 0, h := heuristic s e, f := heuristic s e }) e [s] [] :=
        rfl
      have hgIself : cellAt (setCell g s.1 s.2 { cellAt g s.1 s.2 with
          g := 0, h := heuristic s e, f := heuristic s e }) s.1 s.2 =
          { cellAt g s.1 s.2 with
            g := 0, h := heuristic s e, f := heuristic s e } :=
        cellAt_setCell_self g s.1 s.2 _ hs1 hs2b
      have hgIne : ∀ q : Nat × Nat, q ≠ s →
          cellAt (setCell g s.1 s.2 { cellAt g s.1 s.2 with
            g := 0, h := heuristic s e, f := heuristic s e }) q.1 q.2 =
          cellAt g q.1 q.2 := fun q hq =>
        cellAt_setCell_ne g s.1 s.2 _ q.1 q.2 (pair_ne_comp hq)
      have hshI : ShapeEq g (setCell g s.1 s.2 { cellAt g s.1 s.2 with
          g := 0, h := heuristic s e, f := heuristic s e }) :=
        shapeEq_setCell g s.1 s.2 _
      have htypesI : ∀ r c, (cellAt (setCell g s.1 s.2
          { cellAt g s.1 s.2 with
            g := 0, h := heuristic s e, f := heuristic s e }) r c).type =
          (cellAt g r c).type := by
        intro r c
        by_cases hq : (r, c) = s
        · have h1 : r = s.1 := by rw [← hq]
          have h2 : c = s.2 := by rw [← hq]
          subst h1
          subst h2
          rw [hgIself]
        · exact congrArg Cell.type (hgIne (r, c) hq)
      have hvisI : ∀ v : Nat × Nat, (cellAt (setCell g s.1 s.2
          { cellAt g s.1 s.2 with
            g := 0, h := heuristic s e, f := heuristic s e })
          v.1 v.2).isVisited = true →
          v ∈ getAllNodesPos g ∧ ∃ n, wP g n s v = true := by
        intro v hvv
        exfalso
        by_cases hq : v = s
        · have h1 : v.1 = s.1 := by rw [hq]
          have h2 : v.2 = s.2 := by rw [hq]
          rw [h1, h2, hgIself] at hvv
          have h3 : (cellAt g s.1 s.2).isVisited = true := hvv
          rw [(hfreshA2 s.1 s.2).1] at h3
          cases h3
        · rw [hgIne v hq] at hvv
          rw [(hfreshA2 v.1 v.2).1] at hvv
          cases hvv
      have hprevI : (cellAt (setCell g s.1 s.2 { cellAt g s.1 s.2 with
          g := 0, h := heuristic s e, f := heuristic s e })
          e.1 e.2).previousNode = none := by
        by_cases hq : e = s
        · have h1 : e.1 = s.1 := by rw [hq]
          have h2 : e.2 = s.2 := by rw [hq]
          rw [h1, h2, hgIself]
          exact hfresh2 s.1 s.2
        · rw [hgIne e hq]
          exact hfresh2 e.1 e.2
      have hprevFin : (cellAt (aStar g s e).1 e.1 e.2).previousNode =
          none := by
        rw [hde]
        exact aStarLoop_unreachable g hrect s e hew hreach _ _ [s] []
          hshI htypesI
          (fun v hv => by
            rw [List.mem_singleton.mp hv]
            exact ⟨hsm, 0, wP_zero g s⟩)
          hvisI hprevI
      have htypeF : (cellAt (aStar g s e).1 e.1 e.2).type =
          CellType.finish := by
        have hsk := skeletonEq_aStar g s e
        rw [(hsk e.1 e.2).1]
        exact htype
      have hpath : getNodesInShortestPathOrder (aStar g s e).1 e =
          [e] := by
        unfold getNodesInShortestPathOrder
        rw [shortestPathOrder]
        rw [hprevFin]
      have hanim : animateShortestPathApply (aStar g s e).1 [e] =
          (aStar g s e).1 := by
        unfold animateShortestPathApply
        simp only [List.foldl_cons, List.foldl_nil]
        rw [if_pos (Or.inr htypeF)]
        exact setCell_cellAt_self (aStar g s e).1 e.1 e.2
      refine ⟨hpath, ?_⟩
      rw [hpath]
      exact hanim

theorem C5_unreachable_end_only_witness :
    (getNodesInShortestPathOrder
      (dijkstra (toggleWall (initializeGrid 1 3 (0, 0) (0, 2)) 0 1)
        (0, 0) (0, 2)).1 (0, 2) = [(0, 2)] ∧
    animateShortestPathApply
      (dijkstra (toggleWall (initializeGrid 1 3 (0, 0) (0, 2)) 0 1)
        (0, 0) (0, 2)).1
      (getNodesInShortestPathOrder
        (dijkstra (toggleWall (initializeGrid 1 3 (0, 0) (0, 2)) 0 1)
          (0, 0) (0, 2)).1 (0, 2)) =
      (dijkstra (toggleWall (initializeGrid 1 3 (0, 0) (0, 2)) 0 1)
        (0, 0) (0, 2)).1) ∧
    (getNodesInShortestPathOrder
      (aStar (toggleWall (initializeGrid 1 3 (0, 0) (0, 2)) 0 1)
        (0, 0) (0, 2)).1 (0, 2) = [(0, 2)] ∧
    animateShortestPathApply
      (aStar (toggleWall (initializeGrid 1 3 (0, 0) (0, 2)) 0 1)
        (0, 0) (0, 2)).1
      (getNodesInShortestPathOrder
        (aStar (toggleWall (initializeGrid 1 3 (0, 0) (0, 2)) 0 1)
          (0, 0) (0, 2)).1 (0, 2)) =
      (aStar (toggleWall (initializeGrid 1 3 (0, 0) (0, 2)) 0 1)
        (0, 0) (0, 2)).1) :=
  ⟨(C5_unreachable_end_only
      (toggleWall (initializeGrid 1 3 (0, 0) (0, 2)) 0 1) (0, 0) (0, 2)
      (by decide) (by decide) (by decide) (by decide)).1 (by decide),
   (C5_unreachable_end_only
      (toggleWall (initializeGrid 1 3 (0, 0) (0, 2)) 0 1) (0, 0) (0, 2)
      (by decide) (by decide) (by decide) (by decide)).2
      (by decide) (by decide) (by decide) (by decide) (by decide)
      (by decide)⟩

/-- C2: for every fresh rectangular grid with in-bounds non-wall start
and end cells joined by some wall-avoiding path, running the `dijkstra`
recorder and the `aStar` recorder and deriving each one's path by walking
`previousNode` back-pointers from the end cell yields two paths of equal
length, and that length is `D + 1` nodes, where `D` is the exact shortest
wall-avoiding step count from start to end (a shortest path visits
`D + 1` cells). -/
theorem C2_dijkstra_astar_equal_path_length (g : Grid) (s e : Nat × Nat)
    (D : Nat)
    (hfresh : ∀ r, r < (g : List (List Cell)).length →
      ∀ c, c < ((g : List (List Cell)).getD r []).length →
      (cellAt g r c).distance = none ∧
      (cellAt g r c).isVisited = false ∧
      (cellAt g r c).previousNode = none ∧ (cellAt g r c).g = 0)
    (hrect : ∀ r, r < (g : List (List Cell)).length →
      ((g : List (List Cell)).getD r []).length =
      ((g : List (List Cell)).getD 0 []).length)
    (hsm : s ∈ getAllNodesPos g) (hem : e ∈ getAllNodesPos g)
    (hsw : (cellAt g s.1 s.2).type ≠ CellType.wall)
    (hew : (cellAt g e.1 e.2).type ≠ CellType.wall)
    (hD : WDistP g s e D) :
    (getNodesInShortestPathOrder (dijkstra g s e).1 e).length =
      (getNodesInShortestPathOrder (aStar g s e).1 e).length ∧
    (getNodesInShortestPathOrder (dijkstra g s e).1 e).length = D + 1 := by
  have hfresh2 : ∀ r c, (cellAt g r c).distance = none ∧
      (cellAt g r c).isVisited = false ∧
      (cellAt g r c).previousNode = none ∧ (cellAt g r c).g = 0 := by
    intro r c
    by_cases hb : r < (g : List (List Cell)).length ∧
        c < ((g : List (List Cell)).getD r []).length
    · exact hfresh r hb.1 c hb.2
    · rw [cellAt_oob g r c hb]
      exact ⟨rfl, rfl, rfl, rfl⟩
  have h1 := dijkstra_path_length g s e D
    (fun r c => ⟨(hfresh2 r c).1, (hfresh2 r c).2.1, (hfresh2 r c).2.2.1⟩)
    hrect hsm hem hsw hew hD
  have h2 := aStar_path_length g s e D
    (fun r c => ⟨(hfresh2 r c).2.1, (hfresh2 r c).2.2.1,
      (hfresh2 r c).2.2.2⟩)
    hrect hsm hem hsw hD
  exact ⟨h1.trans h2.1.symm, h1⟩

theorem C2_dijkstra_astar_equal_path_length_witness :
    (getNodesInShortestPathOrder
      (dijkstra (initializeGrid 2 2 (0, 0) (1, 1)) (0, 0) (1, 1)).1
      (1, 1)).length =
      (getNodesInShortestPathOrder
        (aStar (initializeGrid 2 2 (0, 0) (1, 1)) (0, 0) (1, 1)).1
        (1, 1)).length ∧
    (getNodesInShortestPathOrder
      (dijkstra (initializeGrid 2 2 (0, 0) (1, 1)) (0, 0) (1, 1)).1
      (1, 1)).length = 2 + 1 :=
  C2_dijkstra_astar_equal_path_length (initializeGrid 2 2 (0, 0) (1, 1))
    (0, 0) (1, 1) 2
    (by decide) (by decide) (by decide) (by decide) (by decide) (by decide)
    ⟨by decide, by
      intro k hk
      rcases k with _ | _ | k
      · exact absurd hk (by decide)
      · exact absurd hk (by decide)
      · omega⟩

theorem C8_traversal_visits_witness :
    reachIn [[1], [0, 2], [1]] 2 0 2 = true ∧
    2 ∈ runBFS [[1], [0, 2], [1]] 0 ∧
    2 ∈ runDFS [[1], [0, 2], [1]] 0 :=
  ⟨by decide,
    (C8_traversal_visits [[1], [0, 2], [1]] 0).2.1 2 2 (by decide),
    (C8_traversal_visits [[1], [0, 2], [1]] 0).2.2.2.2 2 2 (by decide)⟩

end AlgViz
